import Mathlib

/-!
# A verification development for the multithreaded ray tracer (`src/ray.cpp`)

The C++ program is embedded shallowly.

* `float` values are modelled by the elements of an arbitrary linearly ordered
  field `K` with a floor function; there are no infinities.  Every definition is
  computable and can be run at `K = ℚ`.
* Rounding to binary32 (`round32`: nearest value, ties to even) is modelled where
  the outcome is discrete or accumulates over a loop: the literal `0.0001f` is
  the binary32 value `13743895 / 137438953472`, the product in
  `Color::operator*` is rounded before it is cut to an integer, and the steps
  and the running film coordinates of `render_tile` are rounded at every
  operation.  The other floating operations (vector algebra, intersection
  distances, light intensities) are exact.
* The `libm` functions `sqrt` and `pow` are not part of the repository; the
  definitions that call them take them as parameters.  The one place where the
  program can feed `sqrt` a negative number is modelled explicitly: `sqrt` then
  yields NaN, and every comparison with NaN is false.
* `assert` is modelled by `Option`: `none` is an aborted run.
* `uint8_t` channels are natural numbers, reduced modulo `256` at every
  conversion to `uint8_t`.
* The fixed-capacity arrays of `World` together with their counters are lists;
  the counter is the length of the list and the scan order is the list order.
* `int` values are integers or natural numbers without overflow.
* The pixel buffer is a map from the index to the colour stored there; code that
  stores into it yields the list of its stores, in the order they are made.
* The worker threads of `render_world` are run one after the other, in the order
  they are created.
-/

namespace Raytracer

/-! ## Colours -/

/-- Colour of `src/ray.cpp`: three `uint8_t` channels. -/
structure Color where
  red : Nat
  green : Nat
  blue : Nat
deriving DecidableEq, Repr

section Rounding

variable {K : Type} [LinearOrderedField K] [FloorRing K]

/-- The integer nearest to `m`; of two equally near integers, the even one. -/
def round_half_even (m : K) : Int :=
  if m - (⌊m⌋ : K) < 1 / 2 then ⌊m⌋
  else if 1 / 2 < m - (⌊m⌋ : K) then ⌊m⌋ + 1
  else if ⌊m⌋ % 2 = 0 then ⌊m⌋ else ⌊m⌋ + 1

/-- The binary32 exponent of `x`: the `e` with `2^e ≤ |x| < 2^(e+1)`, and `-126`
for the smaller (subnormal) values. -/
def exponent32 (x : K) : Int := max (Int.log 2 |x|) (-126)

/-- The distance between neighbouring binary32 values around `x`: the
significand has 24 bits. -/
def ulp32 (x : K) : K := (2 : K) ^ (exponent32 x - 23)

/-- The binary32 value nearest to `x`, ties to even: the result of a `float`
operation whose exact result is `x` (values beyond `FLT_MAX` are not turned into
an infinity). -/
def round32 (x : K) : K := (round_half_even (x / ulp32 x) : K) * ulp32 x

end Rounding

section ColorArith

variable {K : Type} [LinearOrderedField K] [FloorRing K]

/-- Conversion of a floating value to an integer type discards the fractional
part (rounds toward zero). -/
def truncate (v : K) : Int := if 0 ≤ v then ⌊v⌋ else ⌈v⌉

/-- The cast `(uint8_t)v` of a floating value: truncation toward zero, and the
low eight bits of the truncated integer (what the usual targets produce when the
truncated value does not fit; the C++ standard leaves that case undefined). -/
def to_uint8 (v : K) : Nat := (truncate v % 256).toNat

/-- The member `Color::operator*(float scalar)`: every product `scalar * channel`
is a `float` product, rounded to binary32 before `std::min` and the cast. -/
def Color.mul_scalar (c : Color) (scalar : K) : Color :=
  { red := to_uint8 (min (255 : K) (round32 (scalar * (c.red : K))))
    green := to_uint8 (min (255 : K) (round32 (scalar * (c.green : K))))
    blue := to_uint8 (min (255 : K) (round32 (scalar * (c.blue : K)))) }

/-- The free function `operator*(float scalar, Color c)`, which is `c * scalar`. -/
def Color.scalar_mul (scalar : K) (c : Color) : Color := c.mul_scalar scalar

end ColorArith

/-- The member `Color::operator+(Color c)`: the sum is formed in `int`, capped by
`std::min(255, ·)` and converted to `uint8_t`. -/
def Color.add (a c : Color) : Color :=
  { red := (min 255 (a.red + c.red)) % 256
    green := (min 255 (a.green + c.green)) % 256
    blue := (min 255 (a.blue + c.blue)) % 256 }

/-! ## Vectors, materials and shapes -/

/-- Material of a surface. -/
structure Material (K : Type) where
  color : Color
  specular_contribution : K
  diffuse_contribution : K
  specular_exponent : K
  reflectance : K

/-- Vector with three floating components. -/
structure V3f (K : Type) where
  x : K
  y : K
  z : K

section Geometry

variable {K : Type} [LinearOrderedField K]

/-- The binary `V3f::operator-`. -/
def V3f.sub (a b : V3f K) : V3f K := ⟨a.x - b.x, a.y - b.y, a.z - b.z⟩

/-- The unary `V3f::operator-`. -/
def V3f.neg (a : V3f K) : V3f K := ⟨-a.x, -a.y, -a.z⟩

/-- The binary `V3f::operator+`. -/
def V3f.add (a b : V3f K) : V3f K := ⟨a.x + b.x, a.y + b.y, a.z + b.z⟩

/-- The dot product `V3f::operator*(V3f)`. -/
def V3f.dot (a b : V3f K) : K := a.x * b.x + a.y * b.y + a.z * b.z

/-- The member `V3f::operator*(float scalar)`. -/
def V3f.mul_scalar (a : V3f K) (scalar : K) : V3f K :=
  ⟨scalar * a.x, scalar * a.y, scalar * a.z⟩

/-- The free function `operator*(float scalar, V3f v)`, which is `v * scalar`. -/
def V3f.scalar_mul (scalar : K) (v : V3f K) : V3f K := v.mul_scalar scalar

/-- The member `V3f::length_sq`. -/
def V3f.length_sq (a : V3f K) : K := a.dot a

/-- The member `V3f::length`; `sqrt` is the library square root. -/
def V3f.length (sqrt : K → K) (a : V3f K) : K := sqrt a.length_sq

/-- The function `normalize`: `(1 / v.length()) * v`. -/
def normalize (sqrt : K → K) (v : V3f K) : V3f K :=
  V3f.scalar_mul (1 / v.length sqrt) v

/-- Plane `normal · p = distance`. -/
structure Plane (K : Type) where
  normal : V3f K
  distance : K
  mat : Material K

/-- Sphere with its centre and its `radius` field. -/
structure Sphere (K : Type) where
  center : V3f K
  radius : K
  mat : Material K

/-- Ray with origin and direction. -/
structure Ray (K : Type) where
  origin : V3f K
  direction : V3f K

/-- Point light. -/
structure Light (K : Type) where
  position : V3f K
  intensity : K

/-- Coordinate space: an origin and three axes. -/
structure CoordinateSpace (K : Type) where
  origin : V3f K
  x_axis : V3f K
  y_axis : V3f K
  z_axis : V3f K

/-- The member `CoordinateSpace::vector`. -/
def CoordinateSpace.vector (s : CoordinateSpace K) (x y z : K) : V3f K :=
  ((s.origin.add (V3f.scalar_mul x s.x_axis)).add (V3f.scalar_mul y s.y_axis)).add
    (V3f.scalar_mul z s.z_axis)

/-- Scene.  `planes`, `spheres` and `lights` stand for the arrays of the source
together with `num_planes`, `num_spheres` and `num_lights`. -/
structure World (K : Type) where
  planes : List (Plane K)
  spheres : List (Sphere K)
  lights : List (Light K)
  default_color : Color
  camera : CoordinateSpace K

/-- The constant `FLT_MAX` of `<float.h>`: `(2 ^ 24 - 1) * 2 ^ 104`. -/
def FLT_MAX : K := 340282346638528859811704183484516925440

/-- The constant `tolerance` of `float_is_zero` and `float_is_negative`: the
literal `0.0001f`, which is the binary32 value `13743895 * 2 ^ (-37)`, a little
less than `1 / 10000`. -/
def tolerance : K := 13743895 / 137438953472

/-- The function `float_is_zero`. -/
def float_is_zero (v : K) : Bool := decide (-tolerance < v) && decide (v < tolerance)

/-- The function `float_is_negative`. -/
def float_is_negative (v : K) : Bool := decide (v < tolerance)

/-- The function `ray_intersects_plane`. -/
def ray_intersects_plane (ray : Ray K) (plane : Plane K) (dflt : K) : K :=
  let denom := plane.normal.dot ray.direction
  let plane_normal_and_ray_direction_are_perpendicular := float_is_zero denom
  if plane_normal_and_ray_direction_are_perpendicular then dflt
  else (plane.distance - plane.normal.dot ray.origin) / denom

/-- The function `ray_intersects_sphere`.  The result is `none` when the
assertion `!float_is_zero(a)` fails.  When `b * b - 4 * a * c` is negative,
`sqrt` returns NaN: `float_is_negative(NaN)`, `x1 > 0` and `x2 > 0` are all false,
so the function returns `FLT_MAX`. -/
def ray_intersects_sphere (sqrt : K → K) (ray : Ray K) (sphere : Sphere K) (dflt : K) :
    Option K :=
  let v := ray.origin.sub sphere.center
  let a := ray.direction.dot ray.direction
  if float_is_zero a then none
  else
    let b := (V3f.scalar_mul 2 v).dot ray.direction
    let c := v.dot v - sphere.radius
    let denom := 2 * a
    let radicand := b * b - 4 * a * c
    if radicand < 0 then some FLT_MAX
    else
      let discriminant := sqrt radicand
      if float_is_negative discriminant then some dflt
      else
        let x1 := (-b + discriminant) / denom
        let x2 := (-b - discriminant) / denom
        let res := if x1 > 0 then x1 else FLT_MAX
        if x2 > 0 ∧ x2 < res then some x2 else some res

/-- The function `reflect`: `v - 2.0f * (v * normal) * normal`. -/
def reflect (v normal : V3f K) : V3f K :=
  v.sub (V3f.scalar_mul (2 * v.dot normal) normal)

/-! ## Scene-wide intersection -/

/-- The struct `RayIntersectionResult`. -/
structure RayIntersectionResult (K : Type) where
  normal : V3f K
  intersection_point : V3f K
  mat : Material K
  intersected : Bool

/-- The locals of `intersect_ray_with_world` that its two loops update. -/
structure ScanState (K : Type) where
  min_intersection_distance : K
  res : RayIntersectionResult K

/-- The locals of `intersect_ray_with_world` before the first loop.  The source
leaves `normal`, `intersection_point` and `mat` of `res` unset; they are never
read while `intersected` is false, and stand here as zeroes. -/
def scan_init : ScanState K :=
  { min_intersection_distance := FLT_MAX
    res :=
      { normal := ⟨0, 0, 0⟩
        intersection_point := ⟨0, 0, 0⟩
        mat := ⟨⟨0, 0, 0⟩, 0, 0, 0, 0⟩
        intersected := false } }

/-- Body of the loop over the planes in `intersect_ray_with_world`. -/
def scan_plane (ray : Ray K) (st : ScanState K) (plane : Plane K) : ScanState K :=
  let intersection_distance := ray_intersects_plane ray plane FLT_MAX
  if intersection_distance ≥ 0 ∧ intersection_distance < st.min_intersection_distance then
    { min_intersection_distance := intersection_distance
      res :=
        { intersected := true
          mat := plane.mat
          intersection_point :=
            ray.origin.add (V3f.scalar_mul intersection_distance ray.direction)
          normal := plane.normal } }
  else st

/-- Body of the loop over the spheres in `intersect_ray_with_world`; `none` when
the assertion inside `ray_intersects_sphere` fails. -/
def scan_sphere (sqrt : K → K) (ray : Ray K) (st : ScanState K) (sphere : Sphere K) :
    Option (ScanState K) :=
  match ray_intersects_sphere sqrt ray sphere FLT_MAX with
  | none => none
  | some intersection_distance =>
    if intersection_distance ≥ 0 ∧ intersection_distance < st.min_intersection_distance then
      let intersection_point :=
        ray.origin.add (V3f.scalar_mul intersection_distance ray.direction)
      some
        { min_intersection_distance := intersection_distance
          res :=
            { intersected := true
              mat := sphere.mat
              intersection_point := intersection_point
              normal := normalize sqrt (intersection_point.sub sphere.center) } }
    else some st

/-- The loop over the spheres, from index `0` upward. -/
def scan_spheres (sqrt : K → K) (ray : Ray K) :
    ScanState K → List (Sphere K) → Option (ScanState K)
  | st, [] => some st
  | st, sphere :: rest =>
    match scan_sphere sqrt ray st sphere with
    | none => none
    | some st2 => scan_spheres sqrt ray st2 rest

/-- The function `intersect_ray_with_world`: the planes are scanned first, then
the spheres. -/
def intersect_ray_with_world (sqrt : K → K) (ray : Ray K) (world : World K) :
    Option (RayIntersectionResult K) :=
  match scan_spheres sqrt ray (world.planes.foldl (scan_plane ray) scan_init) world.spheres with
  | none => none
  | some st => some st.res

/-! ## Shading -/

/-- The locals `diffuse_intensity` and `specular_intensity` of `cast_ray`. -/
structure Intensities (K : Type) where
  diffuse_intensity : K
  specular_intensity : K

/-- The local `light_dir` of `cast_ray`: the normalized direction from the hit
point to the light. -/
def light_direction (sqrt : K → K) (point : V3f K) (light : Light K) : V3f K :=
  normalize sqrt (light.position.sub point)

/-- The local `light_ray` of `cast_ray`: it starts at the hit point moved by
`1e-3` along `light_dir` and points along `light_dir`. -/
def shadow_ray (sqrt : K → K) (point : V3f K) (light : Light K) : Ray K :=
  let light_dir := light_direction sqrt point light
  let shadow_starting_point := point.add (light_dir.mul_scalar (1 / 1000))
  ⟨shadow_starting_point, light_dir⟩

/-- Body of the loop over the lights in `cast_ray`.  `pow` is the library power
function; `std::fmax(0.0f, ·)` is `max 0 ·`. -/
def shade_light (sqrt : K → K) (pow : K → K → K) (ray : Ray K) (world : World K)
    (mat : Material K) (point normal : V3f K) (acc : Intensities K) (light : Light K) :
    Option (Intensities K) :=
  let light_dir := light_direction sqrt point light
  let light_ray := shadow_ray sqrt point light
  match intersect_ray_with_world sqrt light_ray world with
  | none => none
  | some light_intersect =>
    if light_intersect.intersected then some acc
    else
      let temp := max 0 ((reflect light_dir normal).dot ray.direction)
      some
        { diffuse_intensity :=
            acc.diffuse_intensity + light.intensity * max 0 (light_dir.dot normal)
          specular_intensity :=
            acc.specular_intensity + pow temp mat.specular_exponent * light.intensity }

/-- The loop over the lights, from index `0` upward. -/
def shade_lights (sqrt : K → K) (pow : K → K → K) (ray : Ray K) (world : World K)
    (mat : Material K) (point normal : V3f K) :
    Intensities K → List (Light K) → Option (Intensities K)
  | acc, [] => some acc
  | acc, light :: rest =>
    match shade_light sqrt pow ray world mat point normal acc light with
    | none => none
    | some acc2 => shade_lights sqrt pow ray world mat point normal acc2 rest

/-- The reflected ray that `cast_ray` follows from a hit. -/
def reflect_ray (ray : Ray K) (point normal : V3f K) : Ray K :=
  let reflect_dir := reflect ray.direction normal
  let reflect_starting_point := point.add (reflect_dir.mul_scalar (1 / 1000))
  ⟨reflect_starting_point, reflect_dir⟩

end Geometry

section Shading

variable {K : Type} [LinearOrderedField K] [FloorRing K]

/-- The last assignment to `res` in `cast_ray`:
`mat.color * diffuse_component + specular_color * specular_intensity *
mat.specular_contribution + mat.reflectance * reflect_color`, with `*` and `+`
associating to the left.  The local `specular_component` is computed by the
source and not used. -/
def final_color (mat : Material K) (acc : Intensities K) (reflect_color : Color) : Color :=
  let diffuse_component := acc.diffuse_intensity * mat.diffuse_contribution
  let specular_color : Color := ⟨255, 255, 255⟩
  ((mat.color.mul_scalar diffuse_component).add
      ((specular_color.mul_scalar acc.specular_intensity).mul_scalar
        mat.specular_contribution)).add
    (Color.scalar_mul mat.reflectance reflect_color)

/-- The function `cast_ray`; `none` when an assertion fails on the way. -/
def cast_ray (sqrt : K → K) (pow : K → K → K) (ray : Ray K) (world : World K)
    (reflection_depth : Int) : Option Color :=
  if _h : reflection_depth > 3 then some world.default_color
  else
    match intersect_ray_with_world sqrt ray world with
    | none => none
    | some intersection_res =>
      if intersection_res.intersected then
        let mat := intersection_res.mat
        let point := intersection_res.intersection_point
        let normal := intersection_res.normal
        match shade_lights sqrt pow ray world mat point normal ⟨0, 0⟩ world.lights with
        | none => none
        | some acc =>
          if float_is_zero mat.reflectance then
            some (final_color mat acc world.default_color)
          else
            match cast_ray sqrt pow (reflect_ray ray point normal) world
                (reflection_depth + 1) with
            | none => none
            | some reflect_color => some (final_color mat acc reflect_color)
      else some world.default_color
termination_by (4 - reflection_depth).toNat
decreasing_by omega

/-- The function `cast_ray` with a call counter: the `reflection_depth` argument
of every invocation of `cast_ray` that a call makes, itself included, in the
order of the calls. -/
def cast_ray_depths (sqrt : K → K) (pow : K → K → K) (ray : Ray K) (world : World K)
    (reflection_depth : Int) : List Int :=
  if _h : reflection_depth > 3 then [reflection_depth]
  else
    match intersect_ray_with_world sqrt ray world with
    | none => [reflection_depth]
    | some intersection_res =>
      if intersection_res.intersected then
        let mat := intersection_res.mat
        let point := intersection_res.intersection_point
        let normal := intersection_res.normal
        match shade_lights sqrt pow ray world mat point normal ⟨0, 0⟩ world.lights with
        | none => [reflection_depth]
        | some _ =>
          if float_is_zero mat.reflectance then [reflection_depth]
          else
            reflection_depth ::
              cast_ray_depths sqrt pow (reflect_ray ray point normal) world
                (reflection_depth + 1)
      else [reflection_depth]
termination_by (4 - reflection_depth).toNat
decreasing_by omega

end Shading

/-! ## Specification-side definitions -/

section SpecDefs

variable {K : Type} [LinearOrderedField K]

/-- The coefficient `a = direction · direction` of the quadratic of the
ray-sphere test, as the specification words it. -/
def quad_a (ray : Ray K) : K := ray.direction.dot ray.direction

/-- The coefficient `b = 2 · (origin − center) · direction`. -/
def quad_b (ray : Ray K) (sphere : Sphere K) : K :=
  2 * (ray.origin.sub sphere.center).dot ray.direction

/-- The coefficient `c = (origin − center) · (origin − center) − radius`. -/
def quad_c (ray : Ray K) (sphere : Sphere K) : K :=
  (ray.origin.sub sphere.center).dot (ray.origin.sub sphere.center) - sphere.radius

/-- The discriminant `b² − 4ac`. -/
def quad_discriminant (ray : Ray K) (sphere : Sphere K) : K :=
  quad_b ray sphere * quad_b ray sphere - 4 * quad_a ray * quad_c ray sphere

/-- The number `t` is a root of `a·t² + b·t + c = 0`. -/
def is_root (ray : Ray K) (sphere : Sphere K) (t : K) : Prop :=
  quad_a ray * t * t + quad_b ray sphere * t + quad_c ray sphere = 0

/-- A distance that the scene-wide scan accepts: `0 ≤ t < FLT_MAX`. -/
def valid_distance (t : K) : Prop := 0 ≤ t ∧ t < FLT_MAX

/-- What the scan reads off one object of the scene: the distance its primitive
test returns for the sentinel `FLT_MAX`, its material, and its normal at the
point `origin + distance · direction`. -/
structure Candidate (K : Type) where
  distance : K
  mat : Material K
  normal : V3f K

/-- The candidate of a plane. -/
def plane_candidate (ray : Ray K) (plane : Plane K) : Candidate K :=
  { distance := ray_intersects_plane ray plane FLT_MAX
    mat := plane.mat
    normal := plane.normal }

/-- The candidate of a sphere; `none` when the assertion of
`ray_intersects_sphere` fails. -/
def sphere_candidate (sqrt : K → K) (ray : Ray K) (sphere : Sphere K) :
    Option (Candidate K) :=
  match ray_intersects_sphere sqrt ray sphere FLT_MAX with
  | none => none
  | some t =>
    some
      { distance := t
        mat := sphere.mat
        normal :=
          normalize sqrt
            ((ray.origin.add (V3f.scalar_mul t ray.direction)).sub sphere.center) }

/-- The candidates of a list of spheres, in the order of the list; `none` when
one of the primitive tests fails its assertion. -/
def sphere_candidates (sqrt : K → K) (ray : Ray K) :
    List (Sphere K) → Option (List (Candidate K))
  | [] => some []
  | sphere :: rest =>
    match sphere_candidate sqrt ray sphere, sphere_candidates sqrt ray rest with
    | some c, some cs => some (c :: cs)
    | _, _ => none

/-- The objects of the world in scan order: the planes by index, then the
spheres by index. -/
def candidates (sqrt : K → K) (ray : Ray K) (world : World K) :
    Option (List (Candidate K)) :=
  match sphere_candidates sqrt ray world.spheres with
  | none => none
  | some cs => some (world.planes.map (plane_candidate ray) ++ cs)

/-- Common shape of the two loop bodies of `intersect_ray_with_world`, on a
candidate. -/
def scan_candidate (ray : Ray K) (st : ScanState K) (c : Candidate K) : ScanState K :=
  if c.distance ≥ 0 ∧ c.distance < st.min_intersection_distance then
    { min_intersection_distance := c.distance
      res :=
        { intersected := true
          mat := c.mat
          intersection_point := ray.origin.add (V3f.scalar_mul c.distance ray.direction)
          normal := c.normal } }
  else st

/-- The state `st` of the scan is right for the candidates `cs` seen so far:
either none of them has a valid distance and nothing is reported, or the report
is that of the first candidate at the least valid distance. -/
def ScanInvariant (ray : Ray K) (cs : List (Candidate K)) (st : ScanState K) : Prop :=
  (st.res.intersected = false ∧ st.min_intersection_distance = FLT_MAX ∧
      ∀ c ∈ cs, ¬ valid_distance c.distance) ∨
    (st.res.intersected = true ∧
      ∃ l1 c l2, cs = l1 ++ c :: l2 ∧ valid_distance c.distance ∧
        st.min_intersection_distance = c.distance ∧
        (∀ d ∈ l1, valid_distance d.distance → c.distance < d.distance) ∧
        (∀ d ∈ l2, valid_distance d.distance → c.distance ≤ d.distance) ∧
        st.res.mat = c.mat ∧ st.res.normal = c.normal ∧
        st.res.intersection_point =
          ray.origin.add (V3f.scalar_mul c.distance ray.direction))

end SpecDefs

section SpecColor

variable {K : Type} [LinearOrderedField K] [FloorRing K]

/-- The final colour as the specification words it: each of the three terms is
one colour-by-scalar multiplication, the specular term being white scaled once
by `specular_intensity * specular_contribution`. -/
def final_color_spec (mat : Material K) (acc : Intensities K) (reflect_color : Color) :
    Color :=
  let white : Color := ⟨255, 255, 255⟩
  ((mat.color.mul_scalar (acc.diffuse_intensity * mat.diffuse_contribution)).add
      (white.mul_scalar (acc.specular_intensity * mat.specular_contribution))).add
    (reflect_color.mul_scalar mat.reflectance)

end SpecColor

/-! ## Concrete scenes

Unless its description says otherwise, every number below is a binary fraction
of a few bits, and every square root taken on them is exact, so the `float`
program computes on them what the model computes. -/

/-- Square root on `ℚ`: exact at the squares of rationals, and otherwise the
quotient of the integer square roots of the numerator and the denominator. -/
def sqrt_rat (x : ℚ) : ℚ := Rat.sqrt x

/-- Power on `ℚ`, exact at natural exponents. -/
def pow_rat (x y : ℚ) : ℚ := x ^ (⌊y⌋).toNat

/-- Matte material. -/
def plain : Material ℚ := ⟨⟨203, 65, 84⟩, 0, 0, 0, 0⟩

/-- Sphere with `radius` field `1` about the origin. -/
def unit_sphere : Sphere ℚ := ⟨⟨0, 0, 0⟩, 1, plain⟩

/-- Ray along `z` through the centre of `unit_sphere`. -/
def center_ray : Ray ℚ := ⟨⟨0, 0, -5⟩, ⟨0, 0, 1⟩⟩

/-- Ray along `z` that touches `unit_sphere` in one point. -/
def tangent_ray : Ray ℚ := ⟨⟨0, 1, -5⟩, ⟨0, 0, 1⟩⟩

/-- Sphere five units up the `z` axis. -/
def far_sphere : Sphere ℚ := ⟨⟨0, 0, 5⟩, 1, plain⟩

/-- Ray from the origin that points away from `far_sphere`. -/
def away_ray : Ray ℚ := ⟨⟨0, 0, 0⟩, ⟨0, 0, -1⟩⟩

/-- Sphere with `radius` field `5 / 16` about the origin. -/
def small_sphere : Sphere ℚ := ⟨⟨0, 0, 0⟩, 5 / 16, plain⟩

/-- Ray along `z` that passes the origin at distance `1 / 2`. -/
def near_miss_ray : Ray ℚ := ⟨⟨0, 1 / 2, -5⟩, ⟨0, 0, 1⟩⟩

/-- Ray toward `unit_sphere` whose direction has squared length `1 / 40000`. -/
def slow_ray : Ray ℚ := ⟨⟨0, 0, -5⟩, ⟨0, 0, 1 / 200⟩⟩

/-- Ray along `z` that passes `unit_sphere` at distance `2`. -/
def high_ray : Ray ℚ := ⟨⟨0, 2, -5⟩, ⟨0, 0, 1⟩⟩

/-- Ray along `x`. -/
def level_ray : Ray ℚ := ⟨⟨0, 0, 0⟩, ⟨1, 0, 0⟩⟩

/-- Glossy floor material: specular contribution `1 / 2`, nothing else. -/
def floor_mat : Material ℚ := ⟨⟨10, 20, 30⟩, 1 / 2, 0, 1, 0⟩

/-- The plane `y = 0`. -/
def floor_plane : Plane ℚ := ⟨⟨0, 1, 0⟩, 0, floor_mat⟩

/-- Light of intensity `2` four units above the origin. -/
def overhead_light : Light ℚ := ⟨⟨0, 4, 0⟩, 2⟩

/-- Camera at the origin along the coordinate axes. -/
def camera0 : CoordinateSpace ℚ := ⟨⟨0, 0, 0⟩, ⟨1, 0, 0⟩, ⟨0, 1, 0⟩, ⟨0, 0, 1⟩⟩

/-- One glossy floor under one light. -/
def lit_floor : World ℚ := ⟨[floor_plane], [], [overhead_light], ⟨240, 248, 255⟩, camera0⟩

/-- Ray that falls straight onto the floor from height `1`. -/
def down_ray : Ray ℚ := ⟨⟨0, 1, 0⟩, ⟨0, -1, 0⟩⟩

/-- Perfect mirror: reflectance `1`. -/
def mirror : Material ℚ := ⟨⟨255, 255, 255⟩, 0, 0, 100, 1⟩

/-- The mirror plane `y = 1`. -/
def ceiling : Plane ℚ := ⟨⟨0, 1, 0⟩, 1, mirror⟩

/-- The mirror plane `y = -1`. -/
def ground : Plane ℚ := ⟨⟨0, 1, 0⟩, -1, mirror⟩

/-- Two facing mirrors and no light. -/
def mirror_hall : World ℚ := ⟨[ceiling, ground], [], [], ⟨240, 248, 255⟩, camera0⟩

/-- Ray that rises from the origin between the two mirrors. -/
def up_ray : Ray ℚ := ⟨⟨0, 0, 0⟩, ⟨0, 1, 0⟩⟩

/-- Plane `z = -10`, behind the origin of `center_ray`. -/
def behind_wall : Plane ℚ := ⟨⟨0, 0, 1⟩, -10, plain⟩

/-- Plane `z = 0`. -/
def back_wall : Plane ℚ := ⟨⟨0, 0, 1⟩, 0, plain⟩

/-- Plane `z = -1`, which touches `unit_sphere` where `center_ray` enters it. -/
def front_wall : Plane ℚ := ⟨⟨0, 0, 1⟩, -1, floor_mat⟩

/-- Three planes and two spheres along `center_ray`, at the distances `-5`, `5`,
`4`, `4` and `9`. -/
def crowded_world : World ℚ :=
  ⟨[behind_wall, back_wall, front_wall], [unit_sphere, far_sphere], [], ⟨240, 248, 255⟩,
    camera0⟩

/-- One plane and one sphere. -/
def guarded_world : World ℚ := ⟨[back_wall], [unit_sphere], [], ⟨240, 248, 255⟩, camera0⟩

/-- Horizontal plane at the height `0.0001f`. -/
def shelf : Plane ℚ := ⟨⟨0, 1, 0⟩, 13743895 / 137438953472, plain⟩

/-- Ray from the origin that rises by `0.0001f` per unit of `x`. -/
def grazing_ray : Ray ℚ := ⟨⟨0, 0, 0⟩, ⟨1, 13743895 / 137438953472, 0⟩⟩

/-! ## Scene construction -/

section SceneConstruction

variable {K : Type}

/-- The constant `World::max_num_planes`. -/
def World.max_num_planes : Nat := 3

/-- The constant `World::max_num_spheres`. -/
def World.max_num_spheres : Nat := 5

/-- The constant `World::max_num_lights`. -/
def World.max_num_lights : Nat := 3

/-- The constructor `World()`: the three counts are `0`.  It leaves
`default_color` and `camera` unset; they are given here. -/
def World.init (default_color : Color) (camera : CoordinateSpace K) : World K :=
  { planes := []
    spheres := []
    lights := []
    default_color := default_color
    camera := camera }

/-- The member `World::push_plane`; `none` when its assertion fails. -/
def World.push_plane (w : World K) (plane : Plane K) : Option (World K) :=
  if w.planes.length < World.max_num_planes then
    some { w with planes := w.planes ++ [plane] }
  else none

/-- The member `World::push_sphere`; `none` when its assertion fails. -/
def World.push_sphere (w : World K) (sphere : Sphere K) : Option (World K) :=
  if w.spheres.length < World.max_num_spheres then
    some { w with spheres := w.spheres ++ [sphere] }
  else none

/-- The member `World::push_light`; `none` when its assertion fails. -/
def World.push_light (w : World K) (light : Light K) : Option (World K) :=
  if w.lights.length < World.max_num_lights then
    some { w with lights := w.lights ++ [light] }
  else none

/-- The worlds that are built from a freshly constructed one by pushes that do
not fail. -/
inductive World.Built : World K → Prop
  | init (default_color : Color) (camera : CoordinateSpace K) :
      World.Built (World.init default_color camera)
  | plane (w w2 : World K) (plane : Plane K) :
      World.Built w → w.push_plane plane = some w2 → World.Built w2
  | sphere (w w2 : World K) (sphere : Sphere K) :
      World.Built w → w.push_sphere sphere = some w2 → World.Built w2
  | light (w w2 : World K) (light : Light K) :
      World.Built w → w.push_light light = some w2 → World.Built w2

end SceneConstruction

/-! ## Rendering -/

/-- The struct `Image` without its buffer `pixels`, which is kept apart. -/
structure Image where
  width : Nat
  height : Nat

/-- The struct `TileInfo` without the thread id. -/
structure TileInfo (K : Type) where
  img : Image
  ymin : Nat
  ymax : Nat
  world : World K

/-- One store `pixels[index] = value` into a buffer. -/
def store {α : Type} (pixels : Nat → α) (w : Nat × α) : Nat → α :=
  fun i => if i = w.1 then w.2 else pixels i

section Rendering

variable {K : Type} [LinearOrderedField K]

/-- The locals `half_film_width` and `half_film_height` of `render_tile`, in
this order, after the aspect ratio computation. -/
def half_film_size (img : Image) : K × K :=
  if img.width > img.height then (1, (img.height : K) / (img.width : K))
  else if img.height > img.width then ((img.width : K) / (img.height : K), 1)
  else (1, 1)

/-- The local `film` of `render_tile`: the camera's axes about
`camera.origin + FOV * camera.z_axis`, with `FOV = 1.0f`. -/
def film_space (camera : CoordinateSpace K) : CoordinateSpace K :=
  { origin := camera.origin.add (V3f.scalar_mul 1 camera.z_axis)
    x_axis := camera.x_axis
    y_axis := camera.y_axis
    z_axis := camera.z_axis }

/-- The local `film_point` of `render_tile`. -/
def film_point (camera : CoordinateSpace K) (img : Image) (film_x film_y : K) : V3f K :=
  (film_space camera).vector ((half_film_size img).1 * film_x)
    ((half_film_size img).2 * film_y) 0

/-- The local `ray` of `render_tile`: from the camera origin through the film
point. -/
def camera_ray (sqrt : K → K) (camera : CoordinateSpace K) (img : Image)
    (film_x film_y : K) : Ray K :=
  { origin := camera.origin
    direction := normalize sqrt ((film_point camera img film_x film_y).sub camera.origin) }

/-- The loop of `render_world` that fills `tile_infos`, with `n` threads to
create and the running `ymin`. -/
def make_tiles (world : World K) (img : Image) (tile_height : Nat) :
    Nat → Nat → List (TileInfo K)
  | 0, _ => []
  | n + 1, ymin =>
    { img := img, ymin := ymin, ymax := ymin + tile_height, world := world } ::
      make_tiles world img tile_height n (ymin + tile_height)

/-- The array `tile_infos` of `render_world` for `nthreads` threads (the value of
`sysconf(_SC_NPROCESSORS_ONLN)`); `none` when the division by `nthreads` or the
assertion `img.height % nthreads == 0` fails. -/
def tile_infos (world : World K) (img : Image) (nthreads : Nat) :
    Option (List (TileInfo K)) :=
  if nthreads = 0 then none
  else if img.height % nthreads = 0 then
    some (make_tiles world img (img.height / nthreads) nthreads 0)
  else none

end Rendering

section RenderingLoops

variable {K : Type} [LinearOrderedField K] [FloorRing K]

/-- The local `ystep` of `render_tile`: the `float` quotient
`2.0f / (float)img.height`. -/
def ystep (img : Image) : K := round32 (2 / round32 (img.height : K))

/-- The local `xstep` of `render_tile`: the `float` quotient
`2.0f / (float)img.width`. -/
def xstep (img : Image) : K := round32 (2 / round32 (img.width : K))

/-- The inner loop of `render_tile`, `for (int x = xmin; x != xmax; ++x)`, from
the column `x` with `n` columns to go and the running `film_x`; `f` is what the
body computes from `film_x` and `film_y` and stores at `y * img.width + x`.  The
statement `film_x += xstep` is a `float` addition. -/
def tile_row {α : Type} (f : K → K → Option α) (img : Image) (y : Nat)
    (film_y : K) : Nat → Nat → K → Option (List (Nat × α))
  | _, 0, _ => some []
  | x, n + 1, film_x =>
    match f film_x film_y with
    | none => none
    | some c =>
      match tile_row f img y film_y (x + 1) n (round32 (film_x + xstep img)) with
      | none => none
      | some rest => some ((y * img.width + x, c) :: rest)

/-- The outer loop of `render_tile`, `for (int y = ymin; y != ymax; ++y)`, from
the row `y` with `n` rows to go and the running `film_y`; every row starts at
`xmin = 0` with `film_x = -1.0f + xmin*xstep`.  The statement `film_y -= ystep`
is a `float` subtraction. -/
def tile_rows {α : Type} (f : K → K → Option α) (img : Image) :
    Nat → Nat → K → Option (List (Nat × α))
  | _, 0, _ => some []
  | y, n + 1, film_y =>
    match tile_row f img y film_y 0 img.width
        (round32 (-1 + round32 (round32 ((0 : Nat) : K) * xstep img))) with
    | none => none
    | some row =>
      match tile_rows f img (y + 1) n (round32 (film_y - ystep img)) with
      | none => none
      | some rest => some (row ++ rest)

/-- The two loops of `render_tile` over the band `[ymin, ymax)`, with `film_y`
starting at the `float` value of `1.0f - ymin*ystep`.  The loop `y != ymax`
reaches `ymax` only from `ymin ≤ ymax`; otherwise the result is `none`. -/
def tile_loop {α : Type} (f : K → K → Option α) (img : Image) (ymin ymax : Nat) :
    Option (List (Nat × α)) :=
  if ymin ≤ ymax then
    tile_rows f img ymin (ymax - ymin) (round32 (1 - round32 (round32 (ymin : K) * ystep img)))
  else none

end RenderingLoops

section RenderingShading

variable {K : Type} [LinearOrderedField K] [FloorRing K]

/-- The body of the inner loop of `render_tile`: the colour `cast_ray` returns
for the ray through the film point. -/
def render_pixel (sqrt : K → K) (pow : K → K → K) (world : World K) (img : Image)
    (film_x film_y : K) : Option Color :=
  cast_ray sqrt pow (camera_ray sqrt world.camera img film_x film_y) world 0

/-- The function `render_tile`: the stores it makes into `img.pixels`, in order;
`none` when an assertion fails on the way. -/
def render_tile (sqrt : K → K) (pow : K → K → K) (tile : TileInfo K) :
    Option (List (Nat × Color)) :=
  tile_loop (render_pixel sqrt pow tile.world tile.img) tile.img tile.ymin tile.ymax

/-- The threads of `render_world`, run one after the other on the buffer. -/
def run_tiles (sqrt : K → K) (pow : K → K → K) :
    (Nat → Color) → List (TileInfo K) → Option (Nat → Color)
  | pixels, [] => some pixels
  | pixels, tile :: rest =>
    match render_tile sqrt pow tile with
    | none => none
    | some stores => run_tiles sqrt pow (stores.foldl store pixels) rest

/-- The function `render_world` up to the join of the threads: the buffer once
every thread has finished. -/
def render_world (sqrt : K → K) (pow : K → K → K) (world : World K) (img : Image)
    (nthreads : Nat) (pixels : Nat → Color) : Option (Nat → Color) :=
  match tile_infos world img nthreads with
  | none => none
  | some tiles => run_tiles sqrt pow pixels tiles

end RenderingShading

/-! ## Specification-side definitions for rendering -/

section SpecRendering

variable {K : Type} [LinearOrderedField K]

/-- All the results of a list of computations, when none of them fails. -/
def collect {α : Type} : List (Option α) → Option (List α)
  | [] => some []
  | none :: _ => none
  | some a :: rest =>
    match collect rest with
    | none => none
    | some l => some (a :: l)

/-- The pixels `(x, y2)` of the rows `y, …, y + n - 1` of the image, in the order
of the two loops: row by row, and within a row from `x = 0` to `x = width - 1`. -/
def band (img : Image) : Nat → Nat → List (Nat × Nat)
  | _, 0 => []
  | y, n + 1 => (List.range' 0 img.width).map (fun x => (x, y)) ++ band img (y + 1) n

/-- The index `y * width + x` of the pixel `(x, y)` in the buffer. -/
def pixel_index (img : Image) (p : Nat × Nat) : Nat := p.2 * img.width + p.1

end SpecRendering

section SpecRenderingLoops

variable {K : Type} [LinearOrderedField K] [FloorRing K]

/-- The value of the running `film_x` of `render_tile` at the column `x`: `-1`,
increased `x` times by `xstep`, every operation rounded. -/
def film_x_run (img : Image) : Nat → K
  | 0 => round32 (-1 + round32 (round32 ((0 : Nat) : K) * xstep img))
  | x + 1 => round32 (film_x_run img x + xstep img)

/-- The value of the running `film_y` of `render_tile` in the band that starts at
the row `ymin`, `j` rows further down: `1 - ymin * ystep`, decreased `j` times by
`ystep`, every operation rounded. -/
def film_y_run (img : Image) (ymin : Nat) : Nat → K
  | 0 => round32 (1 - round32 (round32 (ymin : K) * ystep img))
  | j + 1 => round32 (film_y_run img ymin j - ystep img)

/-- What is stored for the pixel `(x, y)` in the band that starts at the row
`ymin`, when `f` is what the loop body computes. -/
def pixel_store {α : Type} (f : K → K → Option α) (img : Image) (ymin : Nat)
    (p : Nat × Nat) : Option (Nat × α) :=
  match f (film_x_run img p.1) (film_y_run img ymin (p.2 - ymin)) with
  | none => none
  | some c => some (pixel_index img p, c)

/-- What is stored for the pixels of `n` bands of `t` rows each, the first of
which starts at the row `ymin`, band after band. -/
def image_stores {α : Type} (f : K → K → Option α) (img : Image) (t : Nat) :
    Nat → Nat → List (Option (Nat × α))
  | 0, _ => []
  | n + 1, ymin =>
    (band img ymin t).map (pixel_store f img ymin) ++ image_stores f img t n (ymin + t)

end SpecRenderingLoops

/-! ## Concrete scenes for rendering -/

/-- World with no surface and no light. -/
def empty_world : World ℚ := ⟨[], [], [], ⟨240, 248, 255⟩, camera0⟩

/-- Image of two by two pixels. -/
def small_image : Image := ⟨2, 2⟩

/-- World with three planes, as many as the array holds. -/
def full_world : World ℚ :=
  ⟨[floor_plane, ceiling, ground], [], [], ⟨240, 248, 255⟩, camera0⟩

/-- Image of the size that `main` renders: `4096` by `2160` pixels. -/
def big_image : Image := ⟨4096, 2160⟩

/-- Plane through the point `(0, 0, -3.92)`, tilted by about `14.8` degrees from
the horizontal; the components of its normal are binary32 values, and the normal
has length `1` up to `2 * 10 ^ (-8)`.  The rays of the camera through the film
points with `film_x = -1` and `film_y` near `1 / 2` run almost along it:
`normal · direction` there is about `0.0001`. -/
def slanted_plane : Plane ℚ :=
  ⟨⟨0, 16223343 / 16777216, -(8550581 / 33554432)⟩, 1, plain⟩

/-- World of the one plane `slanted_plane`, without light. -/
def slanted_world : World ℚ := ⟨[slanted_plane], [], [], ⟨240, 248, 255⟩, camera0⟩

/-! ## Auxiliary lemmas -/

section RoundingLemmas

variable {K : Type} [LinearOrderedField K] [FloorRing K]

theorem round_half_even_eq_of_near (m : K) (n : Int) (h : |m - (n : K)| < 1 / 2) :
    round_half_even m = n := by
  rw [abs_lt] at h
  obtain ⟨h1, h2⟩ := h
  rcases le_or_lt (n : K) m with hm | hm
  · have hf : ⌊m⌋ = n := by
      rw [Int.floor_eq_iff]
      constructor
      · exact hm
      · linarith
    unfold round_half_even
    rw [hf, if_pos (by linarith)]
  · have hf : ⌊m⌋ = n - 1 := by
      rw [Int.floor_eq_iff]
      push_cast
      constructor
      · linarith
      · linarith
    unfold round_half_even
    rw [hf]
    push_cast
    rw [if_neg (by linarith), if_pos (by linarith)]
    ring

theorem round_half_even_nonneg (m : K) (h : 0 ≤ m) : 0 ≤ round_half_even m := by
  have hf : 0 ≤ ⌊m⌋ := Int.floor_nonneg.mpr h
  unfold round_half_even
  split_ifs <;> omega

theorem exponent32_eq (x : K) (e : Int) (he : -126 ≤ e) (h1 : (2 : K) ^ e ≤ |x|)
    (h2 : |x| < (2 : K) ^ (e + 1)) : exponent32 x = e := by
  have hpos : 0 < |x| := lt_of_lt_of_le (zpow_pos (by norm_num) e) h1
  have hlog : Int.log 2 |x| = e := by
    have ha : e ≤ Int.log 2 |x| := by
      rw [← Int.zpow_le_iff_le_log (by norm_num) hpos]
      exact_mod_cast h1
    have hb : Int.log 2 |x| < e + 1 := by
      rw [← Int.lt_zpow_iff_log_lt (by norm_num) hpos]
      exact_mod_cast h2
    omega
  unfold exponent32
  rw [hlog]
  exact max_eq_left he

theorem round32_eq_of_near (x : K) (n e : Int) (he : -126 ≤ e) (h1 : (2 : K) ^ e ≤ |x|)
    (h2 : |x| < (2 : K) ^ (e + 1)) (h : |x / (2 : K) ^ (e - 23) - (n : K)| < 1 / 2) :
    round32 x = (n : K) * (2 : K) ^ (e - 23) := by
  unfold round32 ulp32
  rw [exponent32_eq x e he h1 h2, round_half_even_eq_of_near _ n h]

theorem round32_eq_self (x : K) (n e : Int) (he : -126 ≤ e) (h1 : (2 : K) ^ e ≤ |x|)
    (h2 : |x| < (2 : K) ^ (e + 1)) (h : x = (n : K) * (2 : K) ^ (e - 23)) :
    round32 x = x := by
  have hp : (0 : K) < (2 : K) ^ (e - 23) := zpow_pos (by norm_num) _
  have hq : x / (2 : K) ^ (e - 23) = (n : K) := by
    rw [h]
    field_simp
  rw [round32_eq_of_near x n e he h1 h2 (by rw [hq]; norm_num), ← h]

theorem round32_nonneg (x : K) (h : 0 ≤ x) : 0 ≤ round32 x := by
  unfold round32
  have hu : 0 < ulp32 x := zpow_pos (by norm_num) _
  have hm : 0 ≤ x / ulp32 x := div_nonneg h hu.le
  have := round_half_even_nonneg _ hm
  exact mul_nonneg (by exact_mod_cast this) hu.le

theorem round32_zero : round32 (0 : K) = 0 := by
  simp [round32, round_half_even]

theorem round32_natCast (k : Nat) (hk : k < 2 ^ 24) : round32 (k : K) = k := by
  rcases Nat.eq_zero_or_pos k with h0 | hpos
  · subst h0
    simpa using round32_zero (K := K)
  have hne : k ≠ 0 := Nat.pos_iff_ne_zero.mp hpos
  have hlo : 2 ^ Nat.log 2 k ≤ k := Nat.pow_log_le_self 2 hne
  have hhi : k < 2 ^ (Nat.log 2 k + 1) := Nat.lt_pow_succ_log_self (by norm_num) k
  have he23 : Nat.log 2 k ≤ 23 := by
    have : Nat.log 2 k < 24 := Nat.log_lt_of_lt_pow hne hk
    omega
  have habs : |(k : K)| = k := abs_of_nonneg (Nat.cast_nonneg k)
  apply round32_eq_self (k : K) ((k * 2 ^ (23 - Nat.log 2 k) : Nat) : Int) (Nat.log 2 k : Int)
  · omega
  · rw [habs, zpow_natCast]
    exact_mod_cast hlo
  · rw [habs]
    have : ((Nat.log 2 k : Int) + 1) = ((Nat.log 2 k + 1 : Nat) : Int) := by push_cast; ring
    rw [this, zpow_natCast]
    exact_mod_cast hhi
  · have h2 : (2 : K) ≠ 0 := by norm_num
    have : ((Nat.log 2 k : Int) - 23) = -((23 - Nat.log 2 k : Nat) : Int) := by omega
    rw [this, zpow_neg, zpow_natCast]
    push_cast
    field_simp

theorem round32_dyadic (z : Int) (a : Nat) (hz : z.natAbs < 2 ^ 24) (ha : a ≤ 100) :
    round32 ((z : K) / 2 ^ a) = (z : K) / 2 ^ a := by
  rcases eq_or_ne z 0 with h0 | h0
  · subst h0
    simpa using round32_zero (K := K)
  have hm : z.natAbs ≠ 0 := Int.natAbs_ne_zero.mpr h0
  have hlo : 2 ^ Nat.log 2 z.natAbs ≤ z.natAbs := Nat.pow_log_le_self 2 hm
  have hhi : z.natAbs < 2 ^ (Nat.log 2 z.natAbs + 1) :=
    Nat.lt_pow_succ_log_self (by norm_num) _
  have he23 : Nat.log 2 z.natAbs ≤ 23 := by
    have : Nat.log 2 z.natAbs < 24 := Nat.log_lt_of_lt_pow hm hz
    omega
  set e0 := Nat.log 2 z.natAbs with he0
  have h2a : (0 : K) < 2 ^ a := pow_pos (by norm_num) a
  have habs : |(z : K) / 2 ^ a| = (z.natAbs : K) / 2 ^ a := by
    rw [abs_div, abs_of_pos h2a, Nat.cast_natAbs, Int.cast_abs]
  have hpow : ∀ k : Int, (2 : K) ^ (k - (a : Int)) = (2 : K) ^ k / 2 ^ a := by
    intro k
    rw [zpow_sub₀ (by norm_num), zpow_natCast]
  apply round32_eq_self ((z : K) / 2 ^ a) (z * 2 ^ (23 - e0)) ((e0 : Int) - a)
  · omega
  · rw [habs, hpow, zpow_natCast]
    apply div_le_div_of_nonneg_right _ h2a.le
    exact_mod_cast hlo
  · rw [habs, show ((e0 : Int) - a + 1) = ((e0 + 1 : Nat) : Int) - a by push_cast; ring, hpow,
      zpow_natCast]
    apply div_lt_div_of_pos_right _ h2a
    exact_mod_cast hhi
  · have h23 : ((e0 : Int) - a - 23) = -((23 - e0 : Nat) : Int) - a := by omega
    rw [h23, hpow, zpow_neg, zpow_natCast]
    push_cast
    have hne : (2 : K) ^ (23 - e0) ≠ 0 := pow_ne_zero _ (by norm_num)
    field_simp
    ring

end RoundingLemmas

theorem round32_one : round32 (1 : ℚ) = 1 := by
  simpa using round32_natCast (K := ℚ) 1 (by norm_num)

theorem round32_neg_one : round32 (-1 : ℚ) = -1 :=
  round32_eq_self _ (-8388608) 0 (by norm_num) (by norm_num) (by norm_num) (by norm_num)

theorem round32_half : round32 (1 / 2 : ℚ) = 1 / 2 :=
  round32_eq_self _ 8388608 (-1) (by norm_num) (by norm_num [abs_of_pos])
    (by norm_num [abs_of_pos]) (by norm_num)

section Lemmas

variable {K : Type} [LinearOrderedField K]

theorem tolerance_pos : (0 : K) < tolerance := by
  norm_num [tolerance]

theorem tolerance_lt : (tolerance : K) < 1 / 10000 := by
  norm_num [tolerance]

theorem float_is_zero_eq_true_iff (v : K) :
    float_is_zero v = true ↔ -tolerance < v ∧ v < tolerance := by
  simp [float_is_zero]

theorem float_is_zero_eq_false_iff (v : K) :
    float_is_zero v = false ↔ tolerance ≤ |v| := by
  rw [← Bool.not_eq_true, float_is_zero_eq_true_iff, le_abs']
  constructor
  · intro h
    by_contra hc
    push_neg at hc
    exact h ⟨hc.1, hc.2⟩
  · rintro (h | h) ⟨h1, h2⟩
    · exact absurd h1 (not_lt.mpr h)
    · exact absurd h2 (not_lt.mpr h)

theorem float_is_negative_eq_true_iff (v : K) :
    float_is_negative v = true ↔ v < tolerance := by
  simp [float_is_negative]

theorem scalar_mul_dot (s : K) (v w : V3f K) :
    (V3f.scalar_mul s v).dot w = s * v.dot w := by
  simp only [V3f.scalar_mul, V3f.mul_scalar, V3f.dot]
  ring

/-- The function `ray_intersects_sphere` written with the coefficients of the
quadratic. -/
theorem ray_intersects_sphere_eq (sqrt : K → K) (ray : Ray K) (sphere : Sphere K) (dflt : K) :
    ray_intersects_sphere sqrt ray sphere dflt =
      if float_is_zero (quad_a ray) then none
      else if quad_discriminant ray sphere < 0 then some FLT_MAX
      else if float_is_negative (sqrt (quad_discriminant ray sphere)) then some dflt
      else
        if (-quad_b ray sphere - sqrt (quad_discriminant ray sphere)) / (2 * quad_a ray) > 0 ∧
            (-quad_b ray sphere - sqrt (quad_discriminant ray sphere)) / (2 * quad_a ray) <
              (if (-quad_b ray sphere + sqrt (quad_discriminant ray sphere)) /
                  (2 * quad_a ray) > 0
                then (-quad_b ray sphere + sqrt (quad_discriminant ray sphere)) /
                  (2 * quad_a ray)
                else FLT_MAX)
        then some ((-quad_b ray sphere - sqrt (quad_discriminant ray sphere)) /
          (2 * quad_a ray))
        else some (if (-quad_b ray sphere + sqrt (quad_discriminant ray sphere)) /
                  (2 * quad_a ray) > 0
                then (-quad_b ray sphere + sqrt (quad_discriminant ray sphere)) /
                  (2 * quad_a ray)
                else FLT_MAX) := by
  simp only [ray_intersects_sphere, quad_a, quad_b, quad_c, quad_discriminant, scalar_mul_dot]

theorem scan_plane_eq (ray : Ray K) (st : ScanState K) (plane : Plane K) :
    scan_plane ray st plane = scan_candidate ray st (plane_candidate ray plane) := rfl

theorem scan_sphere_eq (sqrt : K → K) (ray : Ray K) (st : ScanState K) (sphere : Sphere K) :
    scan_sphere sqrt ray st sphere =
      (sphere_candidate sqrt ray sphere).map (scan_candidate ray st) := by
  unfold scan_sphere sphere_candidate scan_candidate
  cases ray_intersects_sphere sqrt ray sphere FLT_MAX with
  | none => rfl
  | some t =>
    simp only [Option.map_some']
    split <;> rfl

theorem scan_planes_eq (ray : Ray K) (planes : List (Plane K)) (st : ScanState K) :
    planes.foldl (scan_plane ray) st =
      (planes.map (plane_candidate ray)).foldl (scan_candidate ray) st := by
  induction planes generalizing st with
  | nil => rfl
  | cons p ps ih => simp only [List.foldl_cons, List.map_cons, scan_plane_eq, ih]

theorem scan_spheres_eq (sqrt : K → K) (ray : Ray K) (spheres : List (Sphere K))
    (st : ScanState K) :
    scan_spheres sqrt ray st spheres =
      (sphere_candidates sqrt ray spheres).map (List.foldl (scan_candidate ray) st) := by
  induction spheres generalizing st with
  | nil => rfl
  | cons s rest ih =>
    simp only [scan_spheres, sphere_candidates, scan_sphere_eq]
    cases hc : sphere_candidate sqrt ray s with
    | none => rfl
    | some c =>
      simp only [Option.map_some', ih]
      cases sphere_candidates sqrt ray rest with
      | none => rfl
      | some cs => rfl

/-- The two loops of `intersect_ray_with_world` are one scan over the
candidates. -/
theorem intersect_ray_with_world_eq (sqrt : K → K) (ray : Ray K) (world : World K) :
    intersect_ray_with_world sqrt ray world =
      (candidates sqrt ray world).map
        (fun cs => (cs.foldl (scan_candidate ray) scan_init).res) := by
  simp only [intersect_ray_with_world, candidates, scan_spheres_eq, scan_planes_eq]
  cases sphere_candidates sqrt ray world.spheres with
  | none => rfl
  | some cs => simp [List.foldl_append]

theorem scanInvariant_init (ray : Ray K) :
    ScanInvariant ray [] (scan_init : ScanState K) := by
  left
  simp [scan_init]

theorem scanInvariant_step (ray : Ray K) (cs : List (Candidate K)) (st : ScanState K)
    (c : Candidate K) (h : ScanInvariant ray cs st) :
    ScanInvariant ray (cs ++ [c]) (scan_candidate ray st c) := by
  unfold scan_candidate
  split
  · rename_i hc
    right
    refine ⟨rfl, cs, c, [], rfl, ?_, rfl, ?_, ?_, rfl, rfl, rfl⟩
    · rcases h with ⟨_, hm, _⟩ | ⟨_, l1, c0, l2, _, hv, hm, _⟩
      · exact ⟨hc.1, hm ▸ hc.2⟩
      · exact ⟨hc.1, lt_trans (hm ▸ hc.2) hv.2⟩
    · intro d hd hvd
      rcases h with ⟨_, _, hnone⟩ | ⟨_, l1, c0, l2, hcs, hv, hm, h1, h2, _⟩
      · exact absurd hvd (hnone d hd)
      · have hlt : c.distance < c0.distance := hm ▸ hc.2
        rw [hcs] at hd
        rcases List.mem_append.mp hd with hd1 | hd2
        · exact lt_trans hlt (h1 d hd1 hvd)
        · rcases List.mem_cons.mp hd2 with rfl | hd3
          · exact hlt
          · exact lt_of_lt_of_le hlt (h2 d hd3 hvd)
    · intro d hd
      simp at hd
  · rename_i hc
    rcases h with ⟨hi, hm, hnone⟩ | ⟨hi, l1, c0, l2, hcs, hv, hm, h1, h2, h3⟩
    · left
      refine ⟨hi, hm, ?_⟩
      intro d hd
      rcases List.mem_append.mp hd with hd1 | hd2
      · exact hnone d hd1
      · rw [List.mem_singleton] at hd2
        subst hd2
        intro hv
        exact hc ⟨hv.1, hm ▸ hv.2⟩
    · right
      refine ⟨hi, l1, c0, l2 ++ [c], by simp [hcs], hv, hm, h1, ?_, h3⟩
      intro d hd hvd
      rcases List.mem_append.mp hd with hd1 | hd2
      · exact h2 d hd1 hvd
      · rw [List.mem_singleton] at hd2
        subst hd2
        by_contra hlt
        exact hc ⟨hvd.1, hm ▸ not_le.mp hlt⟩

theorem scanInvariant_foldl (ray : Ray K) (cs pre : List (Candidate K)) (st : ScanState K)
    (h : ScanInvariant ray pre st) :
    ScanInvariant ray (pre ++ cs) (cs.foldl (scan_candidate ray) st) := by
  induction cs generalizing pre st with
  | nil => simpa using h
  | cons c rest ih =>
    have := ih (pre ++ [c]) (scan_candidate ray st c) (scanInvariant_step ray pre st c h)
    simpa using this

/-- The scan reports a hit exactly when a candidate has a valid distance. -/
theorem intersected_iff (sqrt : K → K) (ray : Ray K) (world : World K)
    (cs : List (Candidate K)) (hcs : candidates sqrt ray world = some cs) :
    ∃ res, intersect_ray_with_world sqrt ray world = some res ∧
      (res.intersected = true ↔ ∃ c ∈ cs, valid_distance c.distance) := by
  refine ⟨_, by rw [intersect_ray_with_world_eq, hcs]; rfl, ?_⟩
  have hinv := scanInvariant_foldl ray cs [] scan_init (scanInvariant_init ray)
  rw [List.nil_append] at hinv
  rcases hinv with ⟨hi, _, hnone⟩ | ⟨hi, l1, c, l2, hl, hv, _⟩
  · constructor
    · intro h
      rw [hi] at h
      exact absurd h (by simp)
    · rintro ⟨c, hc, hv⟩
      exact absurd hv (hnone c hc)
  · exact ⟨fun _ => ⟨c, by simp [hl], hv⟩, fun _ => hi⟩

/-- Past its assertion `ray_intersects_sphere` always returns. -/
theorem ray_intersects_sphere_isSome (sqrt : K → K) (ray : Ray K) (sphere : Sphere K)
    (dflt : K) (ha : float_is_zero (quad_a ray) = false) :
    ∃ t, ray_intersects_sphere sqrt ray sphere dflt = some t := by
  rw [ray_intersects_sphere_eq]
  simp only [ha, Bool.false_eq_true, if_false]
  split_ifs <;> exact ⟨_, rfl⟩

theorem sphere_candidates_isSome (sqrt : K → K) (ray : Ray K) (spheres : List (Sphere K))
    (ha : float_is_zero (quad_a ray) = false) :
    ∃ cs, sphere_candidates sqrt ray spheres = some cs := by
  induction spheres with
  | nil => exact ⟨[], rfl⟩
  | cons s rest ih =>
    obtain ⟨cs, hcs⟩ := ih
    obtain ⟨t, ht⟩ := ray_intersects_sphere_isSome sqrt ray s FLT_MAX ha
    simp only [sphere_candidates, sphere_candidate, ht, hcs]
    exact ⟨_, rfl⟩

theorem candidates_isSome (sqrt : K → K) (ray : Ray K) (world : World K)
    (ha : float_is_zero (quad_a ray) = false ∨ world.spheres = []) :
    ∃ cs, candidates sqrt ray world = some cs := by
  rcases ha with ha | ha
  · obtain ⟨cs, hcs⟩ := sphere_candidates_isSome sqrt ray world.spheres ha
    simp only [candidates, hcs]
    exact ⟨_, rfl⟩
  · simp only [candidates, ha, sphere_candidates]
    exact ⟨_, rfl⟩
theorem sqrt_rat_mul_self (q : ℚ) (h : 0 ≤ q) : sqrt_rat (q * q) = q := by
  rw [sqrt_rat, Rat.sqrt_eq, abs_of_nonneg h]

theorem sqrt_rat_zero : sqrt_rat 0 = 0 := by
  simpa using sqrt_rat_mul_self 0 (le_refl 0)

theorem sqrt_rat_one : sqrt_rat 1 = 1 := by
  have h := sqrt_rat_mul_self 1 (by norm_num)
  norm_num at h
  exact h

theorem sqrt_rat_quarter : sqrt_rat (1 / 4) = 1 / 2 := by
  have h := sqrt_rat_mul_self (1 / 2) (by norm_num)
  norm_num at h
  simpa using h

theorem sqrt_rat_four : sqrt_rat 4 = 2 := by
  have h := sqrt_rat_mul_self 2 (by norm_num)
  norm_num at h
  exact h

theorem sqrt_rat_sixteen : sqrt_rat 16 = 4 := by
  have h := sqrt_rat_mul_self 4 (by norm_num)
  norm_num at h
  exact h

theorem sqrt_rat_256 : sqrt_rat 256 = 16 := by
  have h := sqrt_rat_mul_self 16 (by norm_num)
  norm_num at h
  exact h

theorem sqrt_rat_eq (a b r s : Nat) (hb : 0 < b) (hab : Nat.Coprime a b)
    (hr : r * r ≤ a ∧ a < (r + 1) * (r + 1)) (hs : s * s ≤ b ∧ b < (s + 1) * (s + 1)) :
    sqrt_rat ((a : ℚ) / (b : ℚ)) = (r : ℚ) / (s : ℚ) := by
  have hq : ((a : ℚ) / (b : ℚ)) = (((a : Int) : ℚ) / ((b : Int) : ℚ)) := by push_cast; rfl
  have hn : ((a : ℚ) / (b : ℚ)).num = (a : Int) := by
    rw [hq]
    exact Rat.num_div_eq_of_coprime (by exact_mod_cast hb) (by simpa using hab)
  have hd : ((a : ℚ) / (b : ℚ)).den = b := by
    have := Rat.den_div_eq_of_coprime (a := (a : Int)) (b := (b : Int)) (by exact_mod_cast hb)
      (by simpa using hab)
    rw [hq]
    exact_mod_cast this
  have h1 : Nat.sqrt a = r := (Nat.eq_sqrt.mpr hr).symm
  have h2 : Nat.sqrt b = s := (Nat.eq_sqrt.mpr hs).symm
  unfold sqrt_rat Rat.sqrt
  rw [hn, hd, Int.sqrt, Int.toNat_natCast, h1, h2, Rat.mkRat_eq_div]
  push_cast
  rfl

theorem sqrt_rat_film_top : sqrt_rat (149297 / 65536 : ℚ) = 193 / 128 := by
  have h := sqrt_rat_eq 149297 65536 386 256 (by norm_num) (by norm_num) (by norm_num)
    (by norm_num)
  norm_num at h
  exact h

theorem sqrt_rat_film_band : sqrt_rat (542513 / 262144 : ℚ) = 23 / 16 := by
  have h := sqrt_rat_eq 542513 262144 736 512 (by norm_num) (by norm_num) (by norm_num)
    (by norm_num)
  norm_num at h
  exact h

theorem sqrt_rat_film_single :
    sqrt_rat (596500536575606513 / 288230376151711744 : ℚ) = 772334471 / 536870912 := by
  have h := sqrt_rat_eq 596500536575606513 288230376151711744 772334471 536870912
    (by norm_num) (by norm_num) (by norm_num) (by norm_num)
  norm_num at h
  exact h

end Lemmas

section ColorLemmas

variable {K : Type} [LinearOrderedField K] [FloorRing K]

theorem to_uint8_eq (v : K) (n : ℕ) (hn : n < 256) (h0 : (n : K) ≤ v) (h1 : v < n + 1) :
    to_uint8 v = n := by
  have h : 0 ≤ v := le_trans (Nat.cast_nonneg n) h0
  have hf : ⌊v⌋ = (n : ℤ) := by
    rw [Int.floor_eq_iff]
    exact ⟨by exact_mod_cast h0, by exact_mod_cast h1⟩
  simp only [to_uint8, truncate, if_pos h, hf]
  omega

theorem mul_scalar_eq (c : Color) (s : K) (r g b : ℕ)
    (hr : r < 256) (hg : g < 256) (hb : b < 256)
    (hr0 : (r : K) ≤ min 255 (round32 (s * c.red)))
    (hr1 : min 255 (round32 (s * c.red)) < r + 1)
    (hg0 : (g : K) ≤ min 255 (round32 (s * c.green)))
    (hg1 : min 255 (round32 (s * c.green)) < g + 1)
    (hb0 : (b : K) ≤ min 255 (round32 (s * c.blue)))
    (hb1 : min 255 (round32 (s * c.blue)) < b + 1) :
    c.mul_scalar s = ⟨r, g, b⟩ := by
  simp only [Color.mul_scalar, to_uint8_eq _ r hr hr0 hr1, to_uint8_eq _ g hg hg0 hg1,
    to_uint8_eq _ b hb hb0 hb1]

/-- One invocation of `cast_ray` that hits a surface at depth at most `3`. -/
theorem cast_ray_hit (sqrt : K → K) (pow : K → K → K) (ray : Ray K) (world : World K)
    (reflection_depth : Int) (r : RayIntersectionResult K) (acc : Intensities K)
    (hd : reflection_depth ≤ 3)
    (hr : intersect_ray_with_world sqrt ray world = some r) (hi : r.intersected = true)
    (hl : shade_lights sqrt pow ray world r.mat r.intersection_point r.normal ⟨0, 0⟩
      world.lights = some acc) :
    cast_ray sqrt pow ray world reflection_depth =
      if float_is_zero r.mat.reflectance then some (final_color r.mat acc world.default_color)
      else
        (cast_ray sqrt pow (reflect_ray ray r.intersection_point r.normal) world
          (reflection_depth + 1)).map (final_color r.mat acc) := by
  rw [cast_ray]
  have h3 : ¬ reflection_depth > 3 := by omega
  simp only [h3, dite_false, hr, hi, if_true, hl]
  split
  · rfl
  · cases cast_ray sqrt pow (reflect_ray ray r.intersection_point r.normal) world
      (reflection_depth + 1) <;> rfl

end ColorLemmas

section DepthLemmas

variable {K : Type} [LinearOrderedField K]

/-- An invocation of `cast_ray` makes no further call, or exactly one, with the
depth increased by one, and that only from a depth of at most `3`. -/
theorem cast_ray_depths_cases (sqrt : K → K) (pow : K → K → K) (ray : Ray K)
    (world : World K) (d : Int) :
    cast_ray_depths sqrt pow ray world d = [d] ∨
      (d ≤ 3 ∧ ∃ ray2, cast_ray_depths sqrt pow ray world d =
        d :: cast_ray_depths sqrt pow ray2 world (d + 1)) := by
  rw [cast_ray_depths]
  by_cases h : d > 3
  · left
    simp [h]
  · simp only [h, dite_false]
    split
    · left
      rfl
    · split
      · split
        · left
          rfl
        · split
          · left
            rfl
          · right
            exact ⟨by omega, _, rfl⟩
      · left
        rfl

end DepthLemmas

theorem hit_floor :
    intersect_ray_with_world sqrt_rat down_ray lit_floor =
      some ⟨⟨0, 1, 0⟩, ⟨0, 0, 0⟩, floor_mat, true⟩ := by
  norm_num [intersect_ray_with_world, scan_spheres, scan_plane, scan_init, lit_floor,
    floor_plane, down_ray, ray_intersects_plane, float_is_zero, tolerance, FLT_MAX, V3f.dot,
    V3f.add, V3f.scalar_mul, V3f.mul_scalar]

theorem lights_floor :
    shade_lights sqrt_rat pow_rat down_ray lit_floor floor_mat ⟨0, 0, 0⟩ ⟨0, 1, 0⟩ ⟨0, 0⟩
      lit_floor.lights = some ⟨2, 2⟩ := by
  norm_num [shade_lights, shade_light, shadow_ray, light_direction, normalize, V3f.length,
    V3f.length_sq, reflect, intersect_ray_with_world, scan_spheres, scan_plane, scan_init,
    lit_floor, floor_plane, floor_mat, overhead_light, down_ray, ray_intersects_plane,
    float_is_zero, tolerance, FLT_MAX, V3f.dot, V3f.add, V3f.sub, V3f.scalar_mul,
    V3f.mul_scalar, sqrt_rat_sixteen, pow_rat]

/-! ## The claims -/

section Claims

variable {K : Type} [LinearOrderedField K]

/-- Claim C1, counterexample: `slow_ray` has `direction · direction = 1 / 40000`,
inside the zero tolerance.  The plane of `guarded_world` has the valid distance
`1000`, so the claim has a hit reported; the scan of the sphere then fails the
assertion of `ray_intersects_sphere`, and nothing is reported. -/
theorem intersect_ray_with_world_aborts_on_slow_ray :
    ray_intersects_plane slow_ray back_wall FLT_MAX = 1000 ∧
      valid_distance (ray_intersects_plane slow_ray back_wall FLT_MAX) ∧
      ray_intersects_sphere sqrt_rat slow_ray unit_sphere FLT_MAX = none ∧
      intersect_ray_with_world sqrt_rat slow_ray guarded_world = none := by
  have ht : ray_intersects_plane slow_ray back_wall FLT_MAX = 1000 := by
    norm_num [ray_intersects_plane, slow_ray, back_wall, float_is_zero, tolerance, V3f.dot]
  have hs : ray_intersects_sphere sqrt_rat slow_ray unit_sphere FLT_MAX = none := by
    norm_num [ray_intersects_sphere, slow_ray, unit_sphere, V3f.dot, V3f.sub, float_is_zero,
      tolerance]
  refine ⟨ht, ?_, hs, ?_⟩
  · rw [ht]
    norm_num [valid_distance, FLT_MAX]
  · simp only [intersect_ray_with_world, guarded_world, scan_spheres, scan_sphere, hs]

/-- Claim C1, amended: for every world and every ray such that
`direction · direction` is outside the zero tolerance or the world has no sphere
(otherwise the assertion of `ray_intersects_sphere` aborts the scan),
`intersect_ray_with_world` returns, every primitive test returns, and the result
has `intersected = true` if and only if some plane or sphere has a primitive
distance `t` (sentinel `FLT_MAX`) with `0 ≤ t < FLT_MAX`; in that case the
material, normal and point reported are those of the first object in scan order
(planes by index, then spheres by index) at the least such distance: every
earlier object with a valid distance is strictly farther, every later one is at
least as far, and the point is `origin + t_min * direction`. -/
theorem intersect_ray_with_world_nearest (sqrt : K → K) (ray : Ray K) (world : World K)
    (h : float_is_zero (ray.direction.dot ray.direction) = false ∨ world.spheres = []) :
    ∃ cs res, candidates sqrt ray world = some cs ∧
      intersect_ray_with_world sqrt ray world = some res ∧
      (res.intersected = true ↔ ∃ c ∈ cs, valid_distance c.distance) ∧
      (res.intersected = true →
        ∃ l1 c l2, cs = l1 ++ c :: l2 ∧ valid_distance c.distance ∧
          (∀ d ∈ l1, valid_distance d.distance → c.distance < d.distance) ∧
          (∀ d ∈ l2, valid_distance d.distance → c.distance ≤ d.distance) ∧
          res.mat = c.mat ∧ res.normal = c.normal ∧
          res.intersection_point =
            ray.origin.add (V3f.scalar_mul c.distance ray.direction)) := by
  obtain ⟨cs, hcs⟩ := candidates_isSome sqrt ray world h
  refine ⟨cs, (cs.foldl (scan_candidate ray) scan_init).res, hcs, ?_, ?_⟩
  · rw [intersect_ray_with_world_eq, hcs]
    rfl
  have hinv := scanInvariant_foldl ray cs [] scan_init (scanInvariant_init ray)
  rw [List.nil_append] at hinv
  rcases hinv with ⟨hi, _, hnone⟩ | ⟨hi, l1, c, l2, hl, hv, _, h1, h2, h3⟩
  · constructor
    · constructor
      · intro h
        rw [hi] at h
        exact absurd h (by simp)
      · rintro ⟨c, hc, hv⟩
        exact absurd hv (hnone c hc)
    · intro h
      rw [hi] at h
      exact absurd h (by simp)
  · constructor
    · constructor
      · intro _
        exact ⟨c, by simp [hl], hv⟩
      · intro _
        exact hi
    · intro _
      exact ⟨l1, c, l2, hl, hv, h1, h2, h3⟩

/-- Claim C1, witness: along `center_ray` the objects of `crowded_world` have the
distances `-5`, `5`, `4` (planes) and `4`, `9` (spheres).  The third plane is
reported: the two planes before it are behind the ray or farther, the first
sphere is as far and comes later in the scan, the second sphere is farther. -/
theorem intersect_ray_with_world_nearest_witness :
    (float_is_zero (center_ray.direction.dot center_ray.direction) = false ∨
        crowded_world.spheres = []) ∧
      candidates sqrt_rat center_ray crowded_world =
        some [⟨-5, plain, ⟨0, 0, 1⟩⟩, ⟨5, plain, ⟨0, 0, 1⟩⟩, ⟨4, floor_mat, ⟨0, 0, 1⟩⟩,
          ⟨4, plain, ⟨0, 0, -1⟩⟩, ⟨9, plain, ⟨0, 0, -1⟩⟩] ∧
      intersect_ray_with_world sqrt_rat center_ray crowded_world =
        some ⟨⟨0, 0, 1⟩, ⟨0, 0, -1⟩, floor_mat, true⟩ ∧
      ∃ l1 c l2,
        [(⟨-5, plain, ⟨0, 0, 1⟩⟩ : Candidate ℚ), ⟨5, plain, ⟨0, 0, 1⟩⟩,
          ⟨4, floor_mat, ⟨0, 0, 1⟩⟩, ⟨4, plain, ⟨0, 0, -1⟩⟩, ⟨9, plain, ⟨0, 0, -1⟩⟩] =
            l1 ++ c :: l2 ∧
          valid_distance c.distance ∧
          (∀ d ∈ l1, valid_distance d.distance → c.distance < d.distance) ∧
          (∀ d ∈ l2, valid_distance d.distance → c.distance ≤ d.distance) ∧
          floor_mat = c.mat ∧ (⟨0, 0, 1⟩ : V3f ℚ) = c.normal ∧
          (⟨0, 0, -1⟩ : V3f ℚ) =
            center_ray.origin.add (V3f.scalar_mul c.distance center_ray.direction) := by
  have h : float_is_zero (center_ray.direction.dot center_ray.direction) = false ∨
      crowded_world.spheres = [] := by
    left
    norm_num [float_is_zero, tolerance, center_ray, V3f.dot]
  have hcs : candidates sqrt_rat center_ray crowded_world =
      some [⟨-5, plain, ⟨0, 0, 1⟩⟩, ⟨5, plain, ⟨0, 0, 1⟩⟩, ⟨4, floor_mat, ⟨0, 0, 1⟩⟩,
        ⟨4, plain, ⟨0, 0, -1⟩⟩, ⟨9, plain, ⟨0, 0, -1⟩⟩] := by
    norm_num [candidates, sphere_candidates, sphere_candidate, plane_candidate, crowded_world,
      behind_wall, back_wall, front_wall, unit_sphere, far_sphere, center_ray,
      ray_intersects_plane, ray_intersects_sphere, float_is_zero, float_is_negative, tolerance,
      V3f.dot, V3f.sub, V3f.add, V3f.scalar_mul, V3f.mul_scalar, normalize, V3f.length,
      V3f.length_sq, sqrt_rat_four, sqrt_rat_one, FLT_MAX]
  have hres : intersect_ray_with_world sqrt_rat center_ray crowded_world =
      some ⟨⟨0, 0, 1⟩, ⟨0, 0, -1⟩, floor_mat, true⟩ := by
    norm_num [intersect_ray_with_world, scan_spheres, scan_sphere, scan_plane, scan_init,
      crowded_world, behind_wall, back_wall, front_wall, unit_sphere, far_sphere, center_ray,
      ray_intersects_plane, ray_intersects_sphere, float_is_zero, float_is_negative, tolerance,
      V3f.dot, V3f.sub, V3f.add, V3f.scalar_mul, V3f.mul_scalar, normalize, V3f.length,
      V3f.length_sq, sqrt_rat_four, sqrt_rat_one, FLT_MAX]
  obtain ⟨cs, res, hcs2, hres2, _, hfirst⟩ :=
    intersect_ray_with_world_nearest sqrt_rat center_ray crowded_world h
  rw [hcs] at hcs2
  rw [hres] at hres2
  simp only [Option.some.injEq] at hcs2 hres2
  subst hcs2
  subst hres2
  exact ⟨h, hcs, hres, hfirst rfl⟩

/-- Claim C2, counterexample: `tangent_ray` has a non-zero direction, the
discriminant is `0` (not negative) and `t = 5` is a positive root, yet
`ray_intersects_sphere` returns the sentinel `-1` it was given, not the root.
And `slow_ray` has a non-zero direction, discriminant `1 / 10000` and the positive
root `800`, yet the assertion on `a` fails and nothing is returned. -/
theorem ray_intersects_sphere_tangent_returns_default :
    (quad_a tangent_ray ≠ 0 ∧ ¬ quad_discriminant tangent_ray unit_sphere < 0 ∧
        (0 : ℚ) < 5 ∧ is_root tangent_ray unit_sphere 5 ∧
        ray_intersects_sphere sqrt_rat tangent_ray unit_sphere (-1) = some (-1)) ∧
      (quad_a slow_ray ≠ 0 ∧ ¬ quad_discriminant slow_ray unit_sphere < 0 ∧
        (0 : ℚ) < 800 ∧ is_root slow_ray unit_sphere 800 ∧
        ray_intersects_sphere sqrt_rat slow_ray unit_sphere (-1) = none) := by
  constructor
  · norm_num [quad_a, quad_b, quad_c, quad_discriminant, is_root, ray_intersects_sphere,
      tangent_ray, unit_sphere, V3f.dot, V3f.sub, V3f.scalar_mul, V3f.mul_scalar,
      float_is_zero, float_is_negative, tolerance, sqrt_rat_zero]
  · norm_num [quad_a, quad_b, quad_c, quad_discriminant, is_root, ray_intersects_sphere,
      slow_ray, unit_sphere, V3f.dot, V3f.sub, float_is_zero, tolerance]

/-- Claim C2, amended: for every sphere and every ray whose `direction · direction`
is at least `0.0001`, with `a`, `b`, `c` as in the claim: whenever the square root
of the discriminant (exact at this discriminant) is at least `0.0001` and the
quadratic has a positive root, `ray_intersects_sphere` returns the smallest
positive root, whatever the sentinel. -/
theorem ray_intersects_sphere_smallest_positive_root (sqrt : K → K) (ray : Ray K)
    (sphere : Sphere K) (dflt : K)
    (ha : 1 / 10000 ≤ quad_a ray)
    (hsq : sqrt (quad_discriminant ray sphere) * sqrt (quad_discriminant ray sphere) =
      quad_discriminant ray sphere)
    (hs : 1 / 10000 ≤ sqrt (quad_discriminant ray sphere))
    (hroot : ∃ t, 0 < t ∧ is_root ray sphere t) :
    ∃ t, ray_intersects_sphere sqrt ray sphere dflt = some t ∧ 0 < t ∧
      is_root ray sphere t ∧ ∀ u, 0 < u → is_root ray sphere u → t ≤ u := by
  rw [ray_intersects_sphere_eq]
  set a := quad_a ray with ha_def
  set b := quad_b ray sphere with hb_def
  set s := sqrt (quad_discriminant ray sphere) with hs_def
  have hD : quad_discriminant ray sphere = b * b - 4 * a * quad_c ray sphere := rfl
  have hapos : 0 < a := lt_of_lt_of_le (by norm_num) ha
  have hspos : 0 < s := lt_of_lt_of_le (by norm_num) hs
  have hz : float_is_zero a = false := by
    rw [← Bool.not_eq_true, float_is_zero_eq_true_iff]
    intro h
    exact absurd (lt_trans h.2 tolerance_lt) (not_lt.mpr ha)
  have hn : float_is_negative s = false := by
    rw [← Bool.not_eq_true, float_is_negative_eq_true_iff]
    exact fun h => absurd (lt_trans h tolerance_lt) (not_lt.mpr hs)
  have hDnn : ¬ quad_discriminant ray sphere < 0 := by
    rw [← hsq]
    exact not_lt.mpr (mul_self_nonneg s)
  have h2a : 0 < 2 * a := by linarith
  have hfact : ∀ t, is_root ray sphere t ↔
      (t = (-b + s) / (2 * a) ∨ t = (-b - s) / (2 * a)) := by
    intro t
    have hc : quad_c ray sphere = (b * b - s * s) / (4 * a) := by
      rw [hsq, hD]
      field_simp
    have key : a * t * t + b * t + quad_c ray sphere =
        a * (t - (-b + s) / (2 * a)) * (t - (-b - s) / (2 * a)) := by
      rw [hc]
      field_simp
      ring
    unfold is_root
    rw [← ha_def, ← hb_def, key]
    constructor
    · intro h
      rcases mul_eq_zero.mp h with h1 | h1
      · rcases mul_eq_zero.mp h1 with h2 | h2
        · exact absurd h2 (ne_of_gt hapos)
        · left
          linarith
      · right
        linarith
    · rintro (h | h) <;> rw [h] <;> ring
  have hlt : (-b - s) / (2 * a) < (-b + s) / (2 * a) := by
    apply div_lt_div_of_pos_right _ h2a
    linarith
  have hx1 : 0 < (-b + s) / (2 * a) := by
    obtain ⟨t, ht, hr⟩ := hroot
    rcases (hfact t).mp hr with h | h
    · rw [← h]
      exact ht
    · rw [h] at ht
      exact lt_trans ht hlt
  simp only [hz, hn, hDnn, gt_iff_lt, hx1, if_true, if_false, Bool.false_eq_true]
  by_cases hx2 : 0 < (-b - s) / (2 * a)
  · refine ⟨(-b - s) / (2 * a), by simp [hx2, hlt], hx2, (hfact _).mpr (Or.inr rfl), ?_⟩
    intro u _ hu
    rcases (hfact u).mp hu with h | h
    · rw [h]
      exact le_of_lt hlt
    · rw [h]
  · refine ⟨(-b + s) / (2 * a), by simp [hx2], hx1, (hfact _).mpr (Or.inl rfl), ?_⟩
    intro u hupos hu
    rcases (hfact u).mp hu with h | h
    · rw [h]
    · rw [h] at hupos
      exact absurd hupos hx2

/-- Claim C2, witness: `center_ray` meets `unit_sphere` at the roots `4` and `6`;
the discriminant is `4` and its square root `2`. -/
theorem ray_intersects_sphere_smallest_positive_root_witness :
    ∃ t, ray_intersects_sphere sqrt_rat center_ray unit_sphere (-1) = some t ∧ 0 < t ∧
      is_root center_ray unit_sphere t ∧
      ∀ u, 0 < u → is_root center_ray unit_sphere u → t ≤ u := by
  have hD : quad_discriminant center_ray unit_sphere = 4 := by
    norm_num [quad_a, quad_b, quad_c, quad_discriminant, center_ray, unit_sphere, V3f.dot,
      V3f.sub]
  exact ray_intersects_sphere_smallest_positive_root sqrt_rat center_ray unit_sphere (-1)
    (by norm_num [quad_a, center_ray, V3f.dot])
    (by rw [hD, sqrt_rat_four]; norm_num)
    (by rw [hD, sqrt_rat_four]; norm_num)
    ⟨4, by norm_num, by
      norm_num [is_root, quad_a, quad_b, quad_c, center_ray, unit_sphere, V3f.dot, V3f.sub]⟩

/-- Claim C3, the code at a failing input: `away_ray` points away from
`far_sphere`; the discriminant is `4`, both roots (`-4` and `-6`) are negative, so
the ray does not hit the sphere; called with the sentinel `-1`,
`ray_intersects_sphere` returns `FLT_MAX` and not `-1`.  So it does for
`high_ray`, whose discriminant is negative. -/
theorem ray_intersects_sphere_returns_flt_max_not_default :
    (ray_intersects_sphere sqrt_rat away_ray far_sphere (-1) = some FLT_MAX ∧
        (FLT_MAX : ℚ) ≠ -1 ∧ ¬ quad_discriminant away_ray far_sphere < 0 ∧
        ∀ t, is_root away_ray far_sphere t → ¬ 0 < t) ∧
      (ray_intersects_sphere sqrt_rat high_ray unit_sphere (-1) = some FLT_MAX ∧
        quad_discriminant high_ray unit_sphere < 0) := by
  refine ⟨⟨?_, ?_, ?_, ?_⟩, ?_, ?_⟩
  · norm_num [ray_intersects_sphere, away_ray, far_sphere, V3f.dot, V3f.sub, V3f.scalar_mul,
      V3f.mul_scalar, float_is_zero, float_is_negative, tolerance, sqrt_rat_four]
  · norm_num [FLT_MAX]
  · norm_num [quad_a, quad_b, quad_c, quad_discriminant, away_ray, far_sphere, V3f.dot,
      V3f.sub]
  · intro t ht hpos
    simp only [is_root, quad_a, quad_b, quad_c, away_ray, far_sphere, V3f.dot, V3f.sub] at ht
    nlinarith
  · norm_num [ray_intersects_sphere, high_ray, unit_sphere, V3f.dot, V3f.sub, V3f.scalar_mul,
      V3f.mul_scalar, float_is_zero, tolerance]
  · norm_num [quad_a, quad_b, quad_c, quad_discriminant, high_ray, unit_sphere, V3f.dot,
      V3f.sub]

/-- Claim C4, the code at a failing input: `small_sphere` has radius `5 / 16 > 0`,
`near_miss_ray` has a unit direction and every point of it is farther than
`5 / 16` from the centre (its closest approach is `1 / 2`), yet
`ray_intersects_sphere` with sentinel `FLT_MAX` returns the distance `19 / 4`. -/
theorem ray_intersects_sphere_hits_beyond_radius :
    0 < small_sphere.radius ∧ near_miss_ray.direction.length_sq = 1 ∧
      (∀ t : ℚ, 0 ≤ t →
        small_sphere.radius * small_sphere.radius <
          ((near_miss_ray.origin.add (V3f.scalar_mul t near_miss_ray.direction)).sub
            small_sphere.center).length_sq) ∧
      ray_intersects_sphere sqrt_rat near_miss_ray small_sphere FLT_MAX = some (19 / 4) ∧
      (19 / 4 : ℚ) ≠ FLT_MAX := by
  refine ⟨?_, ?_, ?_, ?_, ?_⟩
  · norm_num [small_sphere]
  · norm_num [near_miss_ray, V3f.length_sq, V3f.dot]
  · intro t _
    simp only [small_sphere, near_miss_ray, V3f.length_sq, V3f.dot, V3f.sub, V3f.add,
      V3f.scalar_mul, V3f.mul_scalar]
    nlinarith [sq_nonneg (t - 5)]
  · norm_num [ray_intersects_sphere, near_miss_ray, small_sphere, V3f.dot, V3f.sub,
      V3f.scalar_mul, V3f.mul_scalar, float_is_zero, float_is_negative, tolerance,
      sqrt_rat_quarter, FLT_MAX]
  · norm_num [FLT_MAX]

/-- Claim C5, counterexample: `normal · direction` is the `float` `0.0001f`
itself, `13743895 / 137438953472`, which lies strictly between `-0.0001` and
`0.0001`; `float_is_zero` is false there, and `ray_intersects_plane` returns the
quotient `1` and not the sentinel `7`. -/
theorem ray_intersects_plane_at_float_tolerance :
    (-(1 / 10000) < shelf.normal.dot grazing_ray.direction ∧
        shelf.normal.dot grazing_ray.direction < 1 / 10000) ∧
      float_is_zero (shelf.normal.dot grazing_ray.direction) = false ∧
      ray_intersects_plane grazing_ray shelf 7 = 1 ∧
      ray_intersects_plane grazing_ray shelf 7 ≠ 7 := by
  refine ⟨?_, ?_, ?_, ?_⟩ <;>
    norm_num [ray_intersects_plane, float_is_zero, tolerance, shelf, grazing_ray, V3f.dot]

/-- Claim C5, amended: for every ray, plane and sentinel, if `normal · direction`
lies strictly between `-t` and `t`, where `t` is the `float` constant `0.0001f`,
that is `13743895 / 137438953472`, `ray_intersects_plane` returns exactly the
sentinel. -/
theorem ray_intersects_plane_parallel (ray : Ray K) (plane : Plane K) (dflt : K)
    (h : -(13743895 / 137438953472) < plane.normal.dot ray.direction ∧
      plane.normal.dot ray.direction < 13743895 / 137438953472) :
    ray_intersects_plane ray plane dflt = dflt := by
  have hz := (float_is_zero_eq_true_iff _).mpr h
  simp [ray_intersects_plane, hz]

/-- Claim C5, witness: `level_ray` runs parallel to `floor_plane`. -/
theorem ray_intersects_plane_parallel_witness :
    (-(13743895 / 137438953472) < floor_plane.normal.dot level_ray.direction ∧
      floor_plane.normal.dot level_ray.direction < 13743895 / 137438953472) ∧
      ray_intersects_plane level_ray floor_plane 7 = 7 :=
  have h : -(13743895 / 137438953472) < floor_plane.normal.dot level_ray.direction ∧
      floor_plane.normal.dot level_ray.direction < 13743895 / 137438953472 := by
    norm_num [floor_plane, level_ray, V3f.dot]
  ⟨h, ray_intersects_plane_parallel level_ray floor_plane 7 h⟩

/-- Claim C6: for every ray and plane with `|normal · direction| ≥ 0.0001`,
`ray_intersects_plane` returns `(distance − normal · origin) / (normal · direction)`,
and the point `origin + t * direction` at that `t` satisfies
`normal · point = distance`.  (The witness shows a negative `t`.) -/
theorem ray_intersects_plane_distance (ray : Ray K) (plane : Plane K) (dflt : K)
    (h : 1 / 10000 ≤ |plane.normal.dot ray.direction|) :
    ray_intersects_plane ray plane dflt =
        (plane.distance - plane.normal.dot ray.origin) / plane.normal.dot ray.direction ∧
      plane.normal.dot
          (ray.origin.add
            (V3f.scalar_mul (ray_intersects_plane ray plane dflt) ray.direction)) =
        plane.distance := by
  have hz := (float_is_zero_eq_false_iff _).mpr (le_trans tolerance_lt.le h)
  have hne : plane.normal.dot ray.direction ≠ 0 := by
    intro h0
    rw [h0] at h
    norm_num at h
  have ht : ray_intersects_plane ray plane dflt =
      (plane.distance - plane.normal.dot ray.origin) / plane.normal.dot ray.direction := by
    simp [ray_intersects_plane, hz]
  refine ⟨ht, ?_⟩
  rw [ht]
  simp only [V3f.dot, V3f.add, V3f.scalar_mul, V3f.mul_scalar] at hne ⊢
  field_simp
  ring

/-- Claim C6, witness: `up_ray` leaves the plane `y = -1` behind it; the distance
returned is `-1`, and the point at that distance lies on the plane. -/
theorem ray_intersects_plane_distance_witness :
    1 / 10000 ≤ |ground.normal.dot up_ray.direction| ∧
      ray_intersects_plane up_ray ground 0 = -1 ∧
      ground.normal.dot
          (up_ray.origin.add (V3f.scalar_mul (ray_intersects_plane up_ray ground 0)
            up_ray.direction)) = ground.distance := by
  have h : 1 / 10000 ≤ |ground.normal.dot up_ray.direction| := by
    norm_num [ground, up_ray, V3f.dot]
  have ht := ray_intersects_plane_distance up_ray ground 0 h
  refine ⟨h, ?_, ht.2⟩
  rw [ht.1]
  norm_num [ground, up_ray, V3f.dot]

end Claims

section ShadingClaims

variable {K : Type} [LinearOrderedField K] [FloorRing K]

/-- Claim C7, the code at a failing input: `down_ray` hits the floor of `lit_floor`
at depth `0` with `specular_intensity = 2` and `specular_contribution = 1 / 2`.
The source scales white by `2` (saturating to `255`) and then by `1 / 2`, which
gives `127` in each channel, where one scaling by the product `2 * (1 / 2)` gives
`255`. -/
theorem cast_ray_specular_scaled_twice :
    intersect_ray_with_world sqrt_rat down_ray lit_floor =
        some ⟨⟨0, 1, 0⟩, ⟨0, 0, 0⟩, floor_mat, true⟩ ∧
      shade_lights sqrt_rat pow_rat down_ray lit_floor floor_mat ⟨0, 0, 0⟩ ⟨0, 1, 0⟩ ⟨0, 0⟩
        lit_floor.lights = some ⟨2, 2⟩ ∧
      cast_ray sqrt_rat pow_rat down_ray lit_floor 0 = some ⟨127, 127, 127⟩ ∧
      final_color_spec floor_mat ⟨2, 2⟩ lit_floor.default_color = ⟨255, 255, 255⟩ := by
  have hz : float_is_zero (0 : ℚ) = true := by
    norm_num [float_is_zero, tolerance]
  have r0 : round32 (0 : ℚ) = 0 := round32_zero
  have r1 : round32 (510 : ℚ) = 510 := by
    simpa using round32_natCast (K := ℚ) 510 (by norm_num)
  have r2 : round32 (255 / 2 : ℚ) = 255 / 2 :=
    round32_eq_self _ 16711680 6 (by norm_num) (by norm_num [abs_of_pos])
      (by norm_num [abs_of_pos]) (by norm_num)
  have r4 : round32 (255 : ℚ) = 255 := by
    simpa using round32_natCast (K := ℚ) 255 (by norm_num)
  have e0 : Color.mul_scalar (⟨10, 20, 30⟩ : Color) ((2 : ℚ) * 0) = ⟨0, 0, 0⟩ := by
    apply mul_scalar_eq <;> norm_num [r0]
  have e1 : Color.mul_scalar (⟨255, 255, 255⟩ : Color) (2 : ℚ) = ⟨255, 255, 255⟩ := by
    apply mul_scalar_eq <;> norm_num [r1]
  have e2 : Color.mul_scalar (⟨255, 255, 255⟩ : Color) ((1 : ℚ) / 2) = ⟨127, 127, 127⟩ := by
    apply mul_scalar_eq <;> norm_num [r2]
  have e3 : Color.mul_scalar (⟨240, 248, 255⟩ : Color) (0 : ℚ) = ⟨0, 0, 0⟩ := by
    apply mul_scalar_eq <;> norm_num [r0]
  have e4 : Color.mul_scalar (⟨255, 255, 255⟩ : Color) ((2 : ℚ) * (1 / 2)) =
      ⟨255, 255, 255⟩ := by
    apply mul_scalar_eq <;> norm_num [r4]
  refine ⟨hit_floor, lights_floor, ?_, ?_⟩
  · rw [cast_ray_hit sqrt_rat pow_rat down_ray lit_floor 0 _ ⟨2, 2⟩ (by norm_num) hit_floor
      rfl lights_floor]
    simp only [hz, if_true, final_color, floor_mat, lit_floor, Color.scalar_mul, e0, e1, e2,
      e3]
    rfl
  · simp only [final_color_spec, floor_mat, lit_floor, e0, e3, e4]
    rfl

/-- Claim C8: for every ray and world, `cast_ray` returns the background colour
`default_color` whenever `reflection_depth > 3`, whatever the ray would hit, and
whenever `intersect_ray_with_world` reports no hit for the ray. -/
theorem cast_ray_background (sqrt : K → K) (pow : K → K → K) (ray : Ray K)
    (world : World K) (reflection_depth : Int) :
    (reflection_depth > 3 →
        cast_ray sqrt pow ray world reflection_depth = some world.default_color) ∧
      (∀ r, intersect_ray_with_world sqrt ray world = some r → r.intersected = false →
        cast_ray sqrt pow ray world reflection_depth = some world.default_color) := by
  constructor
  · intro h
    rw [cast_ray]
    simp [h]
  · intro r hr hi
    rw [cast_ray]
    by_cases h : reflection_depth > 3
    · simp [h]
    · simp [h, hr, hi]

/-- Claim C8, witness: at depth `4` the ray between the mirrors, which would hit
one, gets the background colour; at depth `0` so does `level_ray`, which runs
parallel to the only surface of `lit_floor`. -/
theorem cast_ray_background_witness :
    cast_ray sqrt_rat pow_rat up_ray mirror_hall 4 = some ⟨240, 248, 255⟩ ∧
      cast_ray sqrt_rat pow_rat level_ray lit_floor 0 = some ⟨240, 248, 255⟩ := by
  have hmiss : intersect_ray_with_world sqrt_rat level_ray lit_floor =
      some (scan_init : ScanState ℚ).res := by
    norm_num [intersect_ray_with_world, scan_spheres, scan_plane, lit_floor, floor_plane,
      level_ray, ray_intersects_plane, float_is_zero, tolerance, V3f.dot, scan_init, FLT_MAX]
  exact ⟨(cast_ray_background sqrt_rat pow_rat up_ray mirror_hall 4).1 (by norm_num),
    (cast_ray_background sqrt_rat pow_rat level_ray lit_floor 0).2 _ hmiss rfl⟩

/-- Claim C9, counterexample: between two facing mirrors of reflectance `1` the
ray started at depth `0` makes five invocations of `cast_ray`, the fifth with
depth `4`. -/
theorem cast_ray_depths_mirror_hall :
    cast_ray_depths sqrt_rat pow_rat up_ray mirror_hall 0 = [0, 1, 2, 3, 4] := by
  rw [cast_ray_depths]
  norm_num [reflect_ray, shade_lights, reflect, intersect_ray_with_world, scan_spheres,
    scan_plane, scan_init, mirror_hall, ceiling, ground, mirror, up_ray, ray_intersects_plane,
    float_is_zero, tolerance, FLT_MAX, V3f.dot, V3f.add, V3f.sub, V3f.scalar_mul,
    V3f.mul_scalar]
  rw [cast_ray_depths]
  norm_num [reflect_ray, shade_lights, reflect, intersect_ray_with_world, scan_spheres,
    scan_plane, scan_init, mirror_hall, ceiling, ground, mirror, up_ray, ray_intersects_plane,
    float_is_zero, tolerance, FLT_MAX, V3f.dot, V3f.add, V3f.sub, V3f.scalar_mul,
    V3f.mul_scalar]
  rw [cast_ray_depths]
  norm_num [reflect_ray, shade_lights, reflect, intersect_ray_with_world, scan_spheres,
    scan_plane, scan_init, mirror_hall, ceiling, ground, mirror, up_ray, ray_intersects_plane,
    float_is_zero, tolerance, FLT_MAX, V3f.dot, V3f.add, V3f.sub, V3f.scalar_mul,
    V3f.mul_scalar]
  rw [cast_ray_depths]
  norm_num [reflect_ray, shade_lights, reflect, intersect_ray_with_world, scan_spheres,
    scan_plane, scan_init, mirror_hall, ceiling, ground, mirror, up_ray, ray_intersects_plane,
    float_is_zero, tolerance, FLT_MAX, V3f.dot, V3f.add, V3f.sub, V3f.scalar_mul,
    V3f.mul_scalar]
  rw [cast_ray_depths]
  norm_num

/-- Claim C9, amended: for every world and every ray, `cast_ray` started at depth
`0` terminates (it is a total function, by recursion on `4 - reflection_depth`),
and along the reflection path it is invoked at most five times, with the depth
arguments `0, 1, 2, 3, 4` in this order and no others; an invocation with depth
`4` returns the background colour at once, so at most four invocations (depths
`0` to `3`) intersect and shade. -/
theorem cast_ray_depths_bound (sqrt : K → K) (pow : K → K → K) (ray : Ray K)
    (world : World K) :
    (cast_ray_depths sqrt pow ray world 0 = [0] ∨
        cast_ray_depths sqrt pow ray world 0 = [0, 1] ∨
        cast_ray_depths sqrt pow ray world 0 = [0, 1, 2] ∨
        cast_ray_depths sqrt pow ray world 0 = [0, 1, 2, 3] ∨
        cast_ray_depths sqrt pow ray world 0 = [0, 1, 2, 3, 4]) ∧
      (∀ ray4, cast_ray_depths sqrt pow ray4 world 4 = [4]) ∧
      ∀ ray4, cast_ray sqrt pow ray4 world 4 = some world.default_color := by
  refine ⟨?_, ?_, ?_⟩
  · rcases cast_ray_depths_cases sqrt pow ray world 0 with h0 | ⟨_, r1, h0⟩
    · exact Or.inl h0
    rcases cast_ray_depths_cases sqrt pow r1 world (0 + 1) with h1 | ⟨_, r2, h1⟩
    · exact Or.inr (Or.inl (by rw [h0, h1]; rfl))
    rcases cast_ray_depths_cases sqrt pow r2 world (0 + 1 + 1) with h2 | ⟨_, r3, h2⟩
    · exact Or.inr (Or.inr (Or.inl (by rw [h0, h1, h2]; rfl)))
    rcases cast_ray_depths_cases sqrt pow r3 world (0 + 1 + 1 + 1) with h3 | ⟨_, r4, h3⟩
    · exact Or.inr (Or.inr (Or.inr (Or.inl (by rw [h0, h1, h2, h3]; rfl))))
    rcases cast_ray_depths_cases sqrt pow r4 world (0 + 1 + 1 + 1 + 1) with h4 | ⟨h4, _⟩
    · exact Or.inr (Or.inr (Or.inr (Or.inr (by rw [h0, h1, h2, h3, h4]; rfl))))
    · exact absurd h4 (by norm_num)
  · intro ray4
    rcases cast_ray_depths_cases sqrt pow ray4 world 4 with h | ⟨h, _⟩
    · exact h
    · exact absurd h (by norm_num)
  · intro ray4
    rw [cast_ray]
    simp

end ShadingClaims

section ShadowClaims

variable {K : Type} [LinearOrderedField K]

/-- Claim C10: in `cast_ray`, for every hit point `p` with normal `n` and every
light `L` with `light_dir = normalize(L.position - p)`, the shadow ray has origin
`p + 0.001 * light_dir` and direction `light_dir`; if some plane or sphere of the
world has a valid distance on it (`0 ≤ t < FLT_MAX`, however far beyond the
light), `L` leaves `diffuse_intensity` and `specular_intensity` unchanged;
otherwise `L` adds `intensity * max(0, light_dir · n)` to the first and
`intensity * max(0, reflect(light_dir, n) · ray.direction) ^ specular_exponent` to
the second. -/
theorem shade_light_shadow (sqrt : K → K) (pow : K → K → K) (ray : Ray K) (world : World K)
    (mat : Material K) (point normal : V3f K) (acc : Intensities K) (light : Light K)
    (cs : List (Candidate K))
    (hcs : candidates sqrt (shadow_ray sqrt point light) world = some cs) :
    light_direction sqrt point light = normalize sqrt (light.position.sub point) ∧
      shadow_ray sqrt point light =
        ⟨point.add (V3f.scalar_mul (1 / 1000) (light_direction sqrt point light)),
          light_direction sqrt point light⟩ ∧
      ((∃ c ∈ cs, valid_distance c.distance) →
        shade_light sqrt pow ray world mat point normal acc light = some acc) ∧
      ((¬ ∃ c ∈ cs, valid_distance c.distance) →
        shade_light sqrt pow ray world mat point normal acc light =
          some
            { diffuse_intensity :=
                acc.diffuse_intensity +
                  light.intensity * max 0 ((light_direction sqrt point light).dot normal)
              specular_intensity :=
                acc.specular_intensity +
                  light.intensity *
                    pow (max 0 ((reflect (light_direction sqrt point light) normal).dot
                      ray.direction)) mat.specular_exponent }) := by
  obtain ⟨res, hres, hiff⟩ := intersected_iff sqrt (shadow_ray sqrt point light) world cs hcs
  refine ⟨rfl, rfl, ?_, ?_⟩
  · intro h
    simp only [shade_light, hres, hiff.mpr h, if_true]
  · intro h
    have hf : res.intersected = false := by
      cases hb : res.intersected with
      | false => rfl
      | true => exact absurd (hiff.mp hb) h
    simp only [shade_light, hres, hf, Bool.false_eq_true, if_false, mul_comm]

/-- Claim C10, witness: over `lit_floor` the light above the origin is not
occluded and adds `2` to both intensities; from a point twelve units below the
floor its shadow ray meets the floor at distance `11.999` and it adds nothing. -/
theorem shade_light_shadow_witness :
    shade_light sqrt_rat pow_rat down_ray lit_floor floor_mat ⟨0, 0, 0⟩ ⟨0, 1, 0⟩ ⟨0, 0⟩
        overhead_light = some ⟨2, 2⟩ ∧
      shade_light sqrt_rat pow_rat down_ray lit_floor floor_mat ⟨0, -12, 0⟩ ⟨0, 1, 0⟩ ⟨0, 0⟩
        overhead_light = some ⟨0, 0⟩ := by
  have hd1 : light_direction sqrt_rat ⟨0, 0, 0⟩ overhead_light = ⟨0, 1, 0⟩ := by
    norm_num [light_direction, normalize, V3f.length, V3f.length_sq, overhead_light, V3f.dot,
      V3f.sub, V3f.scalar_mul, V3f.mul_scalar, sqrt_rat_sixteen]
  have hd2 : light_direction sqrt_rat ⟨0, -12, 0⟩ overhead_light = ⟨0, 1, 0⟩ := by
    norm_num [light_direction, normalize, V3f.length, V3f.length_sq, overhead_light, V3f.dot,
      V3f.sub, V3f.scalar_mul, V3f.mul_scalar, sqrt_rat_256]
  have hc1 : candidates sqrt_rat (shadow_ray sqrt_rat ⟨0, 0, 0⟩ overhead_light) lit_floor =
      some [⟨-(1 / 1000), floor_mat, ⟨0, 1, 0⟩⟩] := by
    norm_num [candidates, sphere_candidates, plane_candidate, shadow_ray, hd1, lit_floor,
      floor_plane, ray_intersects_plane, float_is_zero, tolerance, V3f.dot, V3f.add,
      V3f.mul_scalar]
  have hc2 : candidates sqrt_rat (shadow_ray sqrt_rat ⟨0, -12, 0⟩ overhead_light) lit_floor =
      some [⟨11999 / 1000, floor_mat, ⟨0, 1, 0⟩⟩] := by
    norm_num [candidates, sphere_candidates, plane_candidate, shadow_ray, hd2, lit_floor,
      floor_plane, ray_intersects_plane, float_is_zero, tolerance, V3f.dot, V3f.add,
      V3f.mul_scalar]
  constructor
  · rw [(shade_light_shadow sqrt_rat pow_rat down_ray lit_floor floor_mat ⟨0, 0, 0⟩ ⟨0, 1, 0⟩
      ⟨0, 0⟩ overhead_light _ hc1).2.2.2 (by norm_num [valid_distance])]
    simp only [hd1]
    norm_num [reflect, down_ray, floor_mat, overhead_light, pow_rat, V3f.dot, V3f.sub,
      V3f.scalar_mul, V3f.mul_scalar]
  · exact (shade_light_shadow sqrt_rat pow_rat down_ray lit_floor floor_mat ⟨0, -12, 0⟩
      ⟨0, 1, 0⟩ ⟨0, 0⟩ overhead_light _ hc2).2.2.1
      ⟨_, List.mem_singleton.mpr rfl, by norm_num [valid_distance, FLT_MAX]⟩

end ShadowClaims

/-! ## Auxiliary lemmas for rendering -/

section RenderLemmas

variable {K : Type} [LinearOrderedField K]

theorem collect_cons_some {α : Type} (a : α) (l : List (Option α)) :
    collect (some a :: l) = (collect l).map (fun r => a :: r) := by
  simp only [collect]
  cases collect l <;> rfl

theorem collect_append {α : Type} (l1 l2 : List (Option α)) :
    collect (l1 ++ l2) =
      match collect l1, collect l2 with
      | some a, some b => some (a ++ b)
      | _, _ => none := by
  induction l1 with
  | nil =>
    simp only [List.nil_append, collect]
    cases collect l2 <;> rfl
  | cons h t ih =>
    cases h with
    | none => simp [collect]
    | some a =>
      rw [List.cons_append, collect_cons_some, collect_cons_some, ih]
      cases collect t <;> cases collect l2 <;> rfl

theorem collect_eq_some_iff {α : Type} (l : List (Option α)) (ws : List α) :
    collect l = some ws ↔ l = ws.map some := by
  induction l generalizing ws with
  | nil =>
    cases ws with
    | nil => simp [collect]
    | cons w ws => simp [collect]
  | cons h t ih =>
    cases h with
    | none =>
      cases ws with
      | nil => simp [collect]
      | cons w ws => simp [collect]
    | some a =>
      rw [collect_cons_some]
      cases ws with
      | nil => simp
      | cons w ws =>
        have hws := ih ws
        cases hc : collect t with
        | none =>
          rw [hc] at hws
          have hne : ¬ t = List.map some ws := fun h => by simpa using hws.mpr h
          simp [hne]
        | some r =>
          rw [hc] at hws
          simp only [Option.map_some', Option.some.injEq, List.cons.injEq, List.map_cons]
          constructor
          · rintro ⟨rfl, rfl⟩
            exact ⟨rfl, hws.mp rfl⟩
          · rintro ⟨rfl, h2⟩
            exact ⟨rfl, by simpa using hws.mpr h2⟩

theorem band_append (img : Image) (y m n : Nat) :
    band img y (m + n) = band img y m ++ band img (y + m) n := by
  induction m generalizing y with
  | zero => simp [band]
  | succ m ih =>
    rw [show m + 1 + n = (m + n) + 1 by omega, band, band, ih (y + 1), List.append_assoc,
      show y + 1 + m = y + (m + 1) by omega]

theorem band_index (img : Image) (y n : Nat) :
    (band img y n).map (pixel_index img) = List.range' (y * img.width) (n * img.width) := by
  induction n generalizing y with
  | zero => simp [band]
  | succ n ih =>
    have hrow : (pixel_index img ∘ fun x => (x, y)) = (y * img.width + ·) := rfl
    rw [band, List.map_append, ih (y + 1), List.map_map, hrow, List.map_add_range',
      show (n + 1) * img.width = n * img.width + img.width by ring,
      ← List.range'_append_1 (y * img.width) img.width (n * img.width),
      show (y + 1) * img.width = y * img.width + img.width by ring, Nat.add_zero]

theorem mem_band (img : Image) (y n : Nat) (p : Nat × Nat) :
    p ∈ band img y n ↔ p.1 < img.width ∧ y ≤ p.2 ∧ p.2 < y + n := by
  induction n generalizing y with
  | zero => simp [band]
  | succ n ih =>
    rw [band, List.mem_append, ih (y + 1)]
    simp only [List.mem_map, List.mem_range'_1, zero_le, zero_add, true_and]
    constructor
    · rintro (⟨x, hx, rfl⟩ | ⟨h1, h2, h3⟩)
      · exact ⟨hx, le_refl _, by omega⟩
      · exact ⟨h1, by omega, by omega⟩
    · rintro ⟨h1, h2, h3⟩
      by_cases hy : p.2 = y
      · left
        exact ⟨p.1, h1, by rw [← hy]⟩
      · right
        exact ⟨h1, by omega, by omega⟩

theorem foldl_store_of_not_mem {α : Type} (ws : List (Nat × α)) (pixels : Nat → α) (i : Nat)
    (h : i ∉ ws.map Prod.fst) : ws.foldl store pixels i = pixels i := by
  induction ws generalizing pixels with
  | nil => rfl
  | cons w ws ih =>
    simp only [List.map_cons, List.mem_cons, not_or] at h
    rw [List.foldl_cons, ih _ h.2]
    simp [store, h.1]

theorem foldl_store_of_mem {α : Type} (ws : List (Nat × α)) (pixels : Nat → α) (w : Nat × α)
    (hnd : (ws.map Prod.fst).Nodup) (h : w ∈ ws) : ws.foldl store pixels w.1 = w.2 := by
  induction ws generalizing pixels with
  | nil => simp at h
  | cons v ws ih =>
    simp only [List.map_cons, List.nodup_cons] at hnd
    rw [List.foldl_cons]
    rcases List.mem_cons.mp h with rfl | h2
    · rw [foldl_store_of_not_mem ws _ _ hnd.1]
      simp [store]
    · exact ih _ hnd.2 h2

theorem bands_cover (H n : Nat) (hdiv : H % n = 0) (y : Nat) :
    y < H ↔ ∃ k, k < n ∧ k * (H / n) ≤ y ∧ y < (k + 1) * (H / n) := by
  have hH : n * (H / n) = H := Nat.mul_div_cancel' (Nat.dvd_of_mod_eq_zero hdiv)
  constructor
  · intro hy
    have ht : 0 < H / n := by
      rcases Nat.eq_zero_or_pos (H / n) with h0 | h0
      · rw [h0] at hH
        omega
      · exact h0
    refine ⟨y / (H / n), ?_, Nat.div_mul_le_self y (H / n), ?_⟩
    · rw [Nat.div_lt_iff_lt_mul ht, hH]
      exact hy
    · have h1 := Nat.div_add_mod y (H / n)
      have h2 := Nat.mod_lt y ht
      rw [Nat.add_mul, Nat.one_mul, Nat.mul_comm]
      omega
  · rintro ⟨k, hk, _, h2⟩
    have : (k + 1) * (H / n) ≤ n * (H / n) := Nat.mul_le_mul_right _ hk
    omega

theorem bands_disjoint (t y k1 k2 : Nat) (h1 : k1 * t ≤ y) (h2 : y < (k1 + 1) * t)
    (h3 : k2 * t ≤ y) (h4 : y < (k2 + 1) * t) : k1 = k2 := by
  rcases Nat.lt_trichotomy k1 k2 with h | h | h
  · have : (k1 + 1) * t ≤ k2 * t := Nat.mul_le_mul_right _ h
    omega
  · exact h
  · have : (k2 + 1) * t ≤ k1 * t := Nat.mul_le_mul_right _ h
    omega
end RenderLemmas

section TileLemmas

variable {K : Type}

theorem make_tiles_eq (world : World K) (img : Image) (t n ymin : Nat) :
    make_tiles world img t n ymin =
      (List.range n).map (fun k =>
        ({ img := img, ymin := ymin + k * t, ymax := ymin + (k + 1) * t, world := world } :
          TileInfo K)) := by
  induction n generalizing ymin with
  | zero => rfl
  | succ n ih =>
    rw [make_tiles, ih, List.range_succ_eq_map, List.map_cons, List.map_map]
    congr 1
    · simp
    · apply List.map_congr_left
      intro k _
      simp only [Function.comp, Nat.succ_eq_add_one]
      congr 1 <;> ring

end TileLemmas

section RenderLoopLemmas

variable {K : Type} [LinearOrderedField K] [FloorRing K]

theorem tile_row_eq {α : Type} (f : K → K → Option α) (img : Image) (y : Nat) (film_y : K)
    (n x : Nat) (film_x : K) (hx : film_x = film_x_run img x) :
    tile_row f img y film_y x n film_x =
      collect ((List.range' x n).map (fun x2 =>
        match f (film_x_run img x2) film_y with
        | none => none
        | some c => some (y * img.width + x2, c))) := by
  induction n generalizing x film_x with
  | zero => rfl
  | succ n ih =>
    subst hx
    rw [tile_row, List.range'_succ, List.map_cons,
      ih (x + 1) (round32 (film_x_run img x + xstep img)) rfl]
    cases f (film_x_run img x) film_y with
    | none => rfl
    | some c =>
      simp only [collect_cons_some]
      cases collect _ <;> rfl

theorem tile_rows_eq {α : Type} (f : K → K → Option α) (img : Image) (ymin : Nat)
    (n j : Nat) (film_y : K) (hy : film_y = film_y_run img ymin j) :
    tile_rows f img (ymin + j) n film_y =
      collect ((band img (ymin + j) n).map (pixel_store f img ymin)) := by
  induction n generalizing j film_y with
  | zero => rfl
  | succ n ih =>
    subst hy
    have hnext := ih (j + 1) (round32 (film_y_run img ymin j - ystep img)) rfl
    rw [show ymin + (j + 1) = ymin + j + 1 from rfl] at hnext
    rw [tile_rows, band, List.map_append, collect_append, hnext,
      tile_row_eq f img (ymin + j) _ img.width 0
        (round32 (-1 + round32 (round32 ((0 : Nat) : K) * xstep img))) rfl, List.map_map]
    have hrow : (fun x2 =>
        match f (film_x_run img x2) (film_y_run img ymin j) with
        | none => none
        | some c => some ((ymin + j) * img.width + x2, c)) =
        (pixel_store f img ymin ∘ fun x => (x, ymin + j)) := by
      funext x2
      simp only [Function.comp, pixel_store, pixel_index, Nat.add_sub_cancel_left]
    rw [hrow]
    cases collect (List.map (pixel_store f img ymin ∘ fun x => (x, ymin + j))
        (List.range' 0 img.width)) <;>
      cases collect (List.map (pixel_store f img ymin) (band img (ymin + j + 1) n)) <;> rfl

theorem tile_loop_eq {α : Type} (f : K → K → Option α) (img : Image) (ymin ymax : Nat)
    (h : ymin ≤ ymax) :
    tile_loop f img ymin ymax =
      collect ((band img ymin (ymax - ymin)).map (pixel_store f img ymin)) := by
  simp only [tile_loop, if_pos h]
  exact tile_rows_eq f img ymin (ymax - ymin) 0 _ rfl

theorem pixel_store_fst {α : Type} (f : K → K → Option α) (img : Image) (ymin : Nat)
    (p : Nat × Nat) (w : Nat × α) (h : pixel_store f img ymin p = some w) :
    w.1 = pixel_index img p := by
  unfold pixel_store at h
  split at h
  · exact absurd h (by simp)
  · simp only [Option.some.injEq] at h
    rw [← h]

theorem collect_pixel_store_fst {α : Type} (f : K → K → Option α) (img : Image) (ymin : Nat)
    (l : List (Nat × Nat)) (ws : List (Nat × α))
    (h : collect (l.map (pixel_store f img ymin)) = some ws) :
    ws.map Prod.fst = l.map (pixel_index img) := by
  rw [collect_eq_some_iff] at h
  induction l generalizing ws with
  | nil =>
    cases ws with
    | nil => rfl
    | cons w ws => simp at h
  | cons p l ih =>
    cases ws with
    | nil => simp at h
    | cons w ws =>
      simp only [List.map_cons, List.cons.injEq] at h ⊢
      exact ⟨pixel_store_fst f img ymin p w h.1, ih ws h.2⟩

theorem collect_append_eq_some {α : Type} (l1 l2 : List (Option α)) (ws : List α)
    (h : collect (l1 ++ l2) = some ws) :
    ∃ w1 w2, collect l1 = some w1 ∧ collect l2 = some w2 ∧ ws = w1 ++ w2 := by
  rw [collect_append] at h
  cases h1 : collect l1 with
  | none =>
    rw [h1] at h
    exact absurd h (by simp)
  | some w1 =>
    cases h2 : collect l2 with
    | none =>
      rw [h1, h2] at h
      exact absurd h (by simp)
    | some w2 =>
      rw [h1, h2] at h
      simp only [Option.some.injEq] at h
      exact ⟨w1, w2, rfl, rfl, h.symm⟩

theorem collect_image_stores_fst {α : Type} (f : K → K → Option α) (img : Image)
    (t n ymin : Nat) (ws : List (Nat × α))
    (h : collect (image_stores f img t n ymin) = some ws) :
    ws.map Prod.fst = List.range' (ymin * img.width) (n * t * img.width) := by
  induction n generalizing ymin ws with
  | zero =>
    simp only [image_stores, collect, Option.some.injEq] at h
    subst h
    simp
  | succ n ih =>
    rw [image_stores] at h
    obtain ⟨w1, w2, h1, h2, rfl⟩ := collect_append_eq_some _ _ _ h
    rw [List.map_append, collect_pixel_store_fst f img ymin _ _ h1, band_index, ih _ _ h2,
      show (ymin + t) * img.width = ymin * img.width + t * img.width by ring,
      List.range'_append_1]
    congr 1
    ring

theorem mem_image_stores {α : Type} (f : K → K → Option α) (img : Image) (t n ymin k : Nat)
    (p : Nat × Nat) (hk : k < n) (hp : p ∈ band img (ymin + k * t) t) :
    pixel_store f img (ymin + k * t) p ∈ image_stores f img t n ymin := by
  induction n generalizing ymin k with
  | zero => omega
  | succ n ih =>
    rw [image_stores, List.mem_append]
    cases k with
    | zero =>
      left
      simp only [Nat.zero_mul, Nat.add_zero] at hp ⊢
      exact List.mem_map_of_mem _ hp
    | succ k =>
      right
      have e : ymin + (k + 1) * t = ymin + t + k * t := by ring
      rw [e] at hp ⊢
      exact ih (ymin + t) k (by omega) hp

theorem image_stores_of_agree {α : Type} (f : K → K → Option α) (img : Image)
    (t n ymin : Nat)
    (h : ∀ k j, k < n → j < t →
      (film_y_run img (ymin + k * t) j : K) = film_y_run img 0 (ymin + k * t + j)) :
    image_stores f img t n ymin = (band img ymin (n * t)).map (pixel_store f img 0) := by
  induction n generalizing ymin with
  | zero => simp [image_stores, band]
  | succ n ih =>
    rw [image_stores, show (n + 1) * t = t + n * t by ring, band_append, List.map_append]
    congr 1
    · apply List.map_congr_left
      intro p hp
      rw [mem_band] at hp
      have hj := h 0 (p.2 - ymin) (by omega) (by omega)
      simp only [Nat.zero_mul, Nat.add_zero] at hj
      rw [show ymin + (p.2 - ymin) = p.2 by omega] at hj
      simp only [pixel_store, hj, Nat.sub_zero]
    · apply ih
      intro k j hk hj
      have := h (k + 1) j (by omega) hj
      rw [show ymin + (k + 1) * t = ymin + t + k * t by ring] at this
      exact this

theorem collect_of_forall_some {α : Type} (l : List (Option α))
    (h : ∀ o ∈ l, ∃ a, o = some a) : ∃ ws, collect l = some ws := by
  induction l with
  | nil => exact ⟨[], rfl⟩
  | cons o l ih =>
    obtain ⟨a, rfl⟩ := h o (List.mem_cons_self _ _)
    obtain ⟨ws, hws⟩ := ih (fun o2 ho2 => h o2 (List.mem_cons_of_mem _ ho2))
    exact ⟨a :: ws, by rw [collect_cons_some, hws]; rfl⟩

theorem mem_image_stores_iff {α : Type} (f : K → K → Option α) (img : Image) (t n ymin : Nat)
    (o : Option (Nat × α)) (ho : o ∈ image_stores f img t n ymin) :
    ∃ k p, k < n ∧ p ∈ band img (ymin + k * t) t ∧ o = pixel_store f img (ymin + k * t) p := by
  induction n generalizing ymin with
  | zero => simp [image_stores] at ho
  | succ n ih =>
    rw [image_stores, List.mem_append] at ho
    rcases ho with ho | ho
    · obtain ⟨p, hp, rfl⟩ := List.mem_map.mp ho
      exact ⟨0, p, by omega, by simpa using hp, by simp⟩
    · obtain ⟨k, p, hk, hp, rfl⟩ := ih (ymin + t) ho
      refine ⟨k + 1, p, by omega, ?_, ?_⟩
      · rw [show ymin + (k + 1) * t = ymin + t + k * t by ring]
        exact hp
      · rw [show ymin + (k + 1) * t = ymin + t + k * t by ring]

theorem render_tile_eq (sqrt : K → K) (pow : K → K → K) (tile : TileInfo K)
    (h : tile.ymin ≤ tile.ymax) :
    render_tile sqrt pow tile =
      collect ((band tile.img tile.ymin (tile.ymax - tile.ymin)).map
        (pixel_store (render_pixel sqrt pow tile.world tile.img) tile.img tile.ymin)) :=
  tile_loop_eq _ tile.img tile.ymin tile.ymax h

theorem run_tiles_make_tiles (sqrt : K → K) (pow : K → K → K) (world : World K) (img : Image)
    (t n ymin : Nat) (pixels : Nat → Color) :
    run_tiles sqrt pow pixels (make_tiles world img t n ymin) =
      (collect (image_stores (render_pixel sqrt pow world img) img t n ymin)).map
        (fun ws => ws.foldl store pixels) := by
  induction n generalizing ymin pixels with
  | zero => simp [make_tiles, run_tiles, image_stores, collect]
  | succ n ih =>
    rw [make_tiles, run_tiles, render_tile_eq sqrt pow _ (Nat.le_add_right ymin t),
      image_stores, collect_append]
    simp only [Nat.add_sub_cancel_left]
    cases collect ((band img ymin t).map
        (pixel_store (render_pixel sqrt pow world img) img ymin)) with
    | none => rfl
    | some ws =>
      simp only [ih]
      cases collect (image_stores (render_pixel sqrt pow world img) img t n (ymin + t)) with
      | none => rfl
      | some ws2 => simp [List.foldl_append]

theorem render_world_eq (sqrt : K → K) (pow : K → K → K) (world : World K) (img : Image)
    (n : Nat) (pixels : Nat → Color) (hn : 1 ≤ n) (hdiv : img.height % n = 0) :
    render_world sqrt pow world img n pixels =
      (collect (image_stores (render_pixel sqrt pow world img) img (img.height / n) n 0)).map
        (fun ws => ws.foldl store pixels) := by
  have hn0 : n ≠ 0 := by omega
  simp only [render_world, tile_infos, hn0, if_false, hdiv, if_true, run_tiles_make_tiles]

/-- The buffer after `render_world`: the pixel `(x, y)` of the band `k` holds the
colour cast for the running film coordinates of that band, and nothing is stored
from `W * H` on. -/
theorem render_world_pixel (sqrt : K → K) (pow : K → K → K) (world : World K) (img : Image)
    (n : Nat) (pixels b : Nat → Color) (hn : 1 ≤ n) (hdiv : img.height % n = 0)
    (hb : render_world sqrt pow world img n pixels = some b) :
    (∀ k x y, k < n → x < img.width → k * (img.height / n) ≤ y →
      y < (k + 1) * (img.height / n) →
      render_pixel sqrt pow world img (film_x_run img x)
          (film_y_run img (k * (img.height / n)) (y - k * (img.height / n))) =
        some (b (y * img.width + x))) ∧
      ∀ i, img.width * img.height ≤ i → b i = pixels i := by
  have hH : n * (img.height / n) = img.height :=
    Nat.mul_div_cancel' (Nat.dvd_of_mod_eq_zero hdiv)
  rw [render_world_eq sqrt pow world img n pixels hn hdiv] at hb
  cases hc : collect (image_stores (render_pixel sqrt pow world img) img (img.height / n) n 0)
    with
  | none =>
    rw [hc] at hb
    exact absurd hb (by simp)
  | some ws =>
    rw [hc] at hb
    simp only [Option.map_some', Option.some.injEq] at hb
    subst hb
    have hidx : ws.map Prod.fst = List.range' 0 (img.height * img.width) := by
      rw [collect_image_stores_fst _ _ _ _ _ _ hc, hH, Nat.zero_mul]
    have hnd : (ws.map Prod.fst).Nodup := by
      rw [hidx]
      exact List.nodup_range' _ _
    have hl := (collect_eq_some_iff _ _).mp hc
    constructor
    · intro k x y hk hx hy1 hy2
      have hband : (x, y) ∈ band img (0 + k * (img.height / n)) (img.height / n) :=
        (mem_band _ _ _ _).mpr ⟨hx, by simpa using hy1, by
          simp only [Nat.zero_add]
          rw [Nat.add_mul, Nat.one_mul] at hy2
          exact hy2⟩
      have hmem := mem_image_stores (render_pixel sqrt pow world img) img (img.height / n) n 0
        k (x, y) hk hband
      rw [hl, List.mem_map] at hmem
      obtain ⟨w, hw, hwe⟩ := hmem
      have hval := foldl_store_of_mem ws pixels w hnd hw
      simp only [pixel_store, Nat.zero_add] at hwe
      cases hp : render_pixel sqrt pow world img (film_x_run img x)
          (film_y_run img (k * (img.height / n)) (y - k * (img.height / n))) with
      | none =>
        rw [hp] at hwe
        exact absurd hwe (by simp)
      | some c =>
        rw [hp] at hwe
        simp only [Option.some.injEq] at hwe
        rw [hwe] at hval
        simp only [pixel_index] at hval
        rw [hval]
    · intro i hi
      apply foldl_store_of_not_mem
      rw [hidx, List.mem_range'_1]
      rw [Nat.mul_comm] at hi
      omega

end RenderLoopLemmas

/-! ## Auxiliary lemmas, continued -/

section ColorLemmas2

variable {K : Type} [LinearOrderedField K] [FloorRing K]

theorem to_uint8_of_nonneg (p : K) (hp : 0 ≤ p) :
    ((to_uint8 (min 255 p) : Nat) : Int) = min 255 ⌊p⌋ := by
  have hv : 0 ≤ min (255 : K) p := le_min (by norm_num) hp
  have hfl : ⌊min (255 : K) p⌋ = min 255 ⌊p⌋ := by
    have h := (Int.floor_mono (α := K)).map_min (a := (255 : K)) (b := p)
    rw [h]
    congr 1
    exact_mod_cast Int.floor_natCast (α := K) 255
  have h0 : 0 ≤ ⌊p⌋ := Int.floor_nonneg.mpr hp
  simp only [to_uint8, truncate, if_pos hv, hfl]
  omega

theorem to_uint8_of_small_neg (p : K) (h1 : -1 < p) (h2 : p < 0) :
    to_uint8 (min 255 p) = 0 := by
  have hm : min (255 : K) p = p := min_eq_right (le_trans (le_of_lt h2) (by norm_num))
  have hc : ⌈p⌉ = 0 := by
    rw [Int.ceil_eq_iff]
    constructor
    · simpa using h1
    · simpa using le_of_lt h2
  simp only [to_uint8, truncate, hm, if_neg (not_le.mpr h2), hc]
  rfl

theorem to_uint8_clamp (p : K) (h1 : -1 < p) :
    ((to_uint8 (min 255 p) : Nat) : Int) = ⌊max 0 (min 255 p)⌋ := by
  by_cases hp : 0 ≤ p
  · rw [to_uint8_of_nonneg p hp, max_eq_right (le_min (by norm_num) hp)]
    have h := (Int.floor_mono (α := K)).map_min (a := (255 : K)) (b := p)
    rw [h]
    congr 1
    exact_mod_cast (Int.floor_natCast (α := K) 255).symm
  · have h2 : p < 0 := not_le.mp hp
    rw [to_uint8_of_small_neg p h1 h2,
      max_eq_left (le_trans (min_le_right _ _) (le_of_lt h2))]
    simp

end ColorLemmas2

section GeometryLemmas2

variable {K : Type} [LinearOrderedField K]

theorem reflect_length_sq (v n : V3f K) (hn : n.length_sq = 1) :
    (reflect v n).length_sq = v.length_sq := by
  obtain ⟨vx, vy, vz⟩ := v
  obtain ⟨nx, ny, nz⟩ := n
  simp only [V3f.length_sq, V3f.dot] at hn
  simp only [reflect, V3f.sub, V3f.scalar_mul, V3f.mul_scalar, V3f.dot, V3f.length_sq]
  linear_combination (4 * (vx * nx + vy * ny + vz * nz) ^ 2) * hn

theorem is_root_iff_on_sphere (ray : Ray K) (sphere : Sphere K) (t : K) :
    is_root ray sphere t ↔
      ((ray.origin.add (V3f.scalar_mul t ray.direction)).sub sphere.center).dot
        ((ray.origin.add (V3f.scalar_mul t ray.direction)).sub sphere.center) =
        sphere.radius := by
  simp only [is_root, quad_a, quad_b, quad_c, V3f.dot, V3f.sub, V3f.add, V3f.scalar_mul,
    V3f.mul_scalar]
  constructor
  · intro h
    linear_combination h
  · intro h
    linear_combination h

theorem is_root_iff (ray : Ray K) (sphere : Sphere K) (s t : K) (ha : 0 < quad_a ray)
    (hs : s * s = quad_discriminant ray sphere) :
    is_root ray sphere t ↔
      (t = (-quad_b ray sphere + s) / (2 * quad_a ray) ∨
        t = (-quad_b ray sphere - s) / (2 * quad_a ray)) := by
  have hne : quad_a ray ≠ 0 := ne_of_gt ha
  have hc : quad_c ray sphere =
      (quad_b ray sphere * quad_b ray sphere - s * s) / (4 * quad_a ray) := by
    rw [hs, quad_discriminant]
    field_simp
  have key : quad_a ray * t * t + quad_b ray sphere * t + quad_c ray sphere =
      quad_a ray * (t - (-quad_b ray sphere + s) / (2 * quad_a ray)) *
        (t - (-quad_b ray sphere - s) / (2 * quad_a ray)) := by
    rw [hc]
    field_simp
    ring
  unfold is_root
  rw [key]
  constructor
  · intro h
    rcases mul_eq_zero.mp h with h1 | h1
    · rcases mul_eq_zero.mp h1 with h2 | h2
      · exact absurd h2 hne
      · left
        linarith
    · right
      linarith
  · rintro (h | h) <;> rw [h] <;> ring

theorem collect_map_some {α β : Type} (l : List α) (g : α → β) :
    collect (l.map (fun a => some (g a))) = some (l.map g) := by
  induction l with
  | nil => rfl
  | cons a l ih => rw [List.map_cons, collect_cons_some, ih]; rfl

end GeometryLemmas2

section SceneLemmas

variable {K : Type}

theorem built_counts (w : World K) (h : World.Built w) :
    w.planes.length ≤ 3 ∧ w.spheres.length ≤ 5 ∧ w.lights.length ≤ 3 := by
  induction h with
  | init dc cam => simp [World.init]
  | plane w w2 p _ hp ih =>
    simp only [World.push_plane, World.max_num_planes] at hp
    split at hp
    · simp only [Option.some.injEq] at hp
      subst hp
      simp only [List.length_append, List.length_singleton]
      omega
    · exact absurd hp (by simp)
  | sphere w w2 p _ hp ih =>
    simp only [World.push_sphere, World.max_num_spheres] at hp
    split at hp
    · simp only [Option.some.injEq] at hp
      subst hp
      simp only [List.length_append, List.length_singleton]
      omega
    · exact absurd hp (by simp)
  | light w w2 p _ hp ih =>
    simp only [World.push_light, World.max_num_lights] at hp
    split at hp
    · simp only [Option.some.injEq] at hp
      subst hp
      simp only [List.length_append, List.length_singleton]
      omega
    · exact absurd hp (by simp)

end SceneLemmas

/-! ## The claims, continued -/

section ColorClaims

variable {K : Type} [LinearOrderedField K] [FloorRing K]

/-- Claim C11, counterexample: the scalar is the `float` nearest to `0.7`, which
is `11744051 / 16777216`.  The products with the channels `10` and `100` round to
the binary32 values `7` and `70`, so `c * s` has the channels `7`, `70`, `2`, while
the floors of the exact products are `6`, `69`, `2`. -/
theorem color_mul_scalar_rounds_product :
    (0 : ℚ) ≤ 11744051 / 16777216 ∧
      Color.mul_scalar ⟨10, 100, 3⟩ (11744051 / 16777216 : ℚ) = ⟨7, 70, 2⟩ ∧
      min 255 ⌊(11744051 / 16777216 : ℚ) * 10⌋ = 6 ∧
      min 255 ⌊(11744051 / 16777216 : ℚ) * 100⌋ = 69 ∧
      min 255 ⌊(11744051 / 16777216 : ℚ) * 3⌋ = 2 := by
  have r1 : round32 (58720255 / 8388608 : ℚ) = 7 := by
    rw [round32_eq_of_near _ 14680064 2 (by norm_num) (by norm_num [abs_of_pos])
      (by norm_num [abs_of_pos]) (by norm_num [abs_lt])]
    norm_num
  have r2 : round32 (293601275 / 4194304 : ℚ) = 70 := by
    rw [round32_eq_of_near _ 9175040 6 (by norm_num) (by norm_num [abs_of_pos])
      (by norm_num [abs_of_pos]) (by norm_num [abs_lt])]
    norm_num
  have r3 : round32 (35232153 / 16777216 : ℚ) = 4404019 / 2097152 := by
    rw [round32_eq_of_near _ 8808038 1 (by norm_num) (by norm_num [abs_of_pos])
      (by norm_num [abs_of_pos]) (by norm_num [abs_lt])]
    norm_num
  have f1 : ⌊(58720255 / 8388608 : ℚ)⌋ = 6 := by
    rw [Int.floor_eq_iff]
    norm_num
  have f2 : ⌊(293601275 / 4194304 : ℚ)⌋ = 69 := by
    rw [Int.floor_eq_iff]
    norm_num
  have f3 : ⌊(35232153 / 16777216 : ℚ)⌋ = 2 := by
    rw [Int.floor_eq_iff]
    norm_num
  refine ⟨by norm_num, ?_, ?_, ?_, ?_⟩
  · apply mul_scalar_eq <;> norm_num [r1, r2, r3]
  · norm_num [f1]
  · norm_num [f2]
  · norm_num [f3]

/-- Claim C11, amended: for every colour `c` and every scalar `s ≥ 0`, each channel
of `c * s` equals `min(255, floor(p))`, where `p` is the binary32 product
`s * channel` (the exact product rounded to the nearest `float`), and `s * c` is
`c * s`; so every channel lies in `[0, 255]` and the result never wraps around. -/
theorem color_mul_scalar_saturates (c : Color) (s : K) (hs : 0 ≤ s) :
    ((((c.mul_scalar s).red : Nat) : Int) = min 255 ⌊round32 (s * (c.red : K))⌋ ∧
        (((c.mul_scalar s).green : Nat) : Int) = min 255 ⌊round32 (s * (c.green : K))⌋ ∧
        (((c.mul_scalar s).blue : Nat) : Int) = min 255 ⌊round32 (s * (c.blue : K))⌋) ∧
      ((c.mul_scalar s).red ≤ 255 ∧ (c.mul_scalar s).green ≤ 255 ∧
        (c.mul_scalar s).blue ≤ 255) ∧
      Color.scalar_mul s c = c.mul_scalar s := by
  have h : ∀ ch : Nat, ((to_uint8 (min (255 : K) (round32 (s * (ch : K)))) : Nat) : Int) =
      min 255 ⌊round32 (s * (ch : K))⌋ := fun ch =>
    to_uint8_of_nonneg _ (round32_nonneg _ (mul_nonneg hs (Nat.cast_nonneg _)))
  have hle : ∀ ch : Nat, to_uint8 (min (255 : K) (round32 (s * (ch : K)))) ≤ 255 := by
    intro ch
    have h1 := h ch
    have h2 : min (255 : Int) ⌊round32 (s * (ch : K))⌋ ≤ 255 := min_le_left _ _
    omega
  exact ⟨⟨h _, h _, h _⟩, ⟨hle _, hle _, hle _⟩, rfl⟩

/-- Claim C11, witness: scaling by `10` takes the channels `255`, `100`, `0` to
`255`, `255`, `0`. -/
theorem color_mul_scalar_saturates_witness :
    (0 : ℚ) ≤ 10 ∧
      ((((⟨255, 100, 0⟩ : Color).mul_scalar (10 : ℚ)).red : Nat) : Int) = 255 ∧
      ((((⟨255, 100, 0⟩ : Color).mul_scalar (10 : ℚ)).green : Nat) : Int) = 255 ∧
      ((((⟨255, 100, 0⟩ : Color).mul_scalar (10 : ℚ)).blue : Nat) : Int) = 0 := by
  have r1 : round32 (2550 : ℚ) = 2550 := by
    simpa using round32_natCast (K := ℚ) 2550 (by norm_num)
  have r2 : round32 (1000 : ℚ) = 1000 := by
    simpa using round32_natCast (K := ℚ) 1000 (by norm_num)
  have r3 : round32 (0 : ℚ) = 0 := round32_zero
  obtain ⟨⟨h1, h2, h3⟩, _, _⟩ :=
    color_mul_scalar_saturates (⟨255, 100, 0⟩ : Color) (10 : ℚ) (by norm_num)
  refine ⟨by norm_num, ?_, ?_, ?_⟩
  · rw [h1]
    norm_num [r1]
  · rw [h2]
    norm_num [r2]
  · rw [h3]
    norm_num [r3]

/-- Claim C12, counterexample: scaling the channel `100` by `-1` gives `156`, the
low eight bits of `-100`, and not `0`. -/
theorem color_mul_scalar_negative_wraps :
    Color.mul_scalar ⟨100, 100, 100⟩ (-1 : ℚ) = ⟨156, 156, 156⟩ := by
  have hc : ⌈(-100 : ℚ)⌉ = -100 := by
    rw [Int.ceil_eq_iff]
    norm_num
  have r1 : round32 (-100 : ℚ) = -100 :=
    round32_eq_self _ (-13107200) 6 (by norm_num) (by norm_num) (by norm_num) (by norm_num)
  norm_num [Color.mul_scalar, to_uint8, truncate, r1, hc]
  rfl

/-- Claim C12, amended: for every colour `c` and every scalar `s` such that each
binary32 product `s * channel` (the exact product rounded to the nearest `float`)
is greater than `-1` (every `s ≥ 0` is such), each channel of `c * s` is that
product clamped to `[0, 255]`, with its fraction dropped; a product between `-1`
and `0` yields `0`. -/
theorem color_mul_scalar_clamps_above_minus_one (c : Color) (s : K)
    (hr : -1 < round32 (s * (c.red : K))) (hg : -1 < round32 (s * (c.green : K)))
    (hb : -1 < round32 (s * (c.blue : K))) :
    (((c.mul_scalar s).red : Nat) : Int) = ⌊max 0 (min 255 (round32 (s * (c.red : K))))⌋ ∧
      (((c.mul_scalar s).green : Nat) : Int) =
        ⌊max 0 (min 255 (round32 (s * (c.green : K))))⌋ ∧
      (((c.mul_scalar s).blue : Nat) : Int) =
        ⌊max 0 (min 255 (round32 (s * (c.blue : K))))⌋ :=
  ⟨to_uint8_clamp _ hr, to_uint8_clamp _ hg, to_uint8_clamp _ hb⟩

/-- Claim C12, witness: scaling the channels `100`, `0`, `50` by `- 1 / 256`; the
products are `-25 / 64`, `0` and `-25 / 128`, and every channel of the result is
`0`. -/
theorem color_mul_scalar_clamps_above_minus_one_witness :
    (-1 < round32 ((-(1 / 256) : ℚ) * ((100 : Nat) : ℚ)) ∧
        -1 < round32 ((-(1 / 256) : ℚ) * ((0 : Nat) : ℚ)) ∧
        -1 < round32 ((-(1 / 256) : ℚ) * ((50 : Nat) : ℚ))) ∧
      ((((⟨100, 0, 50⟩ : Color).mul_scalar (-(1 / 256) : ℚ)).red : Nat) : Int) = 0 ∧
      ((((⟨100, 0, 50⟩ : Color).mul_scalar (-(1 / 256) : ℚ)).green : Nat) : Int) = 0 ∧
      ((((⟨100, 0, 50⟩ : Color).mul_scalar (-(1 / 256) : ℚ)).blue : Nat) : Int) = 0 := by
  have r1 : round32 ((-(1 / 256) : ℚ) * ((100 : Nat) : ℚ)) = -(25 / 64) :=
    (round32_eq_self _ (-13107200) (-2) (by norm_num) (by norm_num [abs_of_pos])
      (by norm_num [abs_of_pos]) (by norm_num)).trans (by norm_num)
  have r2 : round32 ((-(1 / 256) : ℚ) * ((0 : Nat) : ℚ)) = 0 := by
    simpa using round32_zero (K := ℚ)
  have r3 : round32 ((-(1 / 256) : ℚ) * ((50 : Nat) : ℚ)) = -(25 / 128) :=
    (round32_eq_self _ (-13107200) (-3) (by norm_num) (by norm_num [abs_of_pos])
      (by norm_num [abs_of_pos]) (by norm_num)).trans (by norm_num)
  have hr : -1 < round32 ((-(1 / 256) : ℚ) * ((100 : Nat) : ℚ)) := by
    rw [r1]
    norm_num
  have hg : -1 < round32 ((-(1 / 256) : ℚ) * ((0 : Nat) : ℚ)) := by
    rw [r2]
    norm_num
  have hb : -1 < round32 ((-(1 / 256) : ℚ) * ((50 : Nat) : ℚ)) := by
    rw [r3]
    norm_num
  obtain ⟨h1, h2, h3⟩ :=
    color_mul_scalar_clamps_above_minus_one (⟨100, 0, 50⟩ : Color) (-(1 / 256) : ℚ) hr hg hb
  have f1 : ⌊max (0 : ℚ) (min 255 (-(25 / 64)))⌋ = 0 := by
    norm_num
  have f3 : ⌊max (0 : ℚ) (min 255 (-(25 / 128)))⌋ = 0 := by
    norm_num
  refine ⟨⟨hr, hg, hb⟩, ?_, ?_, ?_⟩
  · rw [h1]
    show ⌊max (0 : ℚ) (min 255 (round32 ((-(1 / 256) : ℚ) * ((100 : Nat) : ℚ))))⌋ = 0
    rw [r1, f1]
  · rw [h2]
    show ⌊max (0 : ℚ) (min 255 (round32 ((-(1 / 256) : ℚ) * ((0 : Nat) : ℚ))))⌋ = 0
    rw [r2]
    norm_num
  · rw [h3]
    show ⌊max (0 : ℚ) (min 255 (round32 ((-(1 / 256) : ℚ) * ((50 : Nat) : ℚ))))⌋ = 0
    rw [r3, f3]

end ColorClaims

/-- Claim C13: for all colours `c1` and `c2`, each channel of `c1 + c2` equals
`min(255, c1.channel + c2.channel)`, the sum being formed without wraparound;
colour addition is commutative and associative. -/
theorem color_add_saturates (c1 c2 c3 : Color) :
    (c1.add c2).red = min 255 (c1.red + c2.red) ∧
      (c1.add c2).green = min 255 (c1.green + c2.green) ∧
      (c1.add c2).blue = min 255 (c1.blue + c2.blue) ∧
      c1.add c2 = c2.add c1 ∧ (c1.add c2).add c3 = c1.add (c2.add c3) := by
  refine ⟨?_, ?_, ?_, ?_, ?_⟩
  · simp only [Color.add]; omega
  · simp only [Color.add]; omega
  · simp only [Color.add]; omega
  · simp only [Color.add, Color.mk.injEq]
    refine ⟨?_, ?_, ?_⟩ <;> omega
  · simp only [Color.add, Color.mk.injEq]
    refine ⟨?_, ?_, ?_⟩ <;> omega

section GeometryClaims

variable {K : Type} [LinearOrderedField K]

/-- Claim C14: for every vector `v` and every unit-length normal `n`,
`reflect(reflect(v, n), n) = v`. -/
theorem reflect_reflect (v n : V3f K) (hn : n.length_sq = 1) : reflect (reflect v n) n = v := by
  obtain ⟨vx, vy, vz⟩ := v
  obtain ⟨nx, ny, nz⟩ := n
  simp only [V3f.length_sq, V3f.dot] at hn
  simp only [reflect, V3f.sub, V3f.scalar_mul, V3f.mul_scalar, V3f.dot, V3f.mk.injEq]
  refine ⟨?_, ?_, ?_⟩
  · linear_combination (4 * (vx * nx + vy * ny + vz * nz) * nx) * hn
  · linear_combination (4 * (vx * nx + vy * ny + vz * nz) * ny) * hn
  · linear_combination (4 * (vx * nx + vy * ny + vz * nz) * nz) * hn

/-- Claim C14, witness: the vector `(1, 2, 3)` reflected twice by `(0, 1, 0)`. -/
theorem reflect_reflect_witness :
    (⟨0, 1, 0⟩ : V3f ℚ).length_sq = 1 ∧
      reflect (reflect (⟨1, 2, 3⟩ : V3f ℚ) ⟨0, 1, 0⟩) ⟨0, 1, 0⟩ = ⟨1, 2, 3⟩ :=
  have h : (⟨0, 1, 0⟩ : V3f ℚ).length_sq = 1 := by norm_num [V3f.length_sq, V3f.dot]
  ⟨h, reflect_reflect ⟨1, 2, 3⟩ ⟨0, 1, 0⟩ h⟩

/-- Claim C19: for every vector `v` and every unit-length normal `n`,
`reflect(v, n)` has the squared length, and so the length, of `v`; a unit-length
`v` gives a unit-length reflection, and the direction of the reflected ray that
`cast_ray` builds from a unit-length direction and normal has unit length. -/
theorem reflect_preserves_length (sqrt : K → K) (v n : V3f K) (hn : n.length_sq = 1) :
    (reflect v n).length_sq = v.length_sq ∧
      (reflect v n).length sqrt = v.length sqrt ∧
      (v.length_sq = 1 → (reflect v n).length_sq = 1) ∧
      ∀ ray : Ray K, ∀ point : V3f K, ray.direction.length_sq = 1 →
        (reflect_ray ray point n).direction.length_sq = 1 := by
  have h := reflect_length_sq v n hn
  refine ⟨h, by simp only [V3f.length, h], fun hv => h.trans hv, ?_⟩
  intro ray point hd
  exact (reflect_length_sq ray.direction n hn).trans hd

/-- Claim C19, witness: the unit vector `(3/5, 4/5, 0)` reflected by `(0, 1, 0)`. -/
theorem reflect_preserves_length_witness :
    (⟨0, 1, 0⟩ : V3f ℚ).length_sq = 1 ∧ (⟨3 / 5, 4 / 5, 0⟩ : V3f ℚ).length_sq = 1 ∧
      (reflect (⟨3 / 5, 4 / 5, 0⟩ : V3f ℚ) ⟨0, 1, 0⟩).length_sq = 1 :=
  have h : (⟨0, 1, 0⟩ : V3f ℚ).length_sq = 1 := by norm_num [V3f.length_sq, V3f.dot]
  have hv : (⟨3 / 5, 4 / 5, 0⟩ : V3f ℚ).length_sq = 1 := by
    norm_num [V3f.length_sq, V3f.dot]
  ⟨h, hv, (reflect_preserves_length sqrt_rat ⟨3 / 5, 4 / 5, 0⟩ ⟨0, 1, 0⟩ h).2.2.1 hv⟩

/-- Claim C20: for every sphere and every ray with `direction · direction`
outside the zero tolerance, whenever `ray_intersects_sphere` called with the
sentinel `FLT_MAX` returns a `t` other than `FLT_MAX` (the square root being exact
at the discriminant), then `t > 0`, the point `p = origin + t * direction` has
`(p - center) · (p - center) = radius`, and no root of the quadratic lies strictly
between `0` and `t`. -/
theorem ray_intersects_sphere_hit_is_nearest_root (sqrt : K → K) (ray : Ray K)
    (sphere : Sphere K) (t : K)
    (ha : float_is_zero (ray.direction.dot ray.direction) = false)
    (hsq : 0 ≤ quad_discriminant ray sphere →
      sqrt (quad_discriminant ray sphere) * sqrt (quad_discriminant ray sphere) =
        quad_discriminant ray sphere)
    (ht : ray_intersects_sphere sqrt ray sphere FLT_MAX = some t) (hne : t ≠ FLT_MAX) :
    0 < t ∧
      ((ray.origin.add (V3f.scalar_mul t ray.direction)).sub sphere.center).dot
        ((ray.origin.add (V3f.scalar_mul t ray.direction)).sub sphere.center) =
        sphere.radius ∧
      ∀ u, is_root ray sphere u → 0 < u → ¬ u < t := by
  rw [ray_intersects_sphere_eq] at ht
  have ha2 : float_is_zero (quad_a ray) = false := ha
  have hapos : 0 < quad_a ray := by
    have h1 := (float_is_zero_eq_false_iff _).mp ha2
    have h2 : 0 ≤ quad_a ray := by
      simp only [quad_a, V3f.dot]
      nlinarith [mul_self_nonneg ray.direction.x, mul_self_nonneg ray.direction.y,
        mul_self_nonneg ray.direction.z]
    rw [abs_of_nonneg h2] at h1
    exact lt_of_lt_of_le tolerance_pos h1
  simp only [ha2, Bool.false_eq_true, if_false] at ht
  by_cases hD : quad_discriminant ray sphere < 0
  · simp only [hD, if_true, Option.some.injEq] at ht
    exact absurd ht.symm hne
  simp only [hD, if_false] at ht
  by_cases hn : float_is_negative (sqrt (quad_discriminant ray sphere)) = true
  · simp only [hn, if_true, Option.some.injEq] at ht
    exact absurd ht.symm hne
  simp only [hn, if_false, Bool.false_eq_true] at ht
  set s := sqrt (quad_discriminant ray sphere) with hs_def
  have hs : tolerance ≤ s := by
    by_contra hlt
    exact hn ((float_is_negative_eq_true_iff s).mpr (not_le.mp hlt))
  have hspos : 0 < s := lt_of_lt_of_le tolerance_pos hs
  have hss : s * s = quad_discriminant ray sphere := hsq (not_lt.mp hD)
  have h2a : 0 < 2 * quad_a ray := by linarith
  have hlt : (-quad_b ray sphere - s) / (2 * quad_a ray) <
      (-quad_b ray sphere + s) / (2 * quad_a ray) := by
    apply div_lt_div_of_pos_right _ h2a
    linarith
  have hroots := is_root_iff ray sphere s
  by_cases hx1 : (-quad_b ray sphere + s) / (2 * quad_a ray) > 0
  · simp only [hx1, if_true] at ht
    by_cases hx2 : (-quad_b ray sphere - s) / (2 * quad_a ray) > 0
    · simp only [hx2, hlt, and_self, if_true, Option.some.injEq] at ht
      subst ht
      refine ⟨hx2, (is_root_iff_on_sphere ray sphere _).mp
        ((hroots _ hapos hss).mpr (Or.inr rfl)), ?_⟩
      intro u hu _ hlt2
      rcases (hroots u hapos hss).mp hu with h | h
      · rw [h] at hlt2
        exact absurd hlt2 (not_lt.mpr (le_of_lt hlt))
      · rw [h] at hlt2
        exact lt_irrefl _ hlt2
    · simp only [hx2, false_and, if_false, Option.some.injEq] at ht
      subst ht
      refine ⟨hx1, (is_root_iff_on_sphere ray sphere _).mp
        ((hroots _ hapos hss).mpr (Or.inl rfl)), ?_⟩
      intro u hu hupos hlt2
      rcases (hroots u hapos hss).mp hu with h | h
      · rw [h] at hlt2
        exact lt_irrefl _ hlt2
      · rw [h] at hupos
        exact hx2 hupos
  · simp only [hx1, if_false] at ht
    by_cases hx2 : (-quad_b ray sphere - s) / (2 * quad_a ray) > 0
    · exact absurd (lt_trans hx2 hlt) hx1
    · simp only [hx2, false_and, if_false, Option.some.injEq] at ht
      exact absurd ht.symm hne

/-- Claim C20, witness: `center_ray` meets `unit_sphere` at distance `4`. -/
theorem ray_intersects_sphere_hit_is_nearest_root_witness :
    ray_intersects_sphere sqrt_rat center_ray unit_sphere FLT_MAX = some 4 ∧
      (0 : ℚ) < 4 ∧
      ((center_ray.origin.add (V3f.scalar_mul 4 center_ray.direction)).sub
          unit_sphere.center).dot
        ((center_ray.origin.add (V3f.scalar_mul 4 center_ray.direction)).sub
          unit_sphere.center) = unit_sphere.radius ∧
      ∀ u, is_root center_ray unit_sphere u → 0 < u → ¬ u < 4 := by
  have hD : quad_discriminant center_ray unit_sphere = 4 := by
    norm_num [quad_a, quad_b, quad_c, quad_discriminant, center_ray, unit_sphere, V3f.dot,
      V3f.sub]
  have ht : ray_intersects_sphere sqrt_rat center_ray unit_sphere FLT_MAX = some 4 := by
    norm_num [ray_intersects_sphere, center_ray, unit_sphere, V3f.dot, V3f.sub,
      V3f.scalar_mul, V3f.mul_scalar, float_is_zero, float_is_negative, tolerance,
      sqrt_rat_four, FLT_MAX]
  exact ⟨ht, ray_intersects_sphere_hit_is_nearest_root sqrt_rat center_ray unit_sphere 4
    (by norm_num [center_ray, V3f.dot, float_is_zero, tolerance])
    (fun _ => by rw [hD, sqrt_rat_four]; norm_num) ht (by norm_num [FLT_MAX])⟩

end GeometryClaims

section SceneClaims

variable {K : Type}

/-- Claim C17: for every world built from a freshly constructed one by pushes,
`push_plane`, `push_sphere` and `push_light` fail exactly when the count equals
the capacity (`3`, `5`, `3`); otherwise the push stores the new element at the
index equal to the old count, increases that count by one, and leaves every
element stored before and the other two lists unchanged; every count stays at
most its capacity. -/
theorem push_within_capacity (w : World K) (h : World.Built w) :
    (w.planes.length ≤ 3 ∧ w.spheres.length ≤ 5 ∧ w.lights.length ≤ 3) ∧
      (∀ plane, w.push_plane plane = none ↔ w.planes.length = 3) ∧
      (∀ sphere, w.push_sphere sphere = none ↔ w.spheres.length = 5) ∧
      (∀ light, w.push_light light = none ↔ w.lights.length = 3) ∧
      (∀ plane w2, w.push_plane plane = some w2 →
        w2.planes.length = w.planes.length + 1 ∧ w2.planes[w.planes.length]? = some plane ∧
        (∀ i, i < w.planes.length → w2.planes[i]? = w.planes[i]?) ∧
        w2.spheres = w.spheres ∧ w2.lights = w.lights ∧ World.Built w2) ∧
      (∀ sphere w2, w.push_sphere sphere = some w2 →
        w2.spheres.length = w.spheres.length + 1 ∧
        w2.spheres[w.spheres.length]? = some sphere ∧
        (∀ i, i < w.spheres.length → w2.spheres[i]? = w.spheres[i]?) ∧
        w2.planes = w.planes ∧ w2.lights = w.lights ∧ World.Built w2) ∧
      (∀ light w2, w.push_light light = some w2 →
        w2.lights.length = w.lights.length + 1 ∧ w2.lights[w.lights.length]? = some light ∧
        (∀ i, i < w.lights.length → w2.lights[i]? = w.lights[i]?) ∧
        w2.planes = w.planes ∧ w2.spheres = w.spheres ∧ World.Built w2) := by
  have hc := built_counts w h
  refine ⟨hc, ?_, ?_, ?_, ?_, ?_, ?_⟩
  · intro p
    simp only [World.push_plane, World.max_num_planes]
    split <;> simp <;> omega
  · intro p
    simp only [World.push_sphere, World.max_num_spheres]
    split <;> simp <;> omega
  · intro p
    simp only [World.push_light, World.max_num_lights]
    split <;> simp <;> omega
  · intro p w2 hp
    have hb := World.Built.plane w w2 p h hp
    simp only [World.push_plane] at hp
    split at hp
    · simp only [Option.some.injEq] at hp
      subst hp
      refine ⟨by simp, by simp, ?_, rfl, rfl, hb⟩
      intro i hi
      simp [List.getElem?_append_left hi]
    · exact absurd hp (by simp)
  · intro p w2 hp
    have hb := World.Built.sphere w w2 p h hp
    simp only [World.push_sphere] at hp
    split at hp
    · simp only [Option.some.injEq] at hp
      subst hp
      refine ⟨by simp, by simp, ?_, rfl, rfl, hb⟩
      intro i hi
      simp [List.getElem?_append_left hi]
    · exact absurd hp (by simp)
  · intro p w2 hp
    have hb := World.Built.light w w2 p h hp
    simp only [World.push_light] at hp
    split at hp
    · simp only [Option.some.injEq] at hp
      subst hp
      refine ⟨by simp, by simp, ?_, rfl, rfl, hb⟩
      intro i hi
      simp [List.getElem?_append_left hi]
    · exact absurd hp (by simp)

end SceneClaims

/-- Claim C17, witness: `full_world` is built by three pushes of a plane onto a
fresh world, and a fourth push fails. -/
theorem push_within_capacity_witness :
    World.Built full_world ∧ full_world.push_plane floor_plane = none := by
  have h0 := World.Built.init (⟨240, 248, 255⟩ : Color) camera0
  have h1 := World.Built.plane _ ⟨[floor_plane], [], [], ⟨240, 248, 255⟩, camera0⟩
    floor_plane h0 rfl
  have h2 := World.Built.plane _ ⟨[floor_plane, ceiling], [], [], ⟨240, 248, 255⟩, camera0⟩
    ceiling h1 rfl
  have h3 : World.Built full_world := World.Built.plane _ full_world ground h2 rfl
  exact ⟨h3, ((push_within_capacity full_world h3).2.1 floor_plane).mpr rfl⟩

/-! ## Auxiliary lemmas for the film -/

section FilmLemmas

variable {K : Type} [LinearOrderedField K] [FloorRing K]

theorem ystep_pow2 (img : Image) (h : Nat) (hh : img.height = 2 ^ h) (h23 : h ≤ 23) :
    (ystep img : K) = 2 / (img.height : K) := by
  have hH : round32 ((img.height : Nat) : K) = img.height :=
    round32_natCast img.height (by
      rw [hh]
      exact Nat.pow_lt_pow_right (by norm_num) (by omega))
  have hd := round32_dyadic (K := K) 2 h (by norm_num) (by omega)
  unfold ystep
  rw [hH, hh]
  push_cast at hd ⊢
  exact hd

theorem film_y_run_pow2 (img : Image) (h : Nat) (hh : img.height = 2 ^ h) (h23 : h ≤ 23)
    (ymin j : Nat) (hj : ymin + j < img.height) :
    (film_y_run img ymin j : K) = 1 - 2 * ((ymin + j : Nat) : K) / (img.height : K) := by
  have hHK : ((img.height : Nat) : K) = 2 ^ h := by
    rw [hh]
    push_cast
    rfl
  have h2h : (0 : K) < 2 ^ h := pow_pos (by norm_num) h
  have hlt : img.height < 2 ^ 24 := by
    rw [hh]
    exact Nat.pow_lt_pow_right (by norm_num) (by omega)
  have hle : (2 : Nat) ^ h ≤ 2 ^ 23 := Nat.pow_le_pow_right (by norm_num) h23
  have hform : ∀ m : Nat, m ≤ img.height →
      (1 : K) - 2 * (m : K) / (img.height : K) =
        (((2 : Int) ^ h - 2 * (m : Int) : Int) : K) / 2 ^ h := by
    intro m _
    rw [hHK]
    push_cast
    field_simp
  have hfix : ∀ m : Nat, m ≤ img.height →
      round32 ((1 : K) - 2 * (m : K) / (img.height : K)) =
        1 - 2 * (m : K) / (img.height : K) := by
    intro m hm
    rw [hform m hm]
    apply round32_dyadic
    · rw [hh] at hm
      have : ((2 : Int) ^ h - 2 * (m : Int)).natAbs ≤ 2 ^ h := by
        have h1 : ((2 : Int) ^ h) = ((2 ^ h : Nat) : Int) := by push_cast; rfl
        rw [h1]
        omega
      omega
    · omega
  induction j with
  | zero =>
    have hy : ymin < img.height := by omega
    have hr1 : round32 ((ymin : Nat) : K) = ymin := round32_natCast ymin (by omega)
    have hr2 : round32 ((ymin : K) * (2 / (img.height : K))) =
        (ymin : K) * (2 / (img.height : K)) := by
      have hd := round32_dyadic (K := K) (2 * (ymin : Int)) h (by
        rw [hh] at hy
        omega) (by omega)
      have e : (ymin : K) * (2 / (img.height : K)) = ((2 * (ymin : Int) : Int) : K) / 2 ^ h := by
        rw [hHK]
        push_cast
        ring
      rw [e]
      exact hd
    rw [film_y_run, ystep_pow2 img h hh h23, hr1, hr2]
    have e2 : (1 : K) - (ymin : K) * (2 / (img.height : K)) =
        1 - 2 * (ymin : K) / (img.height : K) := by ring
    rw [e2, hfix ymin hy.le]
    simp
  | succ j ih =>
    rw [film_y_run, ih (by omega), ystep_pow2 img h hh h23]
    have e : (1 : K) - 2 * ((ymin + j : Nat) : K) / (img.height : K) - 2 / (img.height : K) =
        1 - 2 * ((ymin + (j + 1) : Nat) : K) / (img.height : K) := by
      push_cast
      ring
    rw [e]
    exact hfix _ hj.le

end FilmLemmas

section FilmClaims

variable {K : Type} [LinearOrderedField K] [FloorRing K]

end FilmClaims

theorem foldl_store_perm {α : Type} (ws ws2 : List (Nat × α)) (pixels : Nat → α)
    (hnd : (ws.map Prod.fst).Nodup) (hperm : ws2.Perm ws) :
    ws2.foldl store pixels = ws.foldl store pixels := by
  have hnd2 : (ws2.map Prod.fst).Nodup := ((hperm.map Prod.fst).nodup_iff).mpr hnd
  funext i
  by_cases hi : i ∈ ws.map Prod.fst
  · obtain ⟨w, hw, rfl⟩ := List.mem_map.mp hi
    rw [foldl_store_of_mem ws pixels w hnd hw,
      foldl_store_of_mem ws2 pixels w hnd2 (hperm.mem_iff.mpr hw)]
  · have hi2 : i ∉ ws2.map Prod.fst := fun h => hi ((hperm.map Prod.fst).mem_iff.mp h)
    rw [foldl_store_of_not_mem ws pixels i hi, foldl_store_of_not_mem ws2 pixels i hi2]
section BufferLemmas

variable {K : Type} [LinearOrderedField K] [FloorRing K]

theorem render_tile_indices (sqrt : K → K) (pow : K → K → K) (tile : TileInfo K)
    (ws : List (Nat × Color)) (hband : tile.ymin ≤ tile.ymax)
    (h : render_tile sqrt pow tile = some ws) :
    ws.map Prod.fst =
      List.range' (tile.ymin * tile.img.width) ((tile.ymax - tile.ymin) * tile.img.width) := by
  rw [render_tile_eq sqrt pow tile hband] at h
  rw [collect_pixel_store_fst _ _ _ _ _ h, band_index]

theorem stores_make_tiles (sqrt : K → K) (pow : K → K → K) (world : World K) (img : Image)
    (t n ymin : Nat) (wss : List (List (Nat × Color)))
    (h : List.Forall₂ (fun tile ws => render_tile sqrt pow tile = some ws)
      (make_tiles world img t n ymin) wss) :
    wss.flatten.map Prod.fst = List.range' (ymin * img.width) (n * t * img.width) := by
  induction n generalizing ymin wss with
  | zero =>
    simp only [make_tiles] at h
    cases h
    simp
  | succ n ih =>
    simp only [make_tiles] at h
    cases h with
    | cons h1 h2 =>
      rename_i ws rest
      have e1 := render_tile_indices sqrt pow _ ws (Nat.le_add_right ymin t) h1
      simp only [Nat.add_sub_cancel_left] at e1
      have e2 := ih (ymin + t) rest h2
      rw [List.flatten_cons, List.map_append, e1, e2,
        show (ymin + t) * img.width = ymin * img.width + t * img.width by ring,
        List.range'_append_1]
      congr 1
      ring

theorem cast_ray_empty (sqrt : K → K) (pow : K → K → K) (ray : Ray K) (world : World K)
    (hp : world.planes = []) (hs : world.spheres = []) :
    cast_ray sqrt pow ray world 0 = some world.default_color := by
  rw [cast_ray]
  simp [intersect_ray_with_world, hp, hs, scan_spheres, scan_init]

theorem render_tile_empty (sqrt : K → K) (pow : K → K → K) (tile : TileInfo K)
    (hp : tile.world.planes = []) (hs : tile.world.spheres = [])
    (hband : tile.ymin ≤ tile.ymax) :
    render_tile sqrt pow tile =
      some ((band tile.img tile.ymin (tile.ymax - tile.ymin)).map
        (fun p => (pixel_index tile.img p, tile.world.default_color))) := by
  rw [render_tile_eq sqrt pow tile hband]
  have hfun : pixel_store (render_pixel sqrt pow tile.world tile.img) tile.img tile.ymin =
      fun p => some (pixel_index tile.img p, tile.world.default_color) := by
    funext p
    simp only [pixel_store, render_pixel, cast_ray_empty sqrt pow _ tile.world hp hs]
  rw [hfun, collect_map_some]

end BufferLemmas

/-! ## Auxiliary lemmas for a world of planes -/

theorem ystep_big_image : (ystep big_image : ℚ) = 7953643 / 8589934592 := by
  have h1 : round32 (2160 : ℚ) = 2160 := by
    simpa using round32_natCast (K := ℚ) 2160 (by norm_num)
  have h2 : round32 (1 / 1080 : ℚ) = 7953643 / 8589934592 := by
    rw [round32_eq_of_near _ 15907286 (-11) (by norm_num) (by norm_num [abs_of_pos])
      (by norm_num [abs_of_pos]) (by norm_num [abs_lt])]
    norm_num
  norm_num [ystep, big_image, h1, h2]

theorem film_x_run_big_image_zero : (film_x_run big_image 0 : ℚ) = -1 := by
  norm_num [film_x_run, round32_zero, round32_neg_one]

theorem film_y_run_big_image (k : Nat) (hk : k ≤ 540) :
    (film_y_run big_image 0 k : ℚ) = 1 - (k : ℚ) * 15534 / 16777216 := by
  induction k with
  | zero => norm_num [film_y_run, round32_zero, round32_one]
  | succ k ih =>
    have hk2 : (k : ℚ) ≤ 539 := by
      have : k ≤ 539 := by omega
      exact_mod_cast this
    have hk0 : (0 : ℚ) ≤ (k : ℚ) := Nat.cast_nonneg k
    rw [film_y_run, ih (by omega), ystep_big_image]
    have hx : 0 < 1 - (k : ℚ) * 15534 / 16777216 - 7953643 / 8589934592 := by linarith
    rw [round32_eq_of_near _ (16777216 - ((k : Int) + 1) * 15534) (-1) (by norm_num)
      (by rw [abs_of_pos hx]; norm_num; linarith)
      (by rw [abs_of_pos hx]; norm_num; linarith)
      (by
        rw [abs_lt]
        push_cast
        norm_num
        constructor <;> linarith)]
    push_cast
    norm_num
    ring

theorem film_y_run_big_image_540 : (film_y_run big_image 0 540 : ℚ) = 1048607 / 2097152 := by
  rw [film_y_run_big_image 540 (le_refl _)]
  norm_num

theorem film_y_run_big_image_band : (film_y_run big_image 540 0 : ℚ) = 1 / 2 := by
  have h1 : round32 (540 : ℚ) = 540 := by
    simpa using round32_natCast (K := ℚ) 540 (by norm_num)
  have h2 : round32 (1073741805 / 2147483648 : ℚ) = 1 / 2 := by
    rw [round32_eq_of_near _ 16777216 (-2) (by norm_num) (by norm_num [abs_of_pos])
      (by norm_num [abs_of_pos]) (by norm_num [abs_lt])]
    norm_num
  rw [film_y_run, ystep_big_image]
  norm_num [h1, h2, round32_half]

section PlaneWorldLemmas

variable {K : Type} [LinearOrderedField K]

theorem intersect_of_no_spheres (sqrt : K → K) (ray : Ray K) (world : World K)
    (hs : world.spheres = []) :
    intersect_ray_with_world sqrt ray world =
      some (world.planes.foldl (scan_plane ray) scan_init).res := by
  simp [intersect_ray_with_world, hs, scan_spheres]

theorem shade_lights_isSome_of_no_spheres (sqrt : K → K) (pow : K → K → K) (ray : Ray K)
    (world : World K) (mat : Material K) (point normal : V3f K) (hs : world.spheres = [])
    (lights : List (Light K)) (acc : Intensities K) :
    ∃ acc2, shade_lights sqrt pow ray world mat point normal acc lights = some acc2 := by
  induction lights generalizing acc with
  | nil => exact ⟨acc, rfl⟩
  | cons light rest ih =>
    simp only [shade_lights, shade_light,
      intersect_of_no_spheres sqrt (shadow_ray sqrt point light) world hs]
    split_ifs
    · exact ih _
    · exact ih _

end PlaneWorldLemmas

section PlaneWorldShadingLemmas

variable {K : Type} [LinearOrderedField K] [FloorRing K]

theorem cast_ray_miss (sqrt : K → K) (pow : K → K → K) (ray : Ray K) (world : World K)
    (reflection_depth : Int) (r : RayIntersectionResult K)
    (hr : intersect_ray_with_world sqrt ray world = some r) (hi : r.intersected = false) :
    cast_ray sqrt pow ray world reflection_depth = some world.default_color := by
  rw [cast_ray]
  split
  · rfl
  · simp [hr, hi]

theorem cast_ray_isSome_of_no_spheres (sqrt : K → K) (pow : K → K → K) (world : World K)
    (hs : world.spheres = []) (m : Nat) :
    ∀ (ray : Ray K) (reflection_depth : Int), (4 - reflection_depth).toNat ≤ m →
      ∃ c, cast_ray sqrt pow ray world reflection_depth = some c := by
  induction m with
  | zero =>
    intro ray d hd
    rw [cast_ray]
    have : d > 3 := by omega
    simp [this]
  | succ m ih =>
    intro ray d hd
    by_cases h3 : d > 3
    · rw [cast_ray]
      simp [h3]
    have hr := intersect_of_no_spheres sqrt ray world hs
    by_cases hi : (world.planes.foldl (scan_plane ray) scan_init).res.intersected = true
    · obtain ⟨acc, hacc⟩ := shade_lights_isSome_of_no_spheres sqrt pow ray world
        (world.planes.foldl (scan_plane ray) scan_init).res.mat
        (world.planes.foldl (scan_plane ray) scan_init).res.intersection_point
        (world.planes.foldl (scan_plane ray) scan_init).res.normal hs world.lights ⟨0, 0⟩
      rw [cast_ray_hit sqrt pow ray world d _ acc (by omega) hr hi hacc]
      split_ifs
      · exact ⟨_, rfl⟩
      · obtain ⟨c, hc⟩ := ih (reflect_ray ray
          (world.planes.foldl (scan_plane ray) scan_init).res.intersection_point
          (world.planes.foldl (scan_plane ray) scan_init).res.normal) (d + 1) (by omega)
        rw [hc]
        exact ⟨_, rfl⟩
    · exact ⟨_, cast_ray_miss sqrt pow ray world d _ hr (by simpa using hi)⟩

theorem render_world_isSome_of_no_spheres (sqrt : K → K) (pow : K → K → K) (world : World K)
    (img : Image) (n : Nat) (pixels : Nat → Color) (hs : world.spheres = []) (hn : 1 ≤ n)
    (hdiv : img.height % n = 0) :
    ∃ b, render_world sqrt pow world img n pixels = some b := by
  rw [render_world_eq sqrt pow world img n pixels hn hdiv]
  obtain ⟨ws, hws⟩ := collect_of_forall_some
    (image_stores (render_pixel sqrt pow world img) img (img.height / n) n 0) (by
      intro o ho
      obtain ⟨k, p, _, _, rfl⟩ := mem_image_stores_iff _ _ _ _ _ _ ho
      obtain ⟨c, hc⟩ := cast_ray_isSome_of_no_spheres sqrt pow world hs 4
        (camera_ray sqrt world.camera img (film_x_run img p.1)
          (film_y_run img (0 + k * (img.height / n)) (p.2 - (0 + k * (img.height / n))))) 0
        (by norm_num)
      exact ⟨(pixel_index img p, c), by simp only [pixel_store, render_pixel, hc]⟩)
  exact ⟨_, by rw [hws]; rfl⟩

end PlaneWorldShadingLemmas

theorem half_film_size_big_image : (half_film_size big_image : ℚ × ℚ) = (1, 135 / 256) := by
  norm_num [half_film_size, big_image]

theorem black_plain :
    final_color plain ⟨0, 0⟩ (⟨240, 248, 255⟩ : Color) = ⟨0, 0, 0⟩ := by
  have r0 : round32 (0 : ℚ) = 0 := round32_zero
  have e0 : Color.mul_scalar (⟨203, 65, 84⟩ : Color) ((0 : ℚ) * 0) = ⟨0, 0, 0⟩ := by
    apply mul_scalar_eq <;> norm_num [r0]
  have e1 : Color.mul_scalar (⟨255, 255, 255⟩ : Color) (0 : ℚ) = ⟨0, 0, 0⟩ := by
    apply mul_scalar_eq <;> norm_num [r0]
  have e2 : Color.mul_scalar (⟨0, 0, 0⟩ : Color) (0 : ℚ) = ⟨0, 0, 0⟩ := by
    apply mul_scalar_eq <;> norm_num [r0]
  have e3 : Color.mul_scalar (⟨240, 248, 255⟩ : Color) (0 : ℚ) = ⟨0, 0, 0⟩ := by
    apply mul_scalar_eq <;> norm_num [r0]
  simp only [plain, final_color, Color.scalar_mul, e0, e1, e2, e3]
  rfl

/-- The pixel colour over `slanted_world` for a ray that hits the plane. -/
theorem cast_ray_slanted_hit (sqrt : ℚ → ℚ) (pow : ℚ → ℚ → ℚ) (ray : Ray ℚ)
    (ht : 0 ≤ ray_intersects_plane ray slanted_plane FLT_MAX ∧
      ray_intersects_plane ray slanted_plane FLT_MAX < FLT_MAX) :
    cast_ray sqrt pow ray slanted_world 0 = some ⟨0, 0, 0⟩ := by
  have hr := intersect_of_no_spheres sqrt ray slanted_world rfl
  have hfold : slanted_world.planes.foldl (scan_plane ray) scan_init =
      scan_plane ray scan_init slanted_plane := rfl
  have hcond : ray_intersects_plane ray slanted_plane FLT_MAX ≥ 0 ∧
      ray_intersects_plane ray slanted_plane FLT_MAX <
        (scan_init : ScanState ℚ).min_intersection_distance := ht
  have hi : (scan_plane ray scan_init slanted_plane).res.intersected = true := by
    rw [scan_plane]
    simp only [if_pos hcond]
  have hm : (scan_plane ray scan_init slanted_plane).res.mat = plain := by
    rw [scan_plane]
    simp only [if_pos hcond]
    rfl
  rw [hfold] at hr
  have hz0 : float_is_zero (0 : ℚ) = true := by
    norm_num [float_is_zero, tolerance]
  have hz2 : float_is_zero (plain.reflectance : ℚ) = true := hz0
  rw [cast_ray_hit sqrt pow ray slanted_world 0 _ ⟨0, 0⟩ (by norm_num) hr hi rfl, hm,
    if_pos hz2]
  exact congrArg some black_plain

/-- The pixel colour over `slanted_world` for a ray that the plane test takes as
parallel. -/
theorem cast_ray_slanted_miss (sqrt : ℚ → ℚ) (pow : ℚ → ℚ → ℚ) (ray : Ray ℚ)
    (hz : float_is_zero (slanted_plane.normal.dot ray.direction) = true) :
    cast_ray sqrt pow ray slanted_world 0 = some ⟨240, 248, 255⟩ := by
  have hr := intersect_of_no_spheres sqrt ray slanted_world rfl
  have hfold : slanted_world.planes.foldl (scan_plane ray) scan_init =
      scan_plane ray scan_init slanted_plane := rfl
  have ht : ray_intersects_plane ray slanted_plane FLT_MAX = FLT_MAX := by
    simp only [ray_intersects_plane, hz, if_true]
  have hcond : ¬ (ray_intersects_plane ray slanted_plane FLT_MAX ≥ 0 ∧
      ray_intersects_plane ray slanted_plane FLT_MAX <
        (scan_init : ScanState ℚ).min_intersection_distance) := by
    rw [ht]
    exact fun h => lt_irrefl _ h.2
  have hi : (scan_plane ray scan_init slanted_plane).res.intersected = false := by
    rw [scan_plane]
    simp only [if_neg hcond]
    rfl
  rw [hfold] at hr
  exact cast_ray_miss sqrt pow ray slanted_world 0 _ hr hi

/-- The camera ray of `big_image` through the film point with `film_x = -1`:
its direction is `(-1, (135 / 256) * film_y, 1)` divided by the length that
`sqrt` gives. -/
theorem camera_ray_big_image (sqrt : ℚ → ℚ) (film_y : ℚ) :
    camera_ray sqrt camera0 big_image (-1) film_y =
      ⟨⟨0, 0, 0⟩,
        V3f.scalar_mul (1 / sqrt (2 + 135 / 256 * film_y * (135 / 256 * film_y)))
          ⟨-1, 135 / 256 * film_y, 1⟩⟩ := by
  have hq : (-1 : ℚ) * -1 + 135 / 256 * film_y * (135 / 256 * film_y) + 1 * 1 =
      2 + 135 / 256 * film_y * (135 / 256 * film_y) := by ring
  simp only [camera_ray, film_point, film_space, half_film_size_big_image, camera0,
    CoordinateSpace.vector, normalize, V3f.length, V3f.length_sq, V3f.dot, V3f.add, V3f.sub,
    V3f.scalar_mul, V3f.mul_scalar]
  norm_num
  rw [← hq]
  norm_num

/-- The plane test of `slanted_plane` on a ray from the origin along
`(-1, y, 1) / len`. -/
theorem slanted_dot (len y : ℚ) :
    slanted_plane.normal.dot (V3f.scalar_mul (1 / len) (⟨-1, y, 1⟩ : V3f ℚ)) =
      (16223343 / 16777216 * y - 8550581 / 33554432) / len := by
  simp only [slanted_plane, V3f.dot, V3f.scalar_mul, V3f.mul_scalar]
  ring

theorem render_pixel_slanted_single (sqrt : ℚ → ℚ) (pow : ℚ → ℚ → ℚ)
    (h : 141 / 100 ≤ sqrt (596500536575606513 / 288230376151711744) ∧
      sqrt (596500536575606513 / 288230376151711744) ≤ 147 / 100) :
    render_pixel sqrt pow slanted_world big_image (-1) (1048607 / 2097152) =
      some ⟨0, 0, 0⟩ := by
  have hc : slanted_world.camera = camera0 := rfl
  have hq : (2 : ℚ) + 135 / 256 * (1048607 / 2097152) * (135 / 256 * (1048607 / 2097152)) =
      596500536575606513 / 288230376151711744 := by norm_num
  rw [render_pixel, hc, camera_ray_big_image, hq]
  set len := sqrt (596500536575606513 / 288230376151711744) with hlen
  have hpos : 0 < len := by linarith [h.1]
  apply cast_ray_slanted_hit
  have hd := slanted_dot len (135 / 256 * (1048607 / 2097152))
  have hz : float_is_zero ((16223343 / 16777216 * (135 / 256 * (1048607 / 2097152)) -
      8550581 / 33554432) / len) = false := by
    rw [float_is_zero_eq_false_iff, abs_of_pos (div_pos (by norm_num) hpos), le_div_iff₀ hpos]
    norm_num [tolerance]
    linarith [h.2]
  have ht : ray_intersects_plane
      ⟨⟨0, 0, 0⟩, V3f.scalar_mul (1 / len) ⟨-1, 135 / 256 * (1048607 / 2097152), 1⟩⟩
      slanted_plane FLT_MAX =
      len / (16223343 / 16777216 * (135 / 256 * (1048607 / 2097152)) -
        8550581 / 33554432) := by
    simp only [ray_intersects_plane, hd, hz]
    simp only [slanted_plane, V3f.dot]
    field_simp
    ring
  rw [ht]
  constructor
  · exact div_nonneg hpos.le (by norm_num)
  · rw [div_lt_iff₀ (by norm_num)]
    norm_num [FLT_MAX]
    linarith [h.2]

theorem render_pixel_slanted_band (sqrt : ℚ → ℚ) (pow : ℚ → ℚ → ℚ)
    (h : 141 / 100 ≤ sqrt (542513 / 262144) ∧ sqrt (542513 / 262144) ≤ 147 / 100) :
    render_pixel sqrt pow slanted_world big_image (-1) (1 / 2) =
      some ⟨240, 248, 255⟩ := by
  have hc : slanted_world.camera = camera0 := rfl
  have hq : (2 : ℚ) + 135 / 256 * (1 / 2) * (135 / 256 * (1 / 2)) = 542513 / 262144 := by
    norm_num
  rw [render_pixel, hc, camera_ray_big_image, hq]
  set len := sqrt (542513 / 262144) with hlen
  have hpos : 0 < len := by linarith [h.1]
  apply cast_ray_slanted_miss
  rw [slanted_dot, float_is_zero_eq_true_iff]
  constructor
  · have : (0 : ℚ) < (16223343 / 16777216 * (135 / 256 * (1 / 2)) - 8550581 / 33554432) / len :=
      div_pos (by norm_num) hpos
    linarith [tolerance_pos (K := ℚ)]
  · rw [div_lt_iff₀ hpos]
    norm_num [tolerance]
    linarith [h.1]

theorem render_pixel_slanted_top (sqrt : ℚ → ℚ) (pow : ℚ → ℚ → ℚ)
    (h : 0 < sqrt (149297 / 65536) ∧ sqrt (149297 / 65536) ≤ 2) :
    render_pixel sqrt pow slanted_world big_image (-1) 1 = some ⟨0, 0, 0⟩ := by
  have hc : slanted_world.camera = camera0 := rfl
  have hq : (2 : ℚ) + 135 / 256 * 1 * (135 / 256 * 1) = 149297 / 65536 := by norm_num
  rw [render_pixel, hc, camera_ray_big_image, hq]
  set len := sqrt (149297 / 65536) with hlen
  have hpos : 0 < len := h.1
  apply cast_ray_slanted_hit
  have hd := slanted_dot len (135 / 256 * 1)
  have hz : float_is_zero ((16223343 / 16777216 * (135 / 256 * 1) -
      8550581 / 33554432) / len) = false := by
    rw [float_is_zero_eq_false_iff, abs_of_pos (div_pos (by norm_num) hpos), le_div_iff₀ hpos]
    norm_num [tolerance]
    linarith [h.2]
  have ht : ray_intersects_plane
      ⟨⟨0, 0, 0⟩, V3f.scalar_mul (1 / len) ⟨-1, 135 / 256 * 1, 1⟩⟩
      slanted_plane FLT_MAX =
      len / (16223343 / 16777216 * (135 / 256 * 1) - 8550581 / 33554432) := by
    simp only [ray_intersects_plane, hd, hz]
    simp only [slanted_plane, V3f.dot]
    field_simp
    ring
  rw [ht]
  constructor
  · exact div_nonneg hpos.le (by norm_num)
  · rw [div_lt_iff₀ (by norm_num)]
    norm_num [FLT_MAX]
    linarith [h.2]

theorem film_y_run_big_image_zero : (film_y_run big_image 0 0 : ℚ) = 1 := by
  rw [film_y_run_big_image 0 (by norm_num)]
  norm_num


/-! ## The claims on rendering -/

section RenderClaims

variable {K : Type} [LinearOrderedField K] [FloorRing K]

/-- Claim C15: for every image of width `W` and height `H` and every thread count
`n ≥ 1` with `H % n = 0`, `render_world` assigns the bands
`[k * (H / n), (k + 1) * (H / n))` for `k = 0, …, n - 1`; every row of `[0, H)` lies
in one of them and no row in two; `render_tile` for a band `[ymin, ymax)` stores
at exactly the indices `y * W + x` with `ymin ≤ y < ymax` and `0 ≤ x < W`, at each
once; and the stores of all the bands together go to every index of `[0, W * H)`
exactly once. -/
theorem render_world_bands_partition (sqrt : K → K) (pow : K → K → K) (world : World K) (img : Image) (n : Nat)
    (hn : 1 ≤ n) (hdiv : img.height % n = 0) :
    tile_infos world img n =
        some ((List.range n).map (fun k =>
          ({ img := img, ymin := k * (img.height / n), ymax := (k + 1) * (img.height / n),
             world := world } : TileInfo K))) ∧
      (∀ y, y < img.height ↔
        ∃ k, k < n ∧ k * (img.height / n) ≤ y ∧ y < (k + 1) * (img.height / n)) ∧
      (∀ y k1 k2, k1 * (img.height / n) ≤ y → y < (k1 + 1) * (img.height / n) →
        k2 * (img.height / n) ≤ y → y < (k2 + 1) * (img.height / n) → k1 = k2) ∧
      (∀ (tile : TileInfo K) (ws : List (Nat × Color)), tile.ymin ≤ tile.ymax →
        render_tile sqrt pow tile = some ws →
        (ws.map Prod.fst).Nodup ∧
          ∀ i, i ∈ ws.map Prod.fst ↔
            ∃ x y, tile.ymin ≤ y ∧ y < tile.ymax ∧ x < tile.img.width ∧
              i = y * tile.img.width + x) ∧
      (∀ tiles wss, tile_infos world img n = some tiles →
        List.Forall₂ (fun tile ws => render_tile sqrt pow tile = some ws) tiles wss →
        wss.flatten.map Prod.fst = List.range (img.width * img.height)) := by
  have hH : n * (img.height / n) = img.height :=
    Nat.mul_div_cancel' (Nat.dvd_of_mod_eq_zero hdiv)
  have hn0 : n ≠ 0 := by omega
  have htiles : tile_infos world img n =
      some (make_tiles world img (img.height / n) n 0) := by
    simp only [tile_infos, hn0, if_false, hdiv, if_true]
  refine ⟨?_, bands_cover img.height n hdiv, ?_, ?_, ?_⟩
  · rw [htiles, make_tiles_eq]
    simp
  · intro y k1 k2 h1 h2 h3 h4
    exact bands_disjoint _ y k1 k2 h1 h2 h3 h4
  · intro tile ws hband h
    rw [render_tile_eq sqrt pow tile hband] at h
    have hidx := collect_pixel_store_fst _ _ _ _ _ h
    constructor
    · rw [hidx, band_index]
      exact List.nodup_range' _ _
    · intro i
      rw [hidx, List.mem_map]
      constructor
      · rintro ⟨p, hp, rfl⟩
        rw [mem_band] at hp
        exact ⟨p.1, p.2, hp.2.1, by omega, hp.1, rfl⟩
      · rintro ⟨x, y, h1, h2, h3, rfl⟩
        exact ⟨(x, y), (mem_band _ _ _ _).mpr ⟨h3, h1, by omega⟩, rfl⟩
  · intro tiles wss ht hf
    rw [htiles] at ht
    simp only [Option.some.injEq] at ht
    subst ht
    rw [stores_make_tiles sqrt pow world img _ n 0 wss hf, hH, Nat.zero_mul,
      List.range_eq_range', Nat.mul_comm]

/-- Claim C15, witness: an image of two by two pixels rendered by two threads over
a world without surfaces: the bands are the rows `0` and `1`, and their stores go
to the indices `0, 1, 2, 3`. -/
theorem render_world_bands_partition_witness :
    tile_infos empty_world small_image 2 =
        some [⟨small_image, 0, 1, empty_world⟩, ⟨small_image, 1, 2, empty_world⟩] ∧
      ∃ ws1 ws2,
        render_tile sqrt_rat pow_rat ⟨small_image, 0, 1, empty_world⟩ = some ws1 ∧
        render_tile sqrt_rat pow_rat ⟨small_image, 1, 2, empty_world⟩ = some ws2 ∧
        (ws1 ++ ws2).map Prod.fst = [0, 1, 2, 3] := by
  have h := render_world_bands_partition sqrt_rat pow_rat empty_world small_image 2
    (by decide) (by decide)
  have ht : tile_infos empty_world small_image 2 =
      some [⟨small_image, 0, 1, empty_world⟩, ⟨small_image, 1, 2, empty_world⟩] := by
    rw [h.1]
    rfl
  have h1 := render_tile_empty sqrt_rat pow_rat ⟨small_image, 0, 1, empty_world⟩ rfl rfl
    (by decide)
  have h2 := render_tile_empty sqrt_rat pow_rat ⟨small_image, 1, 2, empty_world⟩ rfl rfl
    (by decide)
  refine ⟨ht, _, _, h1, h2, ?_⟩
  have h5 := h.2.2.2.2 _ [_, _] ht (List.Forall₂.cons h1 (List.Forall₂.cons h2 List.Forall₂.nil))
  simpa using h5

/-- Claim C16, amended: for every world, image size and band, what `render_tile`
stores for the pixel `(x, y)` is the colour cast for the film coordinates
`film_x_run x` and `film_y_run ymin (y - ymin)`: a function of `x`, `y`, the image
size, the world and the first row `ymin` of the band (through the running
`film_y`, which starts at the `float` `1 - ymin * ystep` and is decreased by the
`float` `ystep` once per row), not of `ymax`.  Rendering with `n` bands (`n ≥ 1`
dividing the height) stores at `y * W + x` the colour of the pixel `(x, y)` in its
band and leaves the buffer unchanged from `W * H` on, so two renderings with the
same `n` agree on every pixel whatever the buffer held before; the same buffer
results when the stores are made in any other order; and it is the buffer of the
single band `[0, height)` whenever the running `film_y` of every band agrees with
that of the single band, as it does for every height that is a power of two up to
`2 ^ 23`. -/
theorem render_world_per_band (sqrt : K → K) (pow : K → K → K) (world : World K)
    (img : Image) (n : Nat) (pixels : Nat → Color) (hn : 1 ≤ n) (hdiv : img.height % n = 0) :
    (∀ tile : TileInfo K, tile.ymin ≤ tile.ymax →
        render_tile sqrt pow tile =
          collect ((band tile.img tile.ymin (tile.ymax - tile.ymin)).map (fun p =>
            (cast_ray sqrt pow
              (camera_ray sqrt tile.world.camera tile.img (film_x_run tile.img p.1)
                (film_y_run tile.img tile.ymin (p.2 - tile.ymin))) tile.world 0).map
              (fun c => (p.2 * tile.img.width + p.1, c))))) ∧
      (∀ b, render_world sqrt pow world img n pixels = some b →
        (∀ k x y, k < n → x < img.width → k * (img.height / n) ≤ y →
          y < (k + 1) * (img.height / n) →
          cast_ray sqrt pow
              (camera_ray sqrt world.camera img (film_x_run img x)
                (film_y_run img (k * (img.height / n)) (y - k * (img.height / n)))) world 0 =
            some (b (y * img.width + x))) ∧
        ∀ i, img.width * img.height ≤ i → b i = pixels i) ∧
      (∀ pixels2 b b2, render_world sqrt pow world img n pixels = some b →
        render_world sqrt pow world img n pixels2 = some b2 →
        ∀ i, i < img.width * img.height → b i = b2 i) ∧
      (∀ ws ws2 : List (Nat × Color),
        collect (image_stores (render_pixel sqrt pow world img) img (img.height / n) n 0) =
          some ws →
        List.Perm ws2 ws →
        render_world sqrt pow world img n pixels = some (ws2.foldl store pixels)) ∧
      ((∀ k j, k < n → j < img.height / n →
          (film_y_run img (k * (img.height / n)) j : K) =
            film_y_run img 0 (k * (img.height / n) + j)) →
        render_world sqrt pow world img n pixels =
          render_world sqrt pow world img 1 pixels) ∧
      (∀ h : Nat, img.height = 2 ^ h → h ≤ 23 →
        render_world sqrt pow world img n pixels =
          render_world sqrt pow world img 1 pixels) := by
  have hH : n * (img.height / n) = img.height :=
    Nat.mul_div_cancel' (Nat.dvd_of_mod_eq_zero hdiv)
  have hmain := fun px b hb => render_world_pixel sqrt pow world img n px b hn hdiv hb
  have hsame : (∀ k j, k < n → j < img.height / n →
      (film_y_run img (k * (img.height / n)) j : K) =
        film_y_run img 0 (k * (img.height / n) + j)) →
      render_world sqrt pow world img n pixels =
        render_world sqrt pow world img 1 pixels := by
    intro hagree
    rw [render_world_eq sqrt pow world img n pixels hn hdiv,
      render_world_eq sqrt pow world img 1 pixels (le_refl 1) (Nat.mod_one _),
      image_stores_of_agree _ img (img.height / n) n 0 (by simpa using hagree), hH,
      Nat.div_one]
    simp [image_stores]
  refine ⟨?_, hmain pixels, ?_, ?_, hsame, ?_⟩
  · intro tile h
    rw [render_tile_eq sqrt pow tile h]
    congr 1
    apply List.map_congr_left
    intro p _
    simp only [pixel_store, render_pixel, pixel_index]
    cases cast_ray sqrt pow
      (camera_ray sqrt tile.world.camera tile.img (film_x_run tile.img p.1)
        (film_y_run tile.img tile.ymin (p.2 - tile.ymin))) tile.world 0 <;> rfl
  · intro pixels2 b b2 h1 h2 i hi
    have hW : 0 < img.width := Nat.pos_of_ne_zero (fun h0 => by simp [h0] at hi)
    have hx : i % img.width < img.width := Nat.mod_lt _ hW
    have hy : i / img.width < img.height := by
      rw [Nat.div_lt_iff_lt_mul hW, Nat.mul_comm]
      exact hi
    obtain ⟨k, hk, hk1, hk2⟩ := (bands_cover img.height n hdiv (i / img.width)).mp hy
    have e1 := (hmain pixels b h1).1 k _ _ hk hx hk1 hk2
    have e2 := (hmain pixels2 b2 h2).1 k _ _ hk hx hk1 hk2
    rw [e1] at e2
    have hi2 : i / img.width * img.width + i % img.width = i := by
      rw [Nat.mul_comm]
      exact Nat.div_add_mod i img.width
    simp only [Option.some.injEq, hi2] at e2
    exact e2
  · intro ws ws2 hc hperm
    have hnd : (ws.map Prod.fst).Nodup := by
      rw [collect_image_stores_fst _ _ _ _ _ _ hc]
      exact List.nodup_range' _ _
    rw [render_world_eq sqrt pow world img n pixels hn hdiv, hc, Option.map_some',
      foldl_store_perm ws ws2 pixels hnd hperm]
  · intro h hh h23
    apply hsame
    intro k j hk hj
    have hlt : k * (img.height / n) + j < img.height := by
      have h1 : (k + 1) * (img.height / n) ≤ n * (img.height / n) :=
        Nat.mul_le_mul_right _ hk
      rw [Nat.add_mul, Nat.one_mul] at h1
      omega
    rw [film_y_run_pow2 img h hh h23 (k * (img.height / n)) j hlt,
      film_y_run_pow2 img h hh h23 0 (k * (img.height / n) + j) (by omega), Nat.zero_add]

end RenderClaims

/-- Claim C16, counterexample: `slanted_world` on the image of `4096` by `2160`
pixels.  In the single band the running `film_y` reaches the row `540` as
`1048607 / 2097152` (each step takes `15534` units of `2 ^ (-24)` off); the band
`[540, 1080)` of four starts that row at `1 - 540 * ystep`, which is `1 / 2`.  For
the first value the ray through the pixel `(0, 540)` has `normal · direction`
about `1.0256 * 10 ^ (-4)`, above the zero tolerance, and the pixel is the colour
of the hit; for the second it is about `0.974 * 10 ^ (-4)`, below the tolerance,
the ray counts as parallel, and the pixel is the background colour.  This is so
for `sqrt_rat` and for every square root function that gives the lengths of the
two rays, `1.438585…` and `1.438584…`, to two percent. -/
theorem render_world_differs_with_bands :
    (film_y_run big_image 0 540 : ℚ) = 1048607 / 2097152 ∧
      (film_y_run big_image 540 0 : ℚ) = 1 / 2 ∧
      (∃ b1 b4,
        render_world sqrt_rat pow_rat slanted_world big_image 1 (fun _ => ⟨1, 2, 3⟩) =
          some b1 ∧
        render_world sqrt_rat pow_rat slanted_world big_image 4 (fun _ => ⟨1, 2, 3⟩) =
          some b4 ∧
        b1 (540 * 4096 + 0) = ⟨0, 0, 0⟩ ∧ b4 (540 * 4096 + 0) = ⟨240, 248, 255⟩) ∧
      ∀ sqrt : ℚ → ℚ,
        (141 / 100 ≤ sqrt (596500536575606513 / 288230376151711744) ∧
          sqrt (596500536575606513 / 288230376151711744) ≤ 147 / 100) →
        (141 / 100 ≤ sqrt (542513 / 262144) ∧ sqrt (542513 / 262144) ≤ 147 / 100) →
        ∃ b1 b4,
          render_world sqrt pow_rat slanted_world big_image 1 (fun _ => ⟨1, 2, 3⟩) =
            some b1 ∧
          render_world sqrt pow_rat slanted_world big_image 4 (fun _ => ⟨1, 2, 3⟩) =
            some b4 ∧
          b1 (540 * 4096 + 0) = ⟨0, 0, 0⟩ ∧ b4 (540 * 4096 + 0) = ⟨240, 248, 255⟩ := by
  have hgen : ∀ sqrt : ℚ → ℚ,
      (141 / 100 ≤ sqrt (596500536575606513 / 288230376151711744) ∧
        sqrt (596500536575606513 / 288230376151711744) ≤ 147 / 100) →
      (141 / 100 ≤ sqrt (542513 / 262144) ∧ sqrt (542513 / 262144) ≤ 147 / 100) →
      ∃ b1 b4,
        render_world sqrt pow_rat slanted_world big_image 1 (fun _ => ⟨1, 2, 3⟩) =
          some b1 ∧
        render_world sqrt pow_rat slanted_world big_image 4 (fun _ => ⟨1, 2, 3⟩) =
          some b4 ∧
        b1 (540 * 4096 + 0) = ⟨0, 0, 0⟩ ∧ b4 (540 * 4096 + 0) = ⟨240, 248, 255⟩ := by
    intro sqrt hs1 hs2
    obtain ⟨b1, h1⟩ := render_world_isSome_of_no_spheres sqrt pow_rat slanted_world big_image
      1 (fun _ => ⟨1, 2, 3⟩) rfl (by decide) (by decide)
    obtain ⟨b4, h4⟩ := render_world_isSome_of_no_spheres sqrt pow_rat slanted_world big_image
      4 (fun _ => ⟨1, 2, 3⟩) rfl (by decide) (by decide)
    have e1 := (render_world_pixel sqrt pow_rat slanted_world big_image 1 _ b1 (by decide)
      (by decide) h1).1 0 0 540 (by decide) (by decide) (by decide) (by decide)
    have e4 := (render_world_pixel sqrt pow_rat slanted_world big_image 4 _ b4 (by decide)
      (by decide) h4).1 1 0 540 (by decide) (by decide) (by decide) (by decide)
    have a1 : 0 * (big_image.height / 1) = 0 := by decide
    have a2 : 540 - 0 = 540 := by decide
    have a4 : 1 * (big_image.height / 4) = 540 := by decide
    have a5 : 540 - 540 = 0 := by decide
    have a6 : big_image.width = 4096 := rfl
    rw [a1, a2, film_x_run_big_image_zero, film_y_run_big_image_540,
      render_pixel_slanted_single sqrt pow_rat hs1, a6] at e1
    rw [a4, a5, film_x_run_big_image_zero, film_y_run_big_image_band,
      render_pixel_slanted_band sqrt pow_rat hs2, a6] at e4
    simp only [Option.some.injEq] at e1 e4
    exact ⟨b1, b4, h1, h4, e1.symm, e4.symm⟩
  refine ⟨film_y_run_big_image_540, film_y_run_big_image_band, ?_, hgen⟩
  apply hgen sqrt_rat
  · rw [sqrt_rat_film_single]
    norm_num
  · rw [sqrt_rat_film_band]
    norm_num

/-- Claim C16, witness: `slanted_world` on the image of `4096` by `2160` pixels in
four bands.  The pixel `(0, 0)` of the first band holds the colour of a hit, the
pixel `(0, 540)`, first of the second band, the background colour, and the buffer
is unchanged from `4096 * 2160` on.  The height `2` of the image of two by two
pixels is a power of two, and there two bands give the buffer of the single
band. -/
theorem render_world_per_band_witness :
    (1 ≤ 4 ∧ big_image.height % 4 = 0) ∧
      (∃ b,
        render_world sqrt_rat pow_rat slanted_world big_image 4 (fun _ => ⟨1, 2, 3⟩) =
          some b ∧
        b (0 * 4096 + 0) = ⟨0, 0, 0⟩ ∧ b (540 * 4096 + 0) = ⟨240, 248, 255⟩ ∧
        ∀ i, 4096 * 2160 ≤ i → b i = ⟨1, 2, 3⟩) ∧
      render_world sqrt_rat pow_rat slanted_world small_image 2 (fun _ => ⟨1, 2, 3⟩) =
        render_world sqrt_rat pow_rat slanted_world small_image 1 (fun _ => ⟨1, 2, 3⟩) := by
  have h := render_world_per_band sqrt_rat pow_rat slanted_world big_image 4
    (fun _ => ⟨1, 2, 3⟩) (by decide) (by decide)
  have hsmall := render_world_per_band sqrt_rat pow_rat slanted_world small_image 2
    (fun _ => ⟨1, 2, 3⟩) (by decide) (by decide)
  obtain ⟨b, hb⟩ := render_world_isSome_of_no_spheres sqrt_rat pow_rat slanted_world big_image
    4 (fun _ => ⟨1, 2, 3⟩) rfl (by decide) (by decide)
  have e0 := (h.2.1 b hb).1 0 0 0 (by decide) (by decide) (by decide) (by decide)
  have e4 := (h.2.1 b hb).1 1 0 540 (by decide) (by decide) (by decide) (by decide)
  have a1 : 0 * (big_image.height / 4) = 0 := by decide
  have a2 : 0 - 0 = 0 := by decide
  have a4 : 1 * (big_image.height / 4) = 540 := by decide
  have a5 : 540 - 540 = 0 := by decide
  have a6 : big_image.width = 4096 := rfl
  have p0 := render_pixel_slanted_top sqrt_rat pow_rat (by
    rw [sqrt_rat_film_top]
    norm_num)
  have p4 := render_pixel_slanted_band sqrt_rat pow_rat (by
    rw [sqrt_rat_film_band]
    norm_num)
  rw [render_pixel] at p0 p4
  rw [a1, a2, film_x_run_big_image_zero, film_y_run_big_image_zero, p0, a6] at e0
  rw [a4, a5, film_x_run_big_image_zero, film_y_run_big_image_band, p4, a6] at e4
  simp only [Option.some.injEq] at e0 e4
  refine ⟨⟨by decide, by decide⟩, ⟨b, hb, e0.symm, e4.symm, (h.2.1 b hb).2⟩, ?_⟩
  exact hsmall.2.2.2.2.2 1 rfl (by norm_num)

end Raytracer
